import Mathlib

/-!
Verification of the open-bitdemon-emulator wire-protocol core.

This file shallowly embeds the Rust sources of the repository
(`libbitdemon`): the dual-mode bit/byte type-checked codec
(`messaging/bd_writer.rs`, `messaging/bd_reader.rs`,
`messaging/bd_data_type.rs`), the rotating in-memory key store
(`auth/key_store.rs`), the opaque authentication proof
(`auth/auth_proof.rs`), the Steam authentication handler
(`auth/auth_handler/steam.rs`), the lobby dispatcher (`lobby/mod.rs`),
the lobby authentication service (`lobby/service/lobby.rs`) and the
task-reply envelope (`lobby/response/task_reply.rs`).

Conventions of the embedding:
* Machine integers are `Nat` (for unsigned values and for the byte
  patterns of signed and floating-point values) or `Int` (for timestamp
  arithmetic done in `i64`), with explicit `% 2 ^ w` where the Rust code
  truncates.
* Byte buffers are `List Nat` with every element `< 256`.
* Rust `u8` masking (`x & (0xFF >> (8 - n))`) is written `x % 2 ^ n`,
  and `u8` shifts (`x << n` on `u8`) are written `(x <<< n) % 256`;
  both are the standard arithmetic readings of the bit operations.
* The `while` loops of `write_bits` / `read_bits` are translated with an
  explicit fuel argument equal to the initial bit count; every loop
  iteration consumes at least one bit, so the fuel never runs out.
  This keeps the definitions structurally recursive and executable.
-/

/-! ## Bit-level helper functions (pure mathematics, used by the proofs) -/

/-- The low `n` bits of `x`, least-significant first. -/
def natToBits : Nat → Nat → List Bool
  | 0, _ => []
  | n + 1, x => (x % 2 = 1) :: natToBits n (x / 2)

/-- Value of a bit list, least-significant first. -/
def bitsToNat : List Bool → Nat
  | [] => 0
  | b :: rest => (if b then 1 else 0) + 2 * bitsToNat rest

/-- All bits of a byte buffer, each byte LSB-first. -/
def bytesToBits : List Nat → List Bool
  | [] => []
  | b :: rest => natToBits 8 b ++ bytesToBits rest

/-- Fuel-based worker for `bitsToBytes`; any fuel at least the list
length gives the same result. -/
def bitsToBytesF : Nat → List Bool → List Nat
  | 0, _ => []
  | _, [] => []
  | fuel + 1, b :: rest => bitsToNat ((b :: rest).take 8) :: bitsToBytesF fuel (rest.drop 7)

/-- Pack a bit list into bytes LSB-first; a trailing partial chunk is
zero-padded. -/
def bitsToBytes (l : List Bool) : List Nat := bitsToBytesF l.length l

/-- Little-endian byte encoding of `x` on `n` bytes (`to_le_bytes`). -/
def leBytes : Nat → Nat → List Nat
  | 0, _ => []
  | n + 1, x => (x % 256) :: leBytes n (x / 256)

/-- Little-endian value of a byte list (`from_le_bytes`). -/
def fromLeBytes : List Nat → Nat
  | [] => 0
  | b :: rest => b + 256 * fromLeBytes rest

/-! ## Stream modes and data types (`messaging/mod.rs`, `bd_data_type.rs`) -/

inductive StreamMode where
  | ByteMode
  | BitMode
deriving DecidableEq

inductive BdDataType where
  | NoType
  | BoolType
  | SignedChar8Type
  | UnsignedChar8Type
  | WChar16Type
  | SignedInteger16Type
  | UnsignedInteger16Type
  | SignedInteger32Type
  | UnsignedInteger32Type
  | SignedInteger64Type
  | UnsignedInteger64Type
  | RangedSignedInteger32Type
  | RangedUnsignedInteger32Type
  | Float32Type
  | Float64Type
  | RangedFloat32Type
  | SignedChar8StringType
  | UnsignedChar8StringType
  | MbStringType
  | BlobType
  | NanType
  | FullType
  | MaxType
deriving DecidableEq

/-- Numeric value of a `BdDataType` (the `#[repr(u32)]` discriminants). -/
def bdDataTypeVal : BdDataType → Nat
  | .NoType => 0x0
  | .BoolType => 0x1
  | .SignedChar8Type => 0x2
  | .UnsignedChar8Type => 0x3
  | .WChar16Type => 0x4
  | .SignedInteger16Type => 0x5
  | .UnsignedInteger16Type => 0x6
  | .SignedInteger32Type => 0x7
  | .UnsignedInteger32Type => 0x8
  | .SignedInteger64Type => 0x9
  | .UnsignedInteger64Type => 0xA
  | .RangedSignedInteger32Type => 0xB
  | .RangedUnsignedInteger32Type => 0xC
  | .Float32Type => 0xD
  | .Float64Type => 0xE
  | .RangedFloat32Type => 0xF
  | .SignedChar8StringType => 0x10
  | .UnsignedChar8StringType => 0x11
  | .MbStringType => 0x12
  | .BlobType => 0x13
  | .NanType => 0x14
  | .FullType => 0x15
  | .MaxType => 0x20

/-- `BdDataType::from_u8` (derived `FromPrimitive`): inverse of the
discriminant table, `none` on any other value. -/
def bdDataTypeFromU8 (v : Nat) : Option BdDataType :=
  if v = 0x0 then some .NoType
  else if v = 0x1 then some .BoolType
  else if v = 0x2 then some .SignedChar8Type
  else if v = 0x3 then some .UnsignedChar8Type
  else if v = 0x4 then some .WChar16Type
  else if v = 0x5 then some .SignedInteger16Type
  else if v = 0x6 then some .UnsignedInteger16Type
  else if v = 0x7 then some .SignedInteger32Type
  else if v = 0x8 then some .UnsignedInteger32Type
  else if v = 0x9 then some .SignedInteger64Type
  else if v = 0xA then some .UnsignedInteger64Type
  else if v = 0xB then some .RangedSignedInteger32Type
  else if v = 0xC then some .RangedUnsignedInteger32Type
  else if v = 0xD then some .Float32Type
  else if v = 0xE then some .Float64Type
  else if v = 0xF then some .RangedFloat32Type
  else if v = 0x10 then some .SignedChar8StringType
  else if v = 0x11 then some .UnsignedChar8StringType
  else if v = 0x12 then some .MbStringType
  else if v = 0x13 then some .BlobType
  else if v = 0x14 then some .NanType
  else if v = 0x15 then some .FullType
  else if v = 0x20 then some .MaxType
  else none

structure BufferDataType where
  primitive_type : BdDataType
  is_array : Bool
deriving DecidableEq

/-- `ARRAY_TYPE_OFFSET` from `bd_data_type.rs`. -/
def arrayTypeOffset : Nat := 100

def BufferDataType.noArray (t : BdDataType) : BufferDataType := ⟨t, false⟩

def BufferDataType.array (t : BdDataType) : BufferDataType := ⟨t, true⟩

def BufferDataType.eqNonArray (b : BufferDataType) (t : BdDataType) : Bool :=
  !b.is_array && b.primitive_type = t

def BufferDataType.eqArray (b : BufferDataType) (t : BdDataType) : Bool :=
  b.is_array && b.primitive_type = t

def BufferDataType.toValue (b : BufferDataType) : Nat :=
  let value := bdDataTypeVal b.primitive_type
  if b.is_array then value + arrayTypeOffset else value

def BufferDataType.fromValue (v : Nat) : Option BufferDataType :=
  let isArr := arrayTypeOffset ≤ v
  let nonArrayValue := if isArr then v - arrayTypeOffset else v
  (bdDataTypeFromU8 nonArrayValue).map fun t => ⟨t, isArr⟩

/-! ## Errors of the codec -/

inductive BdErr where
  | unexpectedDataType
  | modeErr
  | endOfMessage
  | illegalDataType
  | utf8Err
deriving DecidableEq

/-! ## `BdWriter` (`messaging/bd_writer.rs`) -/

structure BdWriterState where
  out : List Nat
  bit_offset : Nat
  last_byte : Nat
  mode : StreamMode
  type_checked : Bool
deriving DecidableEq

/-- `BdWriter::new` + `set_mode` + `set_type_checked`. -/
def initWriter (mode : StreamMode) (tc : Bool) : BdWriterState :=
  { out := [], bit_offset := 8, last_byte := 0, mode := mode, type_checked := tc }

/-- One iteration of the `while bits_left > 0` loop of
`BdWriter::write_bits`: merge `inBits` bits of `inByte` into the
pending byte. -/
def writeBitsIteration (s : BdWriterState) (inByte inBits : Nat) : BdWriterState :=
  if s.bit_offset < 8 then
    let lastByte := s.last_byte ||| ((inByte <<< s.bit_offset) % 256)
    if 8 < s.bit_offset + inBits then
      let usedBits := 8 - s.bit_offset
      { s with
        out := s.out ++ [lastByte]
        bit_offset := s.bit_offset + inBits - 8
        last_byte := inByte >>> usedBits }
    else if s.bit_offset + inBits = 8 then
      { s with out := s.out ++ [lastByte], last_byte := 0, bit_offset := 8 }
    else
      { s with last_byte := lastByte, bit_offset := s.bit_offset + inBits }
  else if inBits = 8 then
    { s with out := s.out ++ [inByte] }
  else
    { s with last_byte := inByte, bit_offset := inBits }

/-- The `while bits_left > 0` loop of `BdWriter::write_bits`.
The fuel argument is the initial bit count; each iteration consumes at
least one bit, so the loop is faithfully reproduced whenever
`bitsLeft ≤ fuel`. -/
def writeBitsLoopF : Nat → BdWriterState → List Nat → Nat → Nat → BdWriterState
  | 0, s, _, _, _ => s
  | fuel + 1, s, buf, srcOffset, bitsLeft =>
    if bitsLeft = 0 then s
    else
      let inBits := if bitsLeft < 8 then bitsLeft else 8
      let inByteRaw := buf.getD srcOffset 0
      let inByte := if bitsLeft < 8 then inByteRaw % 2 ^ bitsLeft else inByteRaw
      writeBitsLoopF fuel (writeBitsIteration s inByte inBits) buf (srcOffset + 1)
        (bitsLeft - inBits)

/-- `BdWriter::write_bits`. -/
def writeBits (s : BdWriterState) (buf : List Nat) (count : Nat) :
    Except BdErr BdWriterState :=
  if s.mode = StreamMode.BitMode then .ok (writeBitsLoopF count s buf 0 count)
  else .error .modeErr

/-- `BdWriter::flush` (also run by `Drop`). -/
def flushWriter (s : BdWriterState) : BdWriterState :=
  if 8 ≤ s.bit_offset then s
  else { s with out := s.out ++ [s.last_byte], bit_offset := 8 }

/-- `BdWriter::write_bytes`. -/
def writeBytes (s : BdWriterState) (buffer : List Nat) : Except BdErr BdWriterState :=
  if s.mode = StreamMode.BitMode then writeBits s buffer (buffer.length * 8)
  else .ok { s with out := s.out ++ buffer }

/-- `BdWriter::write_type_checked_bit`. -/
def writeTypeCheckedBit (s : BdWriterState) : Except BdErr BdWriterState :=
  if s.mode = StreamMode.BitMode then
    writeBits s (if s.type_checked then [0x01] else [0x00]) 1
  else .error .modeErr

/-- `BdWriter::write_data_type`. -/
def writeDataType (s : BdWriterState) (t : BufferDataType) : Except BdErr BdWriterState :=
  let value := t.toValue
  if s.mode = StreamMode.ByteMode then .ok { s with out := s.out ++ [value] }
  else writeBits s [value] 5

/-- `BdWriter::write_array_num_elements` (the two `u32` fields are raw
cursor writes; `num_elements as u32` truncates). -/
def writeArrayNumElements (s : BdWriterState) (numElements : Nat) :
    Except BdErr BdWriterState := do
  let s ← writeDataType s (BufferDataType.noArray .UnsignedInteger32Type)
  let s := { s with out := s.out ++ leBytes 4 0 }
  .ok { s with out := s.out ++ leBytes 4 (numElements % 2 ^ 32) }

/-- `BdWriter::write_bool`. -/
def writeBool (s : BdWriterState) (value : Bool) : Except BdErr BdWriterState := do
  let s ← if s.type_checked then writeDataType s (BufferDataType.noArray .BoolType)
          else .ok s
  if s.mode = StreamMode.ByteMode then
    .ok { s with out := s.out ++ [if value then 1 else 0] }
  else writeBits s (if value then [0x01] else [0x00]) 1

/-- Common shape of the eight integer writers and the two float writers:
a type tag when type-checked, then `w` little-endian bytes of the value
pattern (byte mode writes them to the cursor, bit mode writes `8 * w`
bits). Signed integers and floats are represented by the `Nat` value of
their `to_le_bytes` pattern. -/
def writeScalar (t : BdDataType) (w : Nat) (s : BdWriterState) (value : Nat) :
    Except BdErr BdWriterState := do
  let s ← if s.type_checked then writeDataType s (BufferDataType.noArray t)
          else .ok s
  if s.mode = StreamMode.ByteMode then .ok { s with out := s.out ++ leBytes w value }
  else writeBits s (leBytes w value) (w * 8)

/-- `BdWriter::write_i8`. -/
def writeI8 (s : BdWriterState) (v : Nat) : Except BdErr BdWriterState :=
  writeScalar .SignedChar8Type 1 s v

/-- `BdWriter::write_u8`. -/
def writeU8 (s : BdWriterState) (v : Nat) : Except BdErr BdWriterState :=
  writeScalar .UnsignedChar8Type 1 s v

/-- `BdWriter::write_i16`. -/
def writeI16 (s : BdWriterState) (v : Nat) : Except BdErr BdWriterState :=
  writeScalar .SignedInteger16Type 2 s v

/-- `BdWriter::write_u16`. -/
def writeU16 (s : BdWriterState) (v : Nat) : Except BdErr BdWriterState :=
  writeScalar .UnsignedInteger16Type 2 s v

/-- `BdWriter::write_i32`. -/
def writeI32 (s : BdWriterState) (v : Nat) : Except BdErr BdWriterState :=
  writeScalar .SignedInteger32Type 4 s v

/-- `BdWriter::write_u32`. -/
def writeU32 (s : BdWriterState) (v : Nat) : Except BdErr BdWriterState :=
  writeScalar .UnsignedInteger32Type 4 s v

/-- `BdWriter::write_i64`. -/
def writeI64 (s : BdWriterState) (v : Nat) : Except BdErr BdWriterState :=
  writeScalar .SignedInteger64Type 8 s v

/-- `BdWriter::write_u64`. -/
def writeU64 (s : BdWriterState) (v : Nat) : Except BdErr BdWriterState :=
  writeScalar .UnsignedInteger64Type 8 s v

/-- `BdWriter::write_f32` (value is the `to_le_bytes` bit pattern). -/
def writeF32 (s : BdWriterState) (v : Nat) : Except BdErr BdWriterState :=
  writeScalar .Float32Type 4 s v

/-- `BdWriter::write_f64` (value is the `to_le_bytes` bit pattern). -/
def writeF64 (s : BdWriterState) (v : Nat) : Except BdErr BdWriterState :=
  writeScalar .Float64Type 8 s v

/-- `BdWriter::write_str` (strings are their UTF-8 byte lists). -/
def writeStr (s : BdWriterState) (bytes : List Nat) : Except BdErr BdWriterState := do
  if s.mode ≠ StreamMode.ByteMode then .error .modeErr
  else
    let s ← if s.type_checked then
              writeDataType s (BufferDataType.noArray .SignedChar8StringType)
            else .ok s
    .ok { s with out := s.out ++ bytes ++ [0] }

/-- Common shape of the eight integer-array writers: byte mode only,
always type-checked array tag, element counts, then the raw
little-endian elements (each a `w`-byte pattern). -/
def writeScalarArray (t : BdDataType) (w : Nat) (s : BdWriterState) (xs : List Nat) :
    Except BdErr BdWriterState := do
  if s.mode ≠ StreamMode.ByteMode then .error .modeErr
  else
    let s ← writeDataType s (BufferDataType.array t)
    let s ← writeArrayNumElements s xs.length
    .ok { s with out := s.out ++ (xs.map (leBytes w)).flatten }

/-- `BdWriter::write_i8_array`. -/
def writeI8Array (s : BdWriterState) (xs : List Nat) : Except BdErr BdWriterState :=
  writeScalarArray .SignedChar8Type 1 s xs

/-- `BdWriter::write_u8_array`. -/
def writeU8Array (s : BdWriterState) (xs : List Nat) : Except BdErr BdWriterState :=
  writeScalarArray .UnsignedChar8Type 1 s xs

/-- `BdWriter::write_i16_array`. -/
def writeI16Array (s : BdWriterState) (xs : List Nat) : Except BdErr BdWriterState :=
  writeScalarArray .SignedInteger16Type 2 s xs

/-- `BdWriter::write_u16_array`. -/
def writeU16Array (s : BdWriterState) (xs : List Nat) : Except BdErr BdWriterState :=
  writeScalarArray .UnsignedInteger16Type 2 s xs

/-- `BdWriter::write_i32_array`. -/
def writeI32Array (s : BdWriterState) (xs : List Nat) : Except BdErr BdWriterState :=
  writeScalarArray .SignedInteger32Type 4 s xs

/-- `BdWriter::write_u32_array`. -/
def writeU32Array (s : BdWriterState) (xs : List Nat) : Except BdErr BdWriterState :=
  writeScalarArray .UnsignedInteger32Type 4 s xs

/-- `BdWriter::write_i64_array`. -/
def writeI64Array (s : BdWriterState) (xs : List Nat) : Except BdErr BdWriterState :=
  writeScalarArray .SignedInteger64Type 8 s xs

/-- `BdWriter::write_u64_array`. -/
def writeU64Array (s : BdWriterState) (xs : List Nat) : Except BdErr BdWriterState :=
  writeScalarArray .UnsignedInteger64Type 8 s xs

/-- `BdWriter::write_str_array`. -/
def writeStrArray (s : BdWriterState) (xs : List (List Nat)) :
    Except BdErr BdWriterState := do
  if s.mode ≠ StreamMode.ByteMode then .error .modeErr
  else
    let s ← writeDataType s (BufferDataType.array .SignedChar8StringType)
    let s ← writeArrayNumElements s xs.length
    .ok { s with out := s.out ++ (xs.map (fun b => b ++ [0])).flatten }

/-- `BdWriter::write_blob` (size written through `write_u32`, so it is
type-checked when the flag is on; `len as u32` truncates). -/
def writeBlob (s : BdWriterState) (bs : List Nat) : Except BdErr BdWriterState := do
  if s.mode ≠ StreamMode.ByteMode then .error .modeErr
  else
    let s ← if s.type_checked then writeDataType s (BufferDataType.noArray .BlobType)
            else .ok s
    let s ← writeU32 s (bs.length % 2 ^ 32)
    .ok { s with out := s.out ++ bs }

/-! Sanity checks: the writer reproduces the unit tests of
`bd_writer.rs`. -/

example :
    (writeBits (initWriter .BitMode false) [0x55] 6).map
      (fun s => (flushWriter s).out) = .ok [0x15] := by rfl

example :
    ((writeBits (initWriter .BitMode false) [0x55] 6).bind
      (fun s => writeBits s [0xAA] 2)).map (fun s => (flushWriter s).out) =
    .ok [0x95] := by rfl

example :
    (writeBits (initWriter .BitMode false) [0x4B] 8).map
      (fun s => (flushWriter s).out) = .ok [0x4B] := by rfl

example :
    (((writeBits (initWriter .BitMode false) [0x0B] 4).bind
      (fun s => writeBits s [0x9D] 8)).bind
      (fun s => writeBits s [0x0D] 4)).map (fun s => (flushWriter s).out) =
    .ok [0xDB, 0xD9] := by rfl

example :
    (((writeBits (initWriter .BitMode false) [0x3F] 6).bind
      (fun s => writeBits s [0x06] 4)).bind
      (fun s => writeBits s [0x3F] 6)).map (fun s => (flushWriter s).out) =
    .ok [0xBF, 0xFD] := by rfl

example :
    (writeU32 (initWriter .BitMode false) 0x32).map
      (fun s => (flushWriter s).out) = .ok [0x32, 0, 0, 0] := by rfl

/-- C9: a `BdWriter` in bit mode with the type-checked flag on, given
`write_u32(0x32)` and then flushed, produces exactly the bytes
`[0x48, 0x06, 0x00, 0x00, 0x00]`: the 5-bit type tag `0x08` for `u32`
packed LSB-first, followed by the 32 value bits shifted by 5. -/
theorem c9_write_u32_type_checked_bit_mode :
    (writeU32 (initWriter .BitMode true) 0x32).map
      (fun s => (flushWriter s).out) = .ok [0x48, 0x06, 0x00, 0x00, 0x00] := by
  rfl

/-! ## `BdReader` (`messaging/bd_reader.rs`) -/

structure BdReaderState where
  data : List Nat
  pos : Nat
  bit_offset : Nat
  last_byte : Nat
  has_data_type_cached : Bool
  cached_data_type : BufferDataType
  mode : StreamMode
  type_checked : Bool
deriving DecidableEq

/-- `BdReader::new` + `set_mode` + `set_type_checked`. -/
def initReader (data : List Nat) (mode : StreamMode) (tc : Bool) : BdReaderState :=
  { data := data, pos := 0, bit_offset := 8, last_byte := 0,
    has_data_type_cached := false,
    cached_data_type := BufferDataType.noArray .NoType,
    mode := mode, type_checked := tc }

/-- `cursor.read_u8()` on the reader's cursor: the next byte, or an
end-of-data error. -/
def readCursorU8 (s : BdReaderState) : Except BdErr (Nat × BdReaderState) :=
  if h : s.pos < s.data.length then
    .ok (s.data.get ⟨s.pos, h⟩, { s with pos := s.pos + 1 })
  else .error .endOfMessage

/-- `n` raw cursor bytes (the `byteorder` multi-byte reads and
`read_exact`): all-or-nothing. -/
def readCursorN (s : BdReaderState) (n : Nat) : Except BdErr (List Nat × BdReaderState) :=
  if s.pos + n ≤ s.data.length then
    .ok ((s.data.drop s.pos).take n, { s with pos := s.pos + n })
  else .error .endOfMessage

/-- Body of the `while bits_left > 0` loop of `BdReader::read_bits`,
accumulating the output bytes. Fuel as in `writeBitsLoopF`. -/
def readBitsLoopF : Nat → BdReaderState → List Nat → Nat →
    Except BdErr (List Nat × BdReaderState)
  | 0, s, acc, _ => .ok (acc, s)
  | fuel + 1, s, acc, bitsLeft =>
    if bitsLeft = 0 then .ok (acc, s)
    else
      let inByte := s.last_byte
      if 8 - s.bit_offset < bitsLeft then
        match readCursorU8 s with
        | .error e => .error e
        | .ok (inByte2, s1) =>
          let inByteShifted := if s.bit_offset < 8 then inByte >>> s.bit_offset else 0
          let outByte := inByteShifted ||| ((inByte2 <<< (8 - s.bit_offset)) % 256)
          let s2 := { s1 with last_byte := inByte2 }
          if 8 ≤ bitsLeft then
            readBitsLoopF fuel s2 (acc ++ [outByte]) (bitsLeft - 8)
          else
            let readCount := min bitsLeft 8
            let bo := s2.bit_offset + readCount
            let s3 := { s2 with bit_offset := if 8 < bo then bo - 8 else bo }
            readBitsLoopF fuel s3 (acc ++ [outByte % 2 ^ readCount]) (bitsLeft - readCount)
      else
        let outByte := inByte >>> s.bit_offset
        let maxReadBits := 8 - s.bit_offset
        if 8 ≤ bitsLeft then
          readBitsLoopF fuel s (acc ++ [outByte]) (bitsLeft - maxReadBits)
        else
          let readCount := min bitsLeft maxReadBits
          let bo := s.bit_offset + readCount
          let s3 := { s with bit_offset := if 8 < bo then bo - 8 else bo }
          readBitsLoopF fuel s3 (acc ++ [outByte % 2 ^ readCount]) (bitsLeft - readCount)

/-- `BdReader::read_bits`. -/
def readBits (s : BdReaderState) (count : Nat) :
    Except BdErr (List Nat × BdReaderState) :=
  if s.mode = StreamMode.BitMode then readBitsLoopF count s [] count
  else .error .modeErr

/-- `BdReader::read_bytes`. -/
def readBytes (s : BdReaderState) (len : Nat) :
    Except BdErr (List Nat × BdReaderState) :=
  if s.mode = StreamMode.BitMode then readBits s (len * 8)
  else readCursorN s len

/-- `BdReader::read_type_checked_bit`. -/
def readTypeCheckedBit (s : BdReaderState) : Except BdErr BdReaderState :=
  if s.mode = StreamMode.BitMode then
    match readBits s 1 with
    | .error e => .error e
    | .ok (buf, s1) => .ok { s1 with type_checked := decide (0 < buf.getD 0 0) }
  else .error .modeErr

/-- `BdReader::read_data_type`. -/
def readDataType (s : BdReaderState) : Except BdErr (BufferDataType × BdReaderState) :=
  if s.has_data_type_cached then
    .ok (s.cached_data_type, { s with has_data_type_cached := false })
  else if s.mode ≠ StreamMode.BitMode then
    match readCursorU8 s with
    | .error e => .error e
    | .ok (v, s1) =>
      match BufferDataType.fromValue v with
      | some t => .ok (t, s1)
      | none => .error .illegalDataType
  else
    match readBits s 5 with
    | .error e => .error e
    | .ok (buf, s1) =>
      match BufferDataType.fromValue (buf.getD 0 0) with
      | some t => .ok (t, s1)
      | none => .error .illegalDataType

/-- The shared type-check preamble of every scalar `read_*`: when the
type-checked flag is on, consume a data type and require it to be the
expected non-array type. -/
def readCheckType (s : BdReaderState) (t : BdDataType) : Except BdErr BdReaderState :=
  if s.type_checked then
    match readDataType s with
    | .error e => .error e
    | .ok (actual, s1) =>
      if actual.eqNonArray t then .ok s1 else .error .unexpectedDataType
  else .ok s

/-- `BdReader::read_bool`. -/
def readBool (s : BdReaderState) : Except BdErr (Bool × BdReaderState) := do
  let s ← readCheckType s .BoolType
  if s.mode = StreamMode.ByteMode then
    match readCursorU8 s with
    | .error e => .error e
    | .ok (b, s1) => .ok (decide (0 < b), s1)
  else
    match readBits s 1 with
    | .error e => .error e
    | .ok (buf, s1) => .ok (decide (0 < buf.getD 0 0), s1)

/-- Common shape of the eight integer readers and the two float readers:
optional type check, then `w` little-endian bytes (byte mode from the
cursor, bit mode as `8 * w` bits), decoded with `from_le_bytes`. -/
def readScalar (t : BdDataType) (w : Nat) (s : BdReaderState) :
    Except BdErr (Nat × BdReaderState) := do
  let s ← readCheckType s t
  if s.mode = StreamMode.ByteMode then
    match readCursorN s w with
    | .error e => .error e
    | .ok (bs, s1) => .ok (fromLeBytes bs, s1)
  else
    match readBits s (w * 8) with
    | .error e => .error e
    | .ok (bs, s1) => .ok (fromLeBytes bs, s1)

/-- `BdReader::read_i8`. -/
def readI8 (s : BdReaderState) : Except BdErr (Nat × BdReaderState) :=
  readScalar .SignedChar8Type 1 s

/-- `BdReader::read_u8`. -/
def readU8 (s : BdReaderState) : Except BdErr (Nat × BdReaderState) :=
  readScalar .UnsignedChar8Type 1 s

/-- `BdReader::read_i16`. -/
def readI16 (s : BdReaderState) : Except BdErr (Nat × BdReaderState) :=
  readScalar .SignedInteger16Type 2 s

/-- `BdReader::read_u16`. -/
def readU16 (s : BdReaderState) : Except BdErr (Nat × BdReaderState) :=
  readScalar .UnsignedInteger16Type 2 s

/-- `BdReader::read_i32`. -/
def readI32 (s : BdReaderState) : Except BdErr (Nat × BdReaderState) :=
  readScalar .SignedInteger32Type 4 s

/-- `BdReader::read_u32`. -/
def readU32 (s : BdReaderState) : Except BdErr (Nat × BdReaderState) :=
  readScalar .UnsignedInteger32Type 4 s

/-- `BdReader::read_i64`. -/
def readI64 (s : BdReaderState) : Except BdErr (Nat × BdReaderState) :=
  readScalar .SignedInteger64Type 8 s

/-- `BdReader::read_u64`. -/
def readU64 (s : BdReaderState) : Except BdErr (Nat × BdReaderState) :=
  readScalar .UnsignedInteger64Type 8 s

/-- `BdReader::read_f32` (result is the `from_le_bytes` bit pattern). -/
def readF32 (s : BdReaderState) : Except BdErr (Nat × BdReaderState) :=
  readScalar .Float32Type 4 s

/-- `BdReader::read_f64` (result is the `from_le_bytes` bit pattern). -/
def readF64 (s : BdReaderState) : Except BdErr (Nat × BdReaderState) :=
  readScalar .Float64Type 8 s

/-- `cursor.read_until(0, buf)`: all bytes up to and including the first
zero, or up to the end of data when no zero occurs. -/
def readUntilZero : List Nat → List Nat
  | [] => []
  | b :: rest => if b = 0 then [b] else b :: readUntilZero rest

/-- Whether the byte is a UTF-8 continuation byte. -/
def utf8Cont (c : Nat) : Bool := 128 ≤ c && c ≤ 191

/-- `String::from_utf8` acceptance (RFC 3629, as validated by the Rust
standard library). -/
def validUtf8 : List Nat → Bool
  | [] => true
  | b :: rest =>
    if b < 128 then validUtf8 rest
    else if 194 ≤ b && b ≤ 223 then
      match rest with
      | c :: r => utf8Cont c && validUtf8 r
      | [] => false
    else if b = 224 then
      match rest with
      | c :: d :: r => (160 ≤ c && c ≤ 191) && utf8Cont d && validUtf8 r
      | _ => false
    else if 225 ≤ b && b ≤ 236 then
      match rest with
      | c :: d :: r => utf8Cont c && utf8Cont d && validUtf8 r
      | _ => false
    else if b = 237 then
      match rest with
      | c :: d :: r => (128 ≤ c && c ≤ 159) && utf8Cont d && validUtf8 r
      | _ => false
    else if 238 ≤ b && b ≤ 239 then
      match rest with
      | c :: d :: r => utf8Cont c && utf8Cont d && validUtf8 r
      | _ => false
    else if b = 240 then
      match rest with
      | c :: d :: e :: r => (144 ≤ c && c ≤ 191) && utf8Cont d && utf8Cont e && validUtf8 r
      | _ => false
    else if 241 ≤ b && b ≤ 243 then
      match rest with
      | c :: d :: e :: r => utf8Cont c && utf8Cont d && utf8Cont e && validUtf8 r
      | _ => false
    else if b = 244 then
      match rest with
      | c :: d :: e :: r => (128 ≤ c && c ≤ 143) && utf8Cont d && utf8Cont e && validUtf8 r
      | _ => false
    else false

/-- The string-reading core shared by `read_str` and `read_str_array`:
`read_until(0)`, drop the final byte of a non-empty buffer, then UTF-8
validation. -/
def readStrCore (s : BdReaderState) : Except BdErr (List Nat × BdReaderState) :=
  let buf := readUntilZero (s.data.drop s.pos)
  let s1 := { s with pos := s.pos + buf.length }
  let buf2 := if buf.isEmpty then buf else buf.dropLast
  if validUtf8 buf2 then .ok (buf2, s1) else .error .utf8Err

/-- `BdReader::read_str` (strings are their UTF-8 byte lists). -/
def readStr (s : BdReaderState) : Except BdErr (List Nat × BdReaderState) := do
  if s.mode ≠ StreamMode.ByteMode then .error .modeErr
  else
    let s ← readCheckType s .SignedChar8StringType
    readStrCore s

/-- `BdReader::read_array_num_elements`. -/
def readArrayNumElements (s : BdReaderState) : Except BdErr (Nat × BdReaderState) := do
  let (totalSizeType, s) ← readDataType s
  if !totalSizeType.eqNonArray .UnsignedInteger32Type then .error .unexpectedDataType
  else
    let (_totalSize, s) ← readCursorN s 4
    let (numElements, s) ← readCursorN s 4
    .ok (fromLeBytes numElements, s)

/-- The per-element loop of the integer-array readers (`w`-byte
little-endian cursor reads). -/
def readScalarElems (w : Nat) : Nat → BdReaderState → List Nat →
    Except BdErr (List Nat × BdReaderState)
  | 0, s, acc => .ok (acc.reverse, s)
  | n + 1, s, acc =>
    match readCursorN s w with
    | .error e => .error e
    | .ok (bs, s1) => readScalarElems w n s1 (fromLeBytes bs :: acc)

/-- Common shape of the integer/float array readers: byte mode only,
array tag always checked, element counts, then the elements. -/
def readScalarArray (t : BdDataType) (w : Nat) (s : BdReaderState) :
    Except BdErr (List Nat × BdReaderState) := do
  if s.mode ≠ StreamMode.ByteMode then .error .modeErr
  else
    let (actual, s) ← readDataType s
    if !actual.eqArray t then .error .unexpectedDataType
    else
      let (n, s) ← readArrayNumElements s
      readScalarElems w n s []

/-- `BdReader::read_i8_array`. -/
def readI8Array (s : BdReaderState) : Except BdErr (List Nat × BdReaderState) :=
  readScalarArray .SignedChar8Type 1 s

/-- `BdReader::read_u8_array`. -/
def readU8Array (s : BdReaderState) : Except BdErr (List Nat × BdReaderState) :=
  readScalarArray .UnsignedChar8Type 1 s

/-- `BdReader::read_i16_array`. -/
def readI16Array (s : BdReaderState) : Except BdErr (List Nat × BdReaderState) :=
  readScalarArray .SignedInteger16Type 2 s

/-- `BdReader::read_u16_array`. -/
def readU16Array (s : BdReaderState) : Except BdErr (List Nat × BdReaderState) :=
  readScalarArray .UnsignedInteger16Type 2 s

/-- `BdReader::read_i32_array`. -/
def readI32Array (s : BdReaderState) : Except BdErr (List Nat × BdReaderState) :=
  readScalarArray .SignedInteger32Type 4 s

/-- `BdReader::read_u32_array`. -/
def readU32Array (s : BdReaderState) : Except BdErr (List Nat × BdReaderState) :=
  readScalarArray .UnsignedInteger32Type 4 s

/-- `BdReader::read_i64_array`. -/
def readI64Array (s : BdReaderState) : Except BdErr (List Nat × BdReaderState) :=
  readScalarArray .SignedInteger64Type 8 s

/-- `BdReader::read_u64_array`. -/
def readU64Array (s : BdReaderState) : Except BdErr (List Nat × BdReaderState) :=
  readScalarArray .UnsignedInteger64Type 8 s

/-- The per-element loop of `read_str_array`. -/
def readStrElems : Nat → BdReaderState → List (List Nat) →
    Except BdErr (List (List Nat) × BdReaderState)
  | 0, s, acc => .ok (acc.reverse, s)
  | n + 1, s, acc =>
    match readStrCore s with
    | .error e => .error e
    | .ok (b, s1) => readStrElems n s1 (b :: acc)

/-- `BdReader::read_str_array`. -/
def readStrArray (s : BdReaderState) : Except BdErr (List (List Nat) × BdReaderState) := do
  if s.mode ≠ StreamMode.ByteMode then .error .modeErr
  else
    let (actual, s) ← readDataType s
    if !actual.eqArray .SignedChar8StringType then .error .unexpectedDataType
    else
      let (n, s) ← readArrayNumElements s
      readStrElems n s []

/-- `BdReader::read_blob`. -/
def readBlob (s : BdReaderState) : Except BdErr (List Nat × BdReaderState) := do
  if s.mode ≠ StreamMode.ByteMode then .error .modeErr
  else
    let s ← readCheckType s .BlobType
    let (blobSize, s) ← readU32 s
    readCursorN s blobSize

/-! Sanity checks: the reader reproduces the unit tests of
`bd_reader.rs`. -/

example :
    (readBits (initReader [0xA5, 0x00] .BitMode false) 4).map Prod.fst =
      .ok [5] := by rfl

example :
    ((readBits (initReader [0xC5, 0x00] .BitMode false) 4).bind
      (fun r => (readBits r.2 4).map Prod.fst)) = .ok [0x0C] := by rfl

example :
    (readBits (initReader [0xE5, 0x4B] .BitMode false) 6).map Prod.fst =
      .ok [0x25] := by rfl

example :
    ((readBits (initReader [0xE5, 0x4B] .BitMode false) 6).bind
      (fun r => (readBits r.2 6).map Prod.fst)) = .ok [0x2F] := by rfl

example :
    ((readBits (initReader [0xE5, 0x4B, 0xC1] .BitMode false) 2).bind
      (fun r => (readBits r.2 14).map Prod.fst)) = .ok [0xF9, 0x12] := by rfl

example :
    (((readBits (initReader [0xE5, 0x4B, 0xC1] .BitMode false) 2).bind
      (fun r => readBits r.2 14)).bind
      (fun r => (readBits r.2 8).map Prod.fst)) = .ok [0xC1] := by rfl

example :
    (((readBits (initReader [0xE5] .BitMode false) 2).bind
      (fun r => readBits r.2 4)).bind
      (fun r => (readBits r.2 2).map Prod.fst)) = .ok [0x03] := by rfl

example :
    ((readBits (initReader [0xE5] .BitMode false) 4).bind
      (fun r => readBits r.2 5)) = .error .endOfMessage := by rfl

example :
    (readBits (initReader [0xE5, 0xBB, 0x1F, 0x22] .BitMode false) 32).map Prod.fst =
      .ok [0xE5, 0xBB, 0x1F, 0x22] := by rfl

example :
    ((readBool (initReader [0x61, 0xF0] .BitMode true)).bind
      (fun r => readBool r.2)).map Prod.fst = .ok false := by rfl

example :
    (((readBool (initReader [0x61, 0xF0] .BitMode true)).bind
      (fun r => readBool r.2)).bind (fun r => readBool r.2)) =
      .error .endOfMessage := by rfl

example :
    ((readBool (initReader [0x01, 0x05, 0x01, 0x00] .ByteMode true)).bind
      (fun r => readBool r.2)).map Prod.fst = .ok false := by rfl

example :
    (readBool (initReader [0x62, 0xF0] .BitMode true)) =
      .error .unexpectedDataType := by rfl

example :
    (readBool (initReader [0x03, 0x01] .ByteMode true)) =
      .error .unexpectedDataType := by rfl

/-! ## Key store (`auth/key_store.rs`) -/

/-- `IN_MEMORY_KEY_LIFESPAN`: how long each key lives (15 min). -/
def inMemoryKeyLifespan : Int := 15 * 60

/-- `IN_MEMORY_KEY_TIMEOUT`: how much in advance a key should no longer
be used (the source comment says 6 min but the value is 14 min). -/
def inMemoryKeyTimeout : Int := 14 * 60

/-- `MAX_CONCURRENTLY_VALID_KEYS` (evaluates to 15). -/
def maxConcurrentlyValidKeys : Nat :=
  (inMemoryKeyLifespan / (inMemoryKeyLifespan - inMemoryKeyTimeout)).toNat

/-- `IN_MEMORY_KEY_STORAGE_COUNT` (evaluates to 16). -/
def inMemoryKeyStorageCount : Nat := maxConcurrentlyValidKeys + 1

structure InMemoryKey where
  aes_key : List Nat
  valid_until : Int
deriving DecidableEq

/-- `InMemoryKey::empty`. -/
def InMemoryKey.empty : InMemoryKey := ⟨List.replicate 32 0, 0⟩

structure InMemoryKeyState where
  keys : List InMemoryKey
  key_index : Nat
deriving DecidableEq

/-- `InMemoryKeyStore::new`. -/
def initKeyStore : InMemoryKeyState :=
  ⟨List.replicate inMemoryKeyStorageCount InMemoryKey.empty, 0⟩

/-- `InMemoryKeyStore::get_current_key`, with the call time `now`
(`chrono::Utc::now().timestamp()`) and the 32 fresh random bytes
(`rand::rng().fill_bytes`) passed explicitly. Returns the exported AES
key bytes and the updated state. -/
def getCurrentKey (s : InMemoryKeyState) (now : Int) (freshKey : List Nat) :
    List Nat × InMemoryKeyState :=
  let minLifespan := now + inMemoryKeyTimeout
  let currentKey := s.keys.getD s.key_index InMemoryKey.empty
  if minLifespan ≤ currentKey.valid_until then (currentKey.aes_key, s)
  else
    let keyIndex := (s.key_index + 1) % inMemoryKeyStorageCount
    let nextKey : InMemoryKey := ⟨freshKey, now + inMemoryKeyLifespan⟩
    (freshKey, { keys := s.keys.set keyIndex nextKey, key_index := keyIndex })

/-- `InMemoryKeyStore::get_valid_keys`. -/
def getValidKeys (s : InMemoryKeyState) (now : Int) : List (List Nat) :=
  (s.keys.filter (fun k => now ≤ k.valid_until)).map (·.aes_key)

/-- A sequence of `get_current_key` calls, each with its time and its
fresh random bytes. -/
def runKeyStoreCalls (s : InMemoryKeyState) : List (Int × List Nat) → InMemoryKeyState
  | [] => s
  | c :: rest => runKeyStoreCalls (getCurrentKey s c.1 c.2).2 rest

/-- C1, counterexample: the claimed rotation threshold `now + 60` is
wrong. In a store whose current key has `valid_until = 1100`, a call at
`now = 1000` satisfies the claimed retention condition
`valid_until ≥ now + 60`, yet the code rotates: the state changes and a
fresh key is returned (the real threshold is `now + 840` and the ring
has 16 slots, not 3). -/
theorem c1_counterexample :
    (1000 : Int) + 60 ≤ 1100 ∧
    (getCurrentKey ⟨⟨List.replicate 32 1, 1100⟩ :: List.replicate 15 InMemoryKey.empty, 0⟩
        1000 (List.replicate 32 7)).2 ≠
      ⟨⟨List.replicate 32 1, 1100⟩ :: List.replicate 15 InMemoryKey.empty, 0⟩ ∧
    (getCurrentKey ⟨⟨List.replicate 32 1, 1100⟩ :: List.replicate 15 InMemoryKey.empty, 0⟩
        1000 (List.replicate 32 7)).1 ≠ List.replicate 32 1 := by
  decide

/-- C1, amended: for every call to `get_current_key` at epoch time
`now`, the key in the current slot is returned with the state unchanged
if and only if `keys[key_index].valid_until ≥ now + 840`
(`IN_MEMORY_KEY_TIMEOUT`); otherwise the store advances
`key_index = (key_index + 1) mod 16` (`IN_MEMORY_KEY_STORAGE_COUNT`),
fills the new slot with the fresh random bytes and
`valid_until = now + 900`, overwrites that slot, and returns the new
key. -/
theorem c1_amended (s : InMemoryKeyState) (now : Int) (freshKey : List Nat) :
    (now + 840 ≤ (s.keys.getD s.key_index InMemoryKey.empty).valid_until →
      getCurrentKey s now freshKey =
        ((s.keys.getD s.key_index InMemoryKey.empty).aes_key, s)) ∧
    (¬ now + 840 ≤ (s.keys.getD s.key_index InMemoryKey.empty).valid_until →
      getCurrentKey s now freshKey =
        (freshKey, ⟨s.keys.set ((s.key_index + 1) % 16) ⟨freshKey, now + 900⟩,
          (s.key_index + 1) % 16⟩)) := by
  constructor
  · intro h
    simp only [getCurrentKey, inMemoryKeyTimeout]
    rw [if_pos (by omega)]
  · intro h
    simp only [getCurrentKey, inMemoryKeyTimeout, inMemoryKeyLifespan,
      inMemoryKeyStorageCount, maxConcurrentlyValidKeys]
    rw [if_neg (by omega)]
    rfl

/-- Witness for `c1_amended` at the freshly initialized store and
`now = 1`: the empty current key has expired, so the store rotates to
slot 1 with `valid_until = 901`. -/
theorem c1_amended_witness :
    getCurrentKey initKeyStore 1 (List.replicate 32 2) =
      (List.replicate 32 2,
        ⟨initKeyStore.keys.set 1 ⟨List.replicate 32 2, 901⟩, 1⟩) :=
  (c1_amended initKeyStore 1 (List.replicate 32 2)).2 (by decide)

/-- C2, counterexample: more than 2 keys can be simultaneously valid.
Three `get_current_key` calls at times 1, 62 and 123 each rotate (the
current key always has less than 840 s of validity left), creating keys
with `valid_until` 901, 962 and 1023; at time 123 all three are valid,
so `get_valid_keys` returns 3 keys. -/
theorem c2_counterexample :
    2 < (getValidKeys (runKeyStoreCalls initKeyStore
      [(1, List.replicate 32 1), (62, List.replicate 32 2),
        (123, List.replicate 32 3)]) 123).length := by
  decide

/-! ### Key store invariant: at most 15 simultaneously valid keys -/

/-- Two stored keys are either initial (`valid_until ≤ 0`) or their
expiry times are at least 61 seconds apart (rotation happens at most
once per strictly-more-than-60-seconds). -/
def keyGapOk (a b : InMemoryKey) : Prop :=
  a.valid_until ≤ 0 ∨ b.valid_until ≤ 0 ∨
    a.valid_until + 61 ≤ b.valid_until ∨ b.valid_until + 61 ≤ a.valid_until

instance : DecidableRel keyGapOk := fun a b => by
  unfold keyGapOk; infer_instance

/-- Invariant of the key store after any call history whose times are
bounded by `t`: 16 slots, a valid index, every expiry at most
`t + 900`, the current slot holding the maximal expiry, and pairwise
gaps of at least 61 between non-initial expiries. -/
def keyStoreInv (s : InMemoryKeyState) (t : Int) : Prop :=
  s.keys.length = 16 ∧ s.key_index < 16 ∧
    (∀ k ∈ s.keys, k.valid_until ≤ t + 900) ∧
    (∀ k ∈ s.keys,
      k.valid_until ≤ (s.keys.getD s.key_index InMemoryKey.empty).valid_until) ∧
    s.keys.Pairwise keyGapOk

theorem keyStoreInv_init : keyStoreInv initKeyStore 0 := by
  unfold keyStoreInv
  decide

theorem getD_set_self {α : Type} (l : List α) (n : Nat) (a d : α) (h : n < l.length) :
    (l.set n a).getD n d = a := by
  simp [List.getElem?_set_self h]

theorem keyStoreInv_step (s : InMemoryKeyState) (t now : Int) (freshKey : List Nat)
    (hinv : keyStoreInv s t) (hle : t ≤ now) :
    keyStoreInv (getCurrentKey s now freshKey).2 now := by
  obtain ⟨hlen, hidx, hub, hmax, hpair⟩ := hinv
  unfold getCurrentKey
  simp only [inMemoryKeyTimeout, inMemoryKeyLifespan, inMemoryKeyStorageCount,
    maxConcurrentlyValidKeys]
  by_cases hrot : now + 14 * 60 ≤ (s.keys.getD s.key_index InMemoryKey.empty).valid_until
  · rw [if_pos hrot]
    exact ⟨hlen, hidx, fun k hk => by have := hub k hk; omega, hmax, hpair⟩
  · rw [if_neg hrot]
    have h16 : ((15 * 60 / (15 * 60 - 14 * 60) : Int).toNat + 1) = 16 := rfl
    simp only [h16]
    set idx := (s.key_index + 1) % 16 with hidxdef
    have hidx16 : idx < 16 := Nat.mod_lt _ (by norm_num)
    have hidxlen : idx < s.keys.length := by omega
    have hmemvu : ∀ k ∈ s.keys, k.valid_until ≤ now + 839 := by
      intro k hk
      have h1 := hmax k hk
      omega
    refine ⟨by simpa using hlen, by simpa using hidx16, ?_, ?_, ?_⟩
    · intro k hk
      rcases List.mem_or_eq_of_mem_set hk with hk | hk
      · have := hub k hk; omega
      · simp [hk]
    · intro k hk
      rw [getD_set_self _ _ _ _ hidxlen]
      rcases List.mem_or_eq_of_mem_set hk with hk | hk
      · have := hmemvu k hk
        simp only
        omega
      · simp [hk]
    · rw [List.pairwise_iff_getElem] at hpair ⊢
      intro i j hi hj hij
      simp only [List.length_set] at hi hj
      rw [List.getElem_set, List.getElem_set]
      by_cases hi2 : idx = i
      · by_cases hj2 : idx = j
        · exact absurd hij (by omega)
        · rw [if_pos hi2, if_neg hj2]
          have hmj : s.keys[j] ∈ s.keys := List.getElem_mem (by omega)
          have := hmemvu _ hmj
          unfold keyGapOk
          dsimp only
          omega
      · by_cases hj2 : idx = j
        · rw [if_neg hi2, if_pos hj2]
          have hmi : s.keys[i] ∈ s.keys := List.getElem_mem (by omega)
          have := hmemvu _ hmi
          unfold keyGapOk
          dsimp only
          omega
        · rw [if_neg hi2, if_neg hj2]
          exact hpair i j (by omega) (by omega) hij

theorem runKeyStoreCalls_inv (cs : List (Int × List Nat)) :
    ∀ (s : InMemoryKeyState) (t : Int), keyStoreInv s t →
      List.Chain (fun a b : Int => a ≤ b) t (cs.map (·.1)) →
      ∃ T, keyStoreInv (runKeyStoreCalls s cs) T ∧ (T = t ∨ T ∈ cs.map (·.1)) := by
  induction cs with
  | nil => exact fun s t h _ => ⟨t, h, Or.inl rfl⟩
  | cons c rest ih =>
    intro s t h hchain
    rw [List.map_cons, List.chain_cons] at hchain
    obtain ⟨hT, hinv, hmem⟩ :=
      ih (getCurrentKey s c.1 c.2).2 c.1 (keyStoreInv_step s t c.1 c.2 h hchain.1)
        hchain.2
    refine ⟨hT, hinv, ?_⟩
    rcases hmem with hmem | hmem
    · exact Or.inr (by simp [hmem])
    · exact Or.inr (by simp [hmem])

/-- Counting: at most 15 integers from a list whose pairwise distances
are at least 61 (apart from non-positive entries) can lie in the window
`[now, now + 900]`. -/
theorem count_valid_le_15 (l : List Int) (now : Int)
    (hub : ∀ x ∈ l, x ≤ now + 900)
    (hp : l.Pairwise (fun a b => a ≤ 0 ∨ b ≤ 0 ∨ a + 61 ≤ b ∨ b + 61 ≤ a))
    (h1 : 1 ≤ now) :
    (l.filter (fun x => decide (now ≤ x))).length ≤ 15 := by
  set l2 := l.filter (fun x => decide (now ≤ x)) with hl2
  have hsub : l2.Sublist l := List.filter_sublist l
  have hp2 := hp.sublist hsub
  have hmem : ∀ x ∈ l2, now ≤ x ∧ x ≤ now + 900 := by
    intro x hx
    refine ⟨by simpa using List.of_mem_filter hx, hub x (hsub.subset hx)⟩
  have hnd : (l2.map (fun x : Int =>
      (⟨min 14 ((x - now).toNat / 61), by omega⟩ : Fin 15))).Nodup := by
    unfold List.Nodup
    rw [List.pairwise_map]
    refine List.Pairwise.imp_of_mem ?_ hp2
    intro a b ha hb hab
    obtain ⟨ha1, ha2⟩ := hmem a ha
    obtain ⟨hb1, hb2⟩ := hmem b hb
    apply Fin.ne_of_val_ne
    dsimp only
    omega
  have hcard : (l2.map (fun x : Int =>
      (⟨min 14 ((x - now).toNat / 61), by omega⟩ : Fin 15))).length ≤ 15 := by
    have h := hnd.length_le_card
    simpa using h
  simpa using hcard

/-- Auxiliary: the length of a filter on projected expiries. -/
theorem length_filter_map_vu (l : List InMemoryKey) (p : Int → Bool) :
    ((l.map (fun k => k.valid_until)).filter p).length =
      (l.filter (fun k => p k.valid_until)).length := by
  induction l with
  | nil => rfl
  | cons k rest ih =>
    by_cases hk : p k.valid_until
    · simp [List.filter_cons, hk, ih]
    · simp [List.filter_cons, hk, ih]

/-- C2, amended: for every state of the key store reachable by a
sequence of `get_current_key` calls at nondecreasing positive epoch
times, and every query time `now` at least 1 and not before any call
time, at most 15 stored keys (`MAX_CONCURRENTLY_VALID_KEYS`) satisfy
`valid_until ≥ now`, so `get_valid_keys()` returns no more than 15
keys. (The claimed bound of 2 is refuted by `c2_counterexample`: a key
is current for only 60 s of its 900 s validity, so up to 15 keys
overlap.) -/
theorem c2_amended (cs : List (Int × List Nat)) (now : Int)
    (hchain : List.Chain (fun a b : Int => a ≤ b) 0 (cs.map (·.1)))
    (hnow : ∀ c ∈ cs, c.1 ≤ now)
    (h1 : 1 ≤ now) :
    (getValidKeys (runKeyStoreCalls initKeyStore cs) now).length ≤ 15 := by
  obtain ⟨T, hinv, hT⟩ := runKeyStoreCalls_inv cs initKeyStore 0 keyStoreInv_init hchain
  have hTnow : T ≤ now := by
    rcases hT with hT | hT
    · omega
    · rw [List.mem_map] at hT
      obtain ⟨c, hc, rfl⟩ := hT
      exact hnow c hc
  obtain ⟨hlen, hidx, hub, hmax, hpair⟩ := hinv
  unfold getValidKeys
  rw [List.length_map]
  have hlf := length_filter_map_vu (runKeyStoreCalls initKeyStore cs).keys
    (fun v => decide (now ≤ v))
  simp only [decide_eq_true_eq] at hlf ⊢
  rw [← hlf]
  apply count_valid_le_15
  · intro x hx
    rw [List.mem_map] at hx
    obtain ⟨k, hk, rfl⟩ := hx
    have := hub k hk
    omega
  · rw [List.pairwise_map]
    refine hpair.imp ?_
    intro a b hab
    exact hab
  · exact h1

/-- Witness for `c2_amended`: two calls at times 1 and 62, queried at
time 62. -/
theorem c2_amended_witness :
    (getValidKeys (runKeyStoreCalls initKeyStore
      [(1, List.replicate 32 1), (62, List.replicate 32 2)]) 62).length ≤ 15 :=
  c2_amended [(1, List.replicate 32 1), (62, List.replicate 32 2)] 62
    (by simp [List.chain_cons]) (by decide) (by decide)

/-! ## Titles (`domain/title.rs`) -/

inductive Title where
  | Iw5
  | T5
  | T6Xenon
  | T6Ps3
  | T6Pc
  | T6WiiU
deriving DecidableEq

/-- `Title::to_u32` (the `#[repr(u32)]` discriminants). -/
def titleVal : Title → Nat
  | .Iw5 => 18409
  | .T5 => 18301
  | .T6Xenon => 18395
  | .T6Ps3 => 18396
  | .T6Pc => 18397
  | .T6WiiU => 18480

/-- `Title::from_u32`. -/
def titleFromU32 (v : Nat) : Option Title :=
  if v = 18409 then some .Iw5
  else if v = 18301 then some .T5
  else if v = 18395 then some .T6Xenon
  else if v = 18396 then some .T6Ps3
  else if v = 18397 then some .T6Pc
  else if v = 18480 then some .T6WiiU
  else none

/-! ## Opaque authentication proof (`auth/auth_proof.rs`) -/

structure ClientOpaqueAuthProofM where
  title : Title
  time_expires : Int
  license_id : Nat
  user_id : Nat
  session_key : List Nat
  username : List Nat
deriving DecidableEq

/-- The plaintext magic `0xC0FFEEFFEEAA1337`. -/
def opaqueMagic : Nat := 0xC0FFEEFFEEAA1337

/-- `i64::to_le_bytes` of the two's-complement pattern. -/
def intLeBytes8 (x : Int) : List Nat := leBytes 8 ((x % (2 : Int) ^ 64).toNat)

/-- `i64::from_le_bytes`. -/
def intFromLeBytes8 (bs : List Nat) : Int :=
  let v := fromLeBytes bs
  if v < 2 ^ 63 then (v : Int) else (v : Int) - 2 ^ 64

/-- The 128-byte plaintext of `ClientOpaqueAuthProof::serialize` before
encryption: magic, title, expiry, license, user, session key, username
null-padded to 64 bytes, and a 4-byte pad. -/
def opaqueProofPlain (p : ClientOpaqueAuthProofM) : List Nat :=
  leBytes 8 opaqueMagic ++ leBytes 4 (titleVal p.title) ++ intLeBytes8 p.time_expires ++
    leBytes 8 p.license_id ++ leBytes 8 p.user_id ++ p.session_key ++
    (p.username ++ List.replicate (64 - p.username.length) 0) ++ leBytes 4 0

/-- `ClientOpaqueAuthProof::serialize`. The AES-256 block encryption of
the external `aes` crate (invoked through
`BackendPrivateKey::encrypt_data`) is abstracted as the parameter
`enc`, applied to the current key of the key store and the plaintext. -/
def serializeProof (enc : List Nat → List Nat → List Nat) (currentKey : List Nat)
    (p : ClientOpaqueAuthProofM) : List Nat :=
  enc currentKey (opaqueProofPlain p)

/-- `ClientOpaqueAuthProof::deserialize`. The AES-256 decryption is
abstracted as the parameter `dec`; `validKeys` is
`key_store.get_valid_keys()`. The first valid key whose decryption
starts with the magic wins (`Iterator::any` with the `last_buf` side
effect); with no such key the function fails (`UnknownKeyError`). -/
def deserializeProof (dec : List Nat → List Nat → List Nat)
    (validKeys : List (List Nat)) (buf : List Nat) : Option ClientOpaqueAuthProofM :=
  match validKeys.find? (fun k => fromLeBytes ((dec k buf).take 8) == opaqueMagic) with
  | none => none
  | some k =>
    let lastBuf := dec k buf
    let title_id := fromLeBytes ((lastBuf.drop 8).take 4)
    match titleFromU32 title_id with
    | none => none
    | some title =>
      let time_expires := intFromLeBytes8 ((lastBuf.drop 12).take 8)
      let license_id := fromLeBytes ((lastBuf.drop 20).take 8)
      let user_id := fromLeBytes ((lastBuf.drop 28).take 8)
      let session_key := (lastBuf.drop 36).take 24
      let usernameBuffer := (lastBuf.drop 60).take 64
      let usernameEnd := ((usernameBuffer.findIdx? (fun v => v == 0)).getD 64)
      let username := usernameBuffer.take usernameEnd
      if validUtf8 username then
        some ⟨title, time_expires, license_id, user_id, session_key, username⟩
      else none

/-! ## Steam authentication handler (`auth/auth_handler/steam.rs`) -/

inductive BdAuthTicketType where
  | UserToServiceTicket
  | HostToServiceTicket
  | UserToHostTicket
deriving DecidableEq

structure AuthTicketM where
  ticket_type : BdAuthTicketType
  title : Title
  time_issued : Nat
  time_expires : Nat
  license_id : Nat
  user_id : Nat
  username : List Nat
  session_key : List Nat
deriving DecidableEq

/-- `TICKET_ISSUE_LENGTH` from `steam.rs` (the literal is
`5 * 60 * 1000`, i.e. 300000 — five minutes in milliseconds — but it is
added to a timestamp in seconds). -/
def ticketIssueLength : Int := 5 * 60 * 1000

/-- `u32::MAX as i64`. -/
def u32MaxI64 : Int := 4294967295

/-- `as u32` on an `i64`: two's-complement truncation. -/
def intAsU32 (x : Int) : Nat := (x % (2 : Int) ^ 32).toNat

/-- The ticket and opaque proof issued by
`SteamAuthHandler::handle_message` for a successfully parsed request,
as a function of the current time and the parsed request fields. -/
def steamIssueTicket (now : Int) (title : Title) (steamId : Nat)
    (username : List Nat) (sessionKey : List Nat) :
    AuthTicketM × ClientOpaqueAuthProofM :=
  let issued := intAsU32 (now.tmod u32MaxI64)
  let expiresI64 := now + ticketIssueLength
  let expires := intAsU32 (expiresI64.tmod u32MaxI64)
  let ticket : AuthTicketM :=
    { ticket_type := .UserToServiceTicket
      title := title
      time_issued := issued
      time_expires := expires
      license_id := 1234
      user_id := steamId
      username := username
      session_key := sessionKey }
  let proof : ClientOpaqueAuthProofM :=
    { title := ticket.title
      time_expires := expiresI64
      license_id := ticket.license_id
      user_id := ticket.user_id
      session_key := sessionKey
      username := username }
  (ticket, proof)

/-- C5: the issued ticket has `user_id = steam_id` and
`license_id = 1234` as claimed, but the expiry is wrong: the code adds
`TICKET_ISSUE_LENGTH = 5 * 60 * 1000 = 300000` — five minutes expressed
in milliseconds — to a timestamp in seconds, so at `now = 1700000000`
the ticket expires at `now + 300000` (about 3.5 days), not
`now + 5 minutes = now + 300` as the claim and the constant's evident
intent state. (`time_issued` is also `now % (2^32 - 1)`, which equals
`now` for all current timestamps.) -/
theorem c5_code_bug_expiry :
    ticketIssueLength = 300000 ∧
    (steamIssueTicket 1700000000 Title.Iw5 77 [98, 111, 98]
        (List.replicate 24 5)).1.user_id = 77 ∧
    (steamIssueTicket 1700000000 Title.Iw5 77 [98, 111, 98]
        (List.replicate 24 5)).1.license_id = 1234 ∧
    (steamIssueTicket 1700000000 Title.Iw5 77 [98, 111, 98]
        (List.replicate 24 5)).1.time_issued = 1700000000 ∧
    (steamIssueTicket 1700000000 Title.Iw5 77 [98, 111, 98]
        (List.replicate 24 5)).1.time_expires = 1700000000 + 300000 ∧
    (steamIssueTicket 1700000000 Title.Iw5 77 [98, 111, 98]
        (List.replicate 24 5)).2.time_expires = 1700000000 + 300000 ∧
    (steamIssueTicket 1700000000 Title.Iw5 77 [98, 111, 98]
        (List.replicate 24 5)).1.time_expires ≠ 1700000000 + 300 := by
  refine ⟨rfl, rfl, rfl, by decide, by decide, by decide, by decide⟩

/-! ## Lobby dispatcher (`lobby/mod.rs`) and sessions
(`networking/bd_session.rs`, `lobby/service/lobby.rs`) -/

/-- Modelled from the spec: the error-code enumeration
(`messaging/bd_error_code.rs` is not part of the provided sources; the
spec lists the subset used by the core: `NoError=0`, `AccessDenied`,
`AuthIllegalOperation`, `ServiceNotAvailable`, `PermissionDenied`,
`AuthNoError`). -/
inductive BdErrorCode where
  | NoError
  | AccessDenied
  | AuthIllegalOperation
  | ServiceNotAvailable
  | PermissionDenied
  | AuthNoError
deriving DecidableEq

inductive LobbyServiceId where
  | Teams
  | Stats
  | Messaging
  | LobbyService
  | Profiles
  | Friends
  | Storage
  | Messaging2
  | TitleUtilities
  | KeyArchive
  | BandwidthTest
  | Stats2
  | Matchmaking
  | Stats3
  | Counter
  | Dml
  | Group
  | Mail
  | Twitch
  | Youtube
  | Twitter
  | Facebook
  | Anticheat
  | ContentStreaming
  | Tags
  | VoteRank
  | LinkCode
  | PooledStorage
  | Subscription
  | EventLog
  | RichPresence
  | League
  | League2
deriving DecidableEq

/-- `LobbyServiceId::from_u8` (derived `FromPrimitive` over the
`#[repr(u8)]` discriminants). -/
def lobbyServiceIdFromU8 (v : Nat) : Option LobbyServiceId :=
  if v = 3 then some .Teams
  else if v = 4 then some .Stats
  else if v = 6 then some .Messaging
  else if v = 7 then some .LobbyService
  else if v = 8 then some .Profiles
  else if v = 9 then some .Friends
  else if v = 10 then some .Storage
  else if v = 11 then some .Messaging2
  else if v = 12 then some .TitleUtilities
  else if v = 15 then some .KeyArchive
  else if v = 18 then some .BandwidthTest
  else if v = 19 then some .Stats2
  else if v = 21 then some .Matchmaking
  else if v = 22 then some .Stats3
  else if v = 23 then some .Counter
  else if v = 27 then some .Dml
  else if v = 28 then some .Group
  else if v = 29 then some .Mail
  else if v = 31 then some .Twitch
  else if v = 33 then some .Youtube
  else if v = 35 then some .Twitter
  else if v = 36 then some .Facebook
  else if v = 38 then some .Anticheat
  else if v = 50 then some .ContentStreaming
  else if v = 52 then some .Tags
  else if v = 55 then some .VoteRank
  else if v = 57 then some .LinkCode
  else if v = 58 then some .PooledStorage
  else if v = 66 then some .Subscription
  else if v = 67 then some .EventLog
  else if v = 68 then some .RichPresence
  else if v = 81 then some .League
  else if v = 82 then some .League2
  else none

structure SessionAuthenticationM where
  user_id : Nat
  username : List Nat
  session_key : List Nat
  title : Title
deriving DecidableEq

structure BdSessionM where
  id : Nat
  authentication : Option SessionAuthenticationM
deriving DecidableEq

/-- A registered lobby handler, as the dispatcher sees it: its
`requires_authentication()` answer (default `true` in the trait). The
handler body itself is irrelevant to the routing decision. -/
structure LobbyHandlerM where
  requires_authentication : Bool
deriving DecidableEq

/-- The routing outcome of `LobbyServer::handle_message`. -/
inductive LobbyDispatchOutcome where
  | illegalServiceId (value : Nat)
  | replyTask (code : BdErrorCode) (operationId : Nat)
  | invokeHandler (serviceId : LobbyServiceId)
deriving DecidableEq

/-- `LobbyServer::handle_message` routing: read the `u8` service id,
reject unknown values, answer `TaskReply(ServiceNotAvailable, 0)` for
unregistered services, answer `TaskReply(AccessDenied, 0)` for services
that require authentication on an unauthenticated session, and invoke
the handler otherwise. -/
def lobbyDispatch (handlers : LobbyServiceId → Option LobbyHandlerM)
    (session : BdSessionM) (serviceIdInput : Nat) : LobbyDispatchOutcome :=
  match lobbyServiceIdFromU8 serviceIdInput with
  | none => .illegalServiceId serviceIdInput
  | some serviceId =>
    match handlers serviceId with
    | some handler =>
      if handler.requires_authentication ∧ session.authentication = none then
        .replyTask .AccessDenied 0
      else .invokeHandler serviceId
    | none => .replyTask .ServiceNotAvailable 0

/-- C7: for every inbound lobby message whose leading `u8` is a known
`LobbyServiceId`: with no registered handler the server replies
`TaskReply(ServiceNotAvailable, 0)`; with a registered handler that
`requires_authentication()` on a session without authentication it
replies `TaskReply(AccessDenied, 0)` without invoking the handler; only
otherwise is the handler invoked. -/
theorem c7_dispatch (handlers : LobbyServiceId → Option LobbyHandlerM)
    (session : BdSessionM) (v : Nat) (serviceId : LobbyServiceId)
    (hknown : lobbyServiceIdFromU8 v = some serviceId) :
    (handlers serviceId = none →
      lobbyDispatch handlers session v = .replyTask .ServiceNotAvailable 0) ∧
    (∀ handler, handlers serviceId = some handler →
      handler.requires_authentication = true → session.authentication = none →
      lobbyDispatch handlers session v = .replyTask .AccessDenied 0) ∧
    (∀ handler, handlers serviceId = some handler →
      (handler.requires_authentication = false ∨ session.authentication ≠ none) →
      lobbyDispatch handlers session v = .invokeHandler serviceId) := by
  unfold lobbyDispatch
  rw [hknown]
  refine ⟨fun h => by simp only [h], fun handler hh hra hauth => ?_,
    fun handler hh hcond => ?_⟩
  · simp only [hh]
    simp [hra, hauth]
  · simp only [hh]
    rcases hcond with hcond | hcond
    · simp [hcond]
    · simp [hcond]

/-- Witness for `c7_dispatch`: service id 23 (`Counter`) with a
registry that has no handler for it, on an unauthenticated session. -/
theorem c7_dispatch_witness :
    lobbyDispatch (fun _ => none) ⟨0, none⟩ 23 = .replyTask .ServiceNotAvailable 0 :=
  (c7_dispatch (fun _ => none) ⟨0, none⟩ 23 .Counter rfl).1 rfl

/-! ## LobbyService authentication effect on the session
(`lobby/service/lobby.rs`, lines 62-89) -/

inductive LobbyServiceErr where
  | unknownTitle
  | invalidTitle
  | authenticationExpired
deriving DecidableEq

/-- The tail of `LobbyServiceHandler::handle_message` after the opaque
proof has been deserialized: the expiry check, the title check, and the
unconditional assignment of `session.authentication`. The session is
returned unchanged on either failure (the Rust code only mutates the
session in the final assignment). -/
def lobbyServiceApplyAuth (session : BdSessionM) (now : Int) (title : Title)
    (proof : ClientOpaqueAuthProofM) : BdSessionM × Except LobbyServiceErr Unit :=
  if ¬ now ≤ proof.time_expires then (session, .error .authenticationExpired)
  else if ¬ proof.title = title then (session, .error .invalidTitle)
  else
    ({ session with
        authentication := some
          { user_id := proof.user_id
            username := proof.username
            session_key := proof.session_key
            title := proof.title } }, .ok ())

/-- C8, counterexample: the session key is not immutable once set. A
session already authenticated with session key `1^24` that successfully
re-authenticates through the LobbyService handler with a valid proof
carrying session key `2^24` ends up with the new key: the assignment in
`handle_message` is unconditional, nothing guards an already-set
`session.authentication`. -/
theorem c8_counterexample :
    (lobbyServiceApplyAuth ⟨7, some ⟨1, [97], List.replicate 24 1, Title.Iw5⟩⟩ 1000
        Title.Iw5 ⟨Title.Iw5, 2000, 1234, 5, List.replicate 24 2, [98]⟩).2 = .ok () ∧
    (lobbyServiceApplyAuth ⟨7, some ⟨1, [97], List.replicate 24 1, Title.Iw5⟩⟩ 1000
        Title.Iw5 ⟨Title.Iw5, 2000, 1234, 5, List.replicate 24 2, [98]⟩).1.authentication.map
        (fun a => a.session_key) = some (List.replicate 24 2) ∧
    some (List.replicate 24 2) ≠
      (⟨7, some ⟨1, [97], List.replicate 24 1, Title.Iw5⟩⟩ : BdSessionM).authentication.map
        (fun a => a.session_key) := by
  refine ⟨rfl, rfl, by decide⟩

/-- C8, amended: after a session's key has been set by a successful
lobby authentication, the only core operation that changes it is a
later successful LobbyService authentication, which overwrites the
whole `session.authentication` with the new proof's fields; failed
authentication attempts leave the session unchanged. -/
theorem c8_amended (session : BdSessionM) (now : Int) (title : Title)
    (proof : ClientOpaqueAuthProofM) :
    ((lobbyServiceApplyAuth session now title proof).2 = .ok () →
      (lobbyServiceApplyAuth session now title proof).1.authentication =
        some ⟨proof.user_id, proof.username, proof.session_key, proof.title⟩) ∧
    (∀ e, (lobbyServiceApplyAuth session now title proof).2 = .error e →
      (lobbyServiceApplyAuth session now title proof).1 = session) := by
  unfold lobbyServiceApplyAuth
  by_cases h1 : ¬ now ≤ proof.time_expires
  · rw [if_pos h1]
    exact ⟨(fun h => nomatch h), fun e _ => rfl⟩
  · rw [if_neg h1]
    by_cases h2 : ¬ proof.title = title
    · rw [if_pos h2]
      exact ⟨(fun h => nomatch h), fun e _ => rfl⟩
    · rw [if_neg h2]
      exact ⟨fun _ => rfl, fun e h => nomatch h⟩

/-- Witness for `c8_amended`: the successful re-authentication of
`c8_counterexample` rewrites the authentication with the proof's
fields. -/
theorem c8_amended_witness :
    (lobbyServiceApplyAuth ⟨7, some ⟨1, [97], List.replicate 24 1, Title.Iw5⟩⟩ 1000
        Title.Iw5 ⟨Title.Iw5, 2000, 1234, 5, List.replicate 24 2, [98]⟩).1.authentication =
      some ⟨5, [98], List.replicate 24 2, Title.Iw5⟩ :=
  (c8_amended ⟨7, some ⟨1, [97], List.replicate 24 1, Title.Iw5⟩⟩ 1000 Title.Iw5
    ⟨Title.Iw5, 2000, 1234, 5, List.replicate 24 2, [98]⟩).1 rfl

/-! ## Task reply envelope (`lobby/response/task_reply.rs`,
`lobby/response/mod.rs`, `messaging/bd_response.rs`) -/

inductive BdMessageType where
  | LobbyServiceTaskReply
  | LobbyServicePushMessage
  | LsgServiceError
  | LsgServiceConnectionId
  | LsgServiceTaskReply
deriving DecidableEq

/-- `BdMessageType::to_u8` (the `#[repr(u8)]` discriminants). -/
def bdMessageTypeVal : BdMessageType → Nat
  | .LobbyServiceTaskReply => 1
  | .LobbyServicePushMessage => 2
  | .LsgServiceError => 3
  | .LsgServiceConnectionId => 4
  | .LsgServiceTaskReply => 5

/-- `BdResponse`: data plus the `should_encrypt` flag
(`encrypted_if_available` sets it). -/
structure BdResponseM where
  should_encrypt : Bool
  data : List Nat

/-- A `TaskReply`. The boxed `dyn BdSerialize` results are modelled as
their `serialize` actions on the writer; the error code of the missing
`bd_error_code.rs` stays symbolic. -/
structure TaskReplyM where
  transaction_id : Nat
  error_code : BdErrorCode
  operation_id : Nat
  results : List (BdWriterState → Except BdErr BdWriterState)
  total_num_results : Option Nat

/-- The `for result in &self.results` loop of `to_response`. -/
def foldResults : List (BdWriterState → Except BdErr BdWriterState) →
    BdWriterState → Except BdErr BdWriterState
  | [], w => .ok w
  | r :: rest, w =>
    match r w with
    | .error e => .error e
    | .ok w2 => foldResults rest w2

/-- `TaskReply::to_response`. `ecVal` is `BdErrorCode::to_u32` (the
enum's numeric values are not in the provided sources). The writer is
dropped at the end of the block, which flushes it. -/
def taskReplyToResponse (ecVal : BdErrorCode → Nat) (r : TaskReplyM) :
    Except BdErr BdResponseM := do
  let w := initWriter .ByteMode false
  let w ← writeU8 w (bdMessageTypeVal .LobbyServiceTaskReply)
  let w := { w with type_checked := true }
  let w ← writeU64 w r.transaction_id
  let w ← writeU32 w (ecVal r.error_code)
  let w ← writeU8 w r.operation_id
  let w ← writeU32 w (r.results.length % 2 ^ 32)
  let w ← writeU32 w (r.total_num_results.getD (r.results.length % 2 ^ 32))
  let w ← foldResults r.results w
  .ok ⟨true, (flushWriter w).out⟩

/-- C6, counterexample: `to_response` writes no type-check bit. The
writer stays in byte mode, so the message-type byte is followed by the
one-byte `u64` type tag `0x0A` for `transaction_id` — an even byte. If
a type-check bit set to 1 followed the message-type byte, the next
byte's least-significant bit (the first bit of the LSB-first stream)
would be 1. Concrete reply: `transaction_id = 5`, `error_code` value 0,
`operation_id = 9`, no results. -/
theorem c6_counterexample :
    (taskReplyToResponse (fun _ => 0) ⟨5, .NoError, 9, [], none⟩).map
        (fun resp => resp.data) =
      .ok [1, 10, 5, 0, 0, 0, 0, 0, 0, 0, 8, 0, 0, 0, 0, 3, 9,
        8, 0, 0, 0, 0, 8, 0, 0, 0, 0] ∧
    (10 : Nat) % 2 = 0 := by
  exact ⟨rfl, rfl⟩

/-- C6, amended: `to_response` produces a buffer that begins with the
message-type byte `LobbyServiceTaskReply` (=1) and then, with the
writer in byte mode and type checking on (so each field is preceded by
its one-byte type tag, and no type-check bit exists), the tagged fields
`u64 transaction_id` (tag 10), `u32 error_code` (tag 8),
`u8 operation_id` (tag 3), `u32 num_results` (tag 8, the number of
results) and `u32 total_num_results` (tag 8, equal to `num_results`
when not otherwise given), followed by the serialized results; the
response is marked encrypt-if-available. -/
theorem c6_amended (ecVal : BdErrorCode → Nat) (r : TaskReplyM) :
    ∀ wf, foldResults r.results
        { out := [1, 10] ++ leBytes 8 r.transaction_id ++ [8] ++
            leBytes 4 (ecVal r.error_code) ++ [3] ++ leBytes 1 r.operation_id ++ [8] ++
            leBytes 4 (r.results.length % 2 ^ 32) ++ [8] ++
            leBytes 4 (r.total_num_results.getD (r.results.length % 2 ^ 32)),
          bit_offset := 8, last_byte := 0, mode := .ByteMode,
          type_checked := true } = .ok wf →
      taskReplyToResponse ecVal r = .ok ⟨true, (flushWriter wf).out⟩ := by
  intro wf h
  rw [show taskReplyToResponse ecVal r =
      (foldResults r.results
        { out := (((((((((([] ++ leBytes 1 1) ++ [10]) ++ leBytes 8 r.transaction_id) ++ [8]) ++
            leBytes 4 (ecVal r.error_code)) ++ [3]) ++ leBytes 1 r.operation_id) ++ [8]) ++
            leBytes 4 (r.results.length % 2 ^ 32)) ++ [8]) ++
            leBytes 4 (r.total_num_results.getD (r.results.length % 2 ^ 32)),
          bit_offset := 8, last_byte := 0, mode := .ByteMode, type_checked := true }).bind
        (fun w => .ok ⟨true, (flushWriter w).out⟩) from rfl]
  have hout : (((((((((([] ++ leBytes 1 1) ++ [10]) ++ leBytes 8 r.transaction_id) ++ [8]) ++
      leBytes 4 (ecVal r.error_code)) ++ [3]) ++ leBytes 1 r.operation_id) ++ [8]) ++
      leBytes 4 (r.results.length % 2 ^ 32)) ++ [8]) ++
      leBytes 4 (r.total_num_results.getD (r.results.length % 2 ^ 32)) =
      [1, 10] ++ leBytes 8 r.transaction_id ++ [8] ++
        leBytes 4 (ecVal r.error_code) ++ [3] ++ leBytes 1 r.operation_id ++ [8] ++
        leBytes 4 (r.results.length % 2 ^ 32) ++ [8] ++
        leBytes 4 (r.total_num_results.getD (r.results.length % 2 ^ 32)) := by
    simp [leBytes]
  rw [hout, h]
  rfl

/-- Witness for `c6_amended` on a reply with no results. -/
theorem c6_amended_witness :
    taskReplyToResponse (fun _ => 0) ⟨5, .NoError, 9, [], none⟩ =
      .ok ⟨true, (flushWriter
        { out := [1, 10] ++ leBytes 8 (5 : Nat) ++ [8] ++ leBytes 4 0 ++ [3] ++
            leBytes 1 9 ++ [8] ++ leBytes 4 (([] : List (BdWriterState → Except BdErr BdWriterState)).length % 2 ^ 32) ++ [8] ++
            leBytes 4 ((none : Option Nat).getD (([] : List (BdWriterState → Except BdErr BdWriterState)).length % 2 ^ 32)),
          bit_offset := 8, last_byte := 0, mode := .ByteMode,
          type_checked := true }).out⟩ :=
  c6_amended (fun _ => 0) ⟨5, .NoError, 9, [], none⟩ _ rfl

/-! ## `read_str` in byte mode (C10) -/

theorem readUntilZero_of_not_mem (l : List Nat) (h : 0 ∉ l) : readUntilZero l = l := by
  induction l with
  | nil => rfl
  | cons b rest ih =>
    rw [List.mem_cons] at h
    push_neg at h
    unfold readUntilZero
    rw [if_neg (fun hb => h.1 hb.symm), ih h.2]

/-- C10: in byte mode with type checking off, `read_str` never fails
with `UnexpectedEndOfMessage` (its only failure is UTF-8 validation):
with no bytes remaining it returns the empty string and leaves the
state unchanged, and when the remaining bytes contain no NUL terminator
it consumes them all and returns them with the final byte removed,
provided the result is valid UTF-8. -/
theorem c10_read_str (s : BdReaderState) (hm : s.mode = StreamMode.ByteMode)
    (htc : s.type_checked = false) :
    (∀ e, readStr s = .error e → e = .utf8Err) ∧
    (s.data.drop s.pos = [] → readStr s = .ok ([], s)) ∧
    (0 ∉ s.data.drop s.pos → validUtf8 ((s.data.drop s.pos).dropLast) = true →
      readStr s = .ok ((s.data.drop s.pos).dropLast,
        { s with pos := s.pos + (s.data.drop s.pos).length })) := by
  have hck : readCheckType s BdDataType.SignedChar8StringType = .ok s := by
    unfold readCheckType
    rw [htc]
    rfl
  refine ⟨?_, ?_, ?_⟩
  · intro e he
    unfold readStr at he
    rw [if_neg (fun hc => hc hm), hck] at he
    replace he : readStrCore s = .error e := he
    unfold readStrCore at he
    dsimp only at he
    split at he <;> split at he <;> cases he <;> rfl
  · intro hrem
    unfold readStr
    rw [if_neg (fun hc => hc hm), hck]
    show readStrCore s = _
    unfold readStrCore
    rw [hrem]
    rfl
  · intro hnul hutf
    unfold readStr
    rw [if_neg (fun hc => hc hm), hck]
    show readStrCore s = _
    unfold readStrCore
    rw [readUntilZero_of_not_mem _ hnul]
    rcases hrem : s.data.drop s.pos with _ | ⟨b, rest⟩
    · rfl
    · rw [hrem] at hutf
      simp only [List.isEmpty_cons, Bool.false_eq_true, if_false, hutf, if_true]

/-- Witness for `c10_read_str`: reading from `[104, 105]` (no
terminator) yields `[104]` with the final byte consumed. -/
theorem c10_read_str_witness :
    readStr (initReader [104, 105] .ByteMode false) =
      .ok ([104], { initReader [104, 105] .ByteMode false with pos := 0 + 2 }) :=
  (c10_read_str (initReader [104, 105] .ByteMode false) rfl rfl).2.2
    (by decide) (by decide)

/-! ## Opaque-proof round trip (C3) -/

theorem leBytes_length (n x : Nat) : (leBytes n x).length = n := by
  induction n generalizing x with
  | zero => rfl
  | succ k ih => simp [leBytes, ih]

theorem fromLeBytes_leBytes (n x : Nat) (h : x < 2 ^ (8 * n)) :
    fromLeBytes (leBytes n x) = x := by
  induction n generalizing x with
  | zero =>
    simp [leBytes, fromLeBytes]
    omega
  | succ k ih =>
    have hd : x / 256 < 2 ^ (8 * k) := by
      rw [Nat.div_lt_iff_lt_mul (by norm_num)]
      calc x < 2 ^ (8 * (k + 1)) := h
        _ = 2 ^ (8 * k) * 256 := by ring
    simp [leBytes, fromLeBytes, ih _ hd]
    omega

theorem intLeBytes8_roundtrip (x : Int) (hlo : -(2 ^ 63) ≤ x) (hhi : x < 2 ^ 63) :
    intFromLeBytes8 (intLeBytes8 x) = x := by
  unfold intLeBytes8 intFromLeBytes8
  have hmod : (0 : Int) ≤ x % (2 : Int) ^ 64 ∧ x % (2 : Int) ^ 64 < 2 ^ 64 := by
    constructor
    · exact Int.emod_nonneg x (by norm_num)
    · exact Int.emod_lt_of_pos x (by norm_num)
  have hbound : (x % (2 : Int) ^ 64).toNat < 2 ^ (8 * 8) := by omega
  rw [fromLeBytes_leBytes _ _ hbound]
  have hcast : ((x % (2 : Int) ^ 64).toNat : Int) = x % 2 ^ 64 := Int.toNat_of_nonneg hmod.1
  have hrepr : x % (2 : Int) ^ 64 = x ∨ x % (2 : Int) ^ 64 = x + 2 ^ 64 := by omega
  dsimp only
  split
  · omega
  · omega

theorem findIdx?_append_replicate_zero (u : List Nat) (k : Nat) (h : 0 ∉ u) :
    ((u ++ List.replicate k 0).findIdx? (fun v => v == 0)) =
      if k = 0 then none else some u.length := by
  induction u with
  | nil =>
    cases k with
    | zero => rfl
    | succ k2 => simp [List.replicate_succ]
  | cons b rest ih =>
    rw [List.mem_cons] at h
    push_neg at h
    have hb : (b == 0) = false := by
      simp
      omega
    rw [List.cons_append, List.findIdx?_cons, hb]
    simp only [if_false, Bool.false_eq_true]
    rw [List.findIdx?_start_succ, ih h.2]
    cases k with
    | zero => rfl
    | succ k2 => simp

/-- The field layout of the 128-byte opaque-proof plaintext. -/
theorem opaqueProofPlain_fields (p : ClientOpaqueAuthProofM)
    (hu : p.username.length ≤ 64) (hsk : p.session_key.length = 24) :
    (opaqueProofPlain p).length = 128 ∧
    (opaqueProofPlain p).take 8 = leBytes 8 opaqueMagic ∧
    ((opaqueProofPlain p).drop 8).take 4 = leBytes 4 (titleVal p.title) ∧
    ((opaqueProofPlain p).drop 12).take 8 = intLeBytes8 p.time_expires ∧
    ((opaqueProofPlain p).drop 20).take 8 = leBytes 8 p.license_id ∧
    ((opaqueProofPlain p).drop 28).take 8 = leBytes 8 p.user_id ∧
    ((opaqueProofPlain p).drop 36).take 24 = p.session_key ∧
    ((opaqueProofPlain p).drop 60).take 64 =
      p.username ++ List.replicate (64 - p.username.length) 0 := by
  unfold opaqueProofPlain
  simp only [List.append_assoc]
  have l1 : (leBytes 8 opaqueMagic).length = 8 := leBytes_length _ _
  have l2 : (leBytes 4 (titleVal p.title)).length = 4 := leBytes_length _ _
  have l3 : (intLeBytes8 p.time_expires).length = 8 := leBytes_length _ _
  have l4 : (leBytes 8 p.license_id).length = 8 := leBytes_length _ _
  have l5 : (leBytes 8 p.user_id).length = 8 := leBytes_length _ _
  have l7 : (p.username ++ List.replicate (64 - p.username.length) 0).length = 64 := by
    simp only [List.length_append, List.length_replicate]
    omega
  have d8 := @List.drop_left' Nat (leBytes 8 opaqueMagic)
    (leBytes 4 (titleVal p.title) ++ (intLeBytes8 p.time_expires ++
      (leBytes 8 p.license_id ++ (leBytes 8 p.user_id ++ (p.session_key ++
      (p.username ++ (List.replicate (64 - p.username.length) 0 ++ leBytes 4 0))))))) _ l1
  have d12a := @List.drop_left' Nat (leBytes 4 (titleVal p.title))
    (intLeBytes8 p.time_expires ++
      (leBytes 8 p.license_id ++ (leBytes 8 p.user_id ++ (p.session_key ++
      (p.username ++ (List.replicate (64 - p.username.length) 0 ++ leBytes 4 0)))))) _ l2
  have d20a := @List.drop_left' Nat (intLeBytes8 p.time_expires)
    (leBytes 8 p.license_id ++ (leBytes 8 p.user_id ++ (p.session_key ++
      (p.username ++ (List.replicate (64 - p.username.length) 0 ++ leBytes 4 0))))) _ l3
  have d28a := @List.drop_left' Nat (leBytes 8 p.license_id)
    (leBytes 8 p.user_id ++ (p.session_key ++
      (p.username ++ (List.replicate (64 - p.username.length) 0 ++ leBytes 4 0)))) _ l4
  have d36a := @List.drop_left' Nat (leBytes 8 p.user_id)
    (p.session_key ++
      (p.username ++ (List.replicate (64 - p.username.length) 0 ++ leBytes 4 0))) _ l5
  have d60a := @List.drop_left' Nat (p.session_key)
    (p.username ++ (List.replicate (64 - p.username.length) 0 ++ leBytes 4 0)) _ hsk
  have e12 : (12 : Nat) = 8 + 4 := rfl
  have e20 : (20 : Nat) = 12 + 8 := rfl
  have e28 : (28 : Nat) = 20 + 8 := rfl
  have e36 : (36 : Nat) = 28 + 8 := rfl
  have e60 : (60 : Nat) = 36 + 24 := rfl
  refine ⟨?_, ?_, ?_, ?_, ?_, ?_, ?_, ?_⟩
  · simp only [List.length_append, List.length_replicate, l1, l2, l3, l4, l5, hsk,
      leBytes_length]
    omega
  · exact List.take_left' l1
  · rw [d8]
    exact List.take_left' l2
  · rw [e12, ← List.drop_drop, d8, d12a]
    exact List.take_left' l3
  · rw [e20, ← List.drop_drop, e12, ← List.drop_drop, d8, d12a, d20a]
    exact List.take_left' l4
  · rw [e28, ← List.drop_drop, e20, ← List.drop_drop, e12, ← List.drop_drop, d8, d12a,
      d20a, d28a]
    exact List.take_left' l5
  · rw [e36, ← List.drop_drop, e28, ← List.drop_drop, e20, ← List.drop_drop, e12,
      ← List.drop_drop, d8, d12a, d20a, d28a, d36a]
    exact List.take_left' hsk
  · rw [e60, ← List.drop_drop, e36, ← List.drop_drop, e28, ← List.drop_drop, e20,
      ← List.drop_drop, e12, ← List.drop_drop, d8, d12a, d20a, d28a, d36a, d60a,
      ← List.append_assoc]
    exact List.take_left' l7

theorem titleVal_lt (t : Title) : titleVal t < 2 ^ (8 * 4) := by
  cases t <;> decide

theorem titleFromU32_titleVal (t : Title) : titleFromU32 (titleVal t) = some t := by
  cases t <;> rfl

/-- C3: for every `ClientOpaqueAuthProof` whose username is at most 64
UTF-8 bytes with no interior NUL: `serialize` produces exactly 128
bytes, and `deserialize` of those bytes against a key store whose
`get_valid_keys()` still contains the sealing key returns `Ok` with the
same title, `time_expires`, `license_id`, `user_id`, `session_key` and
username; and when no valid key's decryption yields the magic
`0xC0FFEEFFEEAA1337`, `deserialize` fails (authentication is refused).
The AES-256 block cipher of the external `aes` crate is abstracted by
`enc`/`dec` with the usual cipher contract: length preservation,
`dec k ∘ enc k = id` for the sealing key, and no spurious magic under
the other valid keys. -/
theorem c3_opaque_proof_roundtrip
    (enc dec : List Nat → List Nat → List Nat)
    (p : ClientOpaqueAuthProofM) (validKeys : List (List Nat)) (sealKey : List Nat)
    (hu : p.username.length ≤ 64)
    (hnul : 0 ∉ p.username)
    (hutf : validUtf8 p.username = true)
    (hsk : p.session_key.length = 24)
    (hlic : p.license_id < 2 ^ 64)
    (huid : p.user_id < 2 ^ 64)
    (hexpLo : -(2 ^ 63) ≤ p.time_expires) (hexpHi : p.time_expires < 2 ^ 63)
    (hencLen : ∀ k b, (enc k b).length = b.length)
    (hdec : dec sealKey (enc sealKey (opaqueProofPlain p)) = opaqueProofPlain p)
    (hmem : sealKey ∈ validKeys)
    (hother : ∀ k ∈ validKeys, k ≠ sealKey →
      fromLeBytes ((dec k (serializeProof enc sealKey p)).take 8) ≠ opaqueMagic) :
    (serializeProof enc sealKey p).length = 128 ∧
    deserializeProof dec validKeys (serializeProof enc sealKey p) = some p ∧
    (∀ buf, (∀ k ∈ validKeys, fromLeBytes ((dec k buf).take 8) ≠ opaqueMagic) →
      deserializeProof dec validKeys buf = none) := by
  obtain ⟨f1, f2, f3, f4, f5, f6, f7, f8⟩ := opaqueProofPlain_fields p hu hsk
  have hser : serializeProof enc sealKey p = enc sealKey (opaqueProofPlain p) := rfl
  have hdecser : dec sealKey (serializeProof enc sealKey p) = opaqueProofPlain p := by
    rw [hser, hdec]
  have hmagiclt : opaqueMagic < 2 ^ (8 * 8) := by norm_num [opaqueMagic]
  have h64 : (2 : Nat) ^ 64 = 2 ^ (8 * 8) := by norm_num
  rw [h64] at hlic huid
  have hpredseal :
      (fromLeBytes ((dec sealKey (serializeProof enc sealKey p)).take 8) == opaqueMagic) =
        true := by
    rw [hdecser, f2, fromLeBytes_leBytes _ _ hmagiclt]
    exact beq_self_eq_true _
  refine ⟨?_, ?_, ?_⟩
  · rw [hser, hencLen]
    exact f1
  · have hsome : (validKeys.find? (fun k =>
        fromLeBytes ((dec k (serializeProof enc sealKey p)).take 8) == opaqueMagic)).isSome := by
      rw [List.find?_isSome]
      exact ⟨sealKey, hmem, hpredseal⟩
    obtain ⟨k, hk⟩ := Option.isSome_iff_exists.1 hsome
    have hkmem := List.mem_of_find?_eq_some hk
    have hkpred := List.find?_some hk
    have hkseal : k = sealKey := by
      by_contra hne
      exact hother k hkmem hne (by simpa using hkpred)
    subst hkseal
    unfold deserializeProof
    rw [hk]
    dsimp only
    rw [hdecser, f3, fromLeBytes_leBytes _ _ (titleVal_lt p.title), titleFromU32_titleVal]
    dsimp only
    rw [f4, intLeBytes8_roundtrip _ hexpLo hexpHi, f5, fromLeBytes_leBytes _ _ hlic,
      f6, fromLeBytes_leBytes _ _ huid, f7, f8,
      findIdx?_append_replicate_zero _ _ hnul]
    by_cases hcase : 64 - p.username.length = 0
    · rw [if_pos hcase, hcase]
      dsimp only [Option.getD]
      rw [List.replicate_zero, List.append_nil,
        List.take_of_length_le (by omega), hutf]
      rfl
    · rw [if_neg hcase]
      dsimp only [Option.getD]
      rw [List.take_left, hutf]
      rfl
  · intro buf hnone
    unfold deserializeProof
    have hfind : validKeys.find? (fun k =>
        fromLeBytes ((dec k buf).take 8) == opaqueMagic) = none := by
      rw [List.find?_eq_none]
      intro x hx
      simpa using hnone x hx
    rw [hfind]

/-- Witness for `c3_opaque_proof_roundtrip`: the identity cipher, one
valid key, username "bob". -/
theorem c3_opaque_proof_roundtrip_witness :
    deserializeProof (fun _ b => b) [List.replicate 32 9]
      (serializeProof (fun _ b => b) (List.replicate 32 9)
        ⟨Title.Iw5, 1000, 1234, 77, List.replicate 24 5, [98, 111, 98]⟩) =
      some ⟨Title.Iw5, 1000, 1234, 77, List.replicate 24 5, [98, 111, 98]⟩ :=
  (c3_opaque_proof_roundtrip (fun _ b => b) (fun _ b => b)
    ⟨Title.Iw5, 1000, 1234, 77, List.replicate 24 5, [98, 111, 98]⟩
    [List.replicate 32 9] (List.replicate 32 9)
    (by decide) (by decide) (by decide) (by decide) (by norm_num) (by norm_num)
    (by norm_num) (by norm_num) (fun k b => rfl) rfl (by simp)
    (fun k hk hne => absurd (by simpa using hk) hne)).2.1

/-! ## Bit-arithmetic toolkit for the codec round trip (C4) -/

theorem natToBits_length (n x : Nat) : (natToBits n x).length = n := by
  induction n generalizing x with
  | zero => rfl
  | succ k ih => simp [natToBits, ih]

theorem natToBits_congr (n x y : Nat) (h : x % 2 ^ n = y % 2 ^ n) :
    natToBits n x = natToBits n y := by
  induction n generalizing x y with
  | zero => rfl
  | succ k ih =>
    have h2 : x % 2 = y % 2 := by
      have hx := Nat.mod_mod_of_dvd x (show (2 : Nat) ∣ 2 ^ (k + 1) by
        exact dvd_pow_self 2 (Nat.succ_ne_zero k))
      have hy := Nat.mod_mod_of_dvd y (show (2 : Nat) ∣ 2 ^ (k + 1) by
        exact dvd_pow_self 2 (Nat.succ_ne_zero k))
      rw [← hx, ← hy, h]
    have hd : x / 2 % 2 ^ k = y / 2 % 2 ^ k := by
      have hx : x / 2 % 2 ^ k = x % 2 ^ (k + 1) / 2 := by
        rw [Nat.pow_succ, Nat.mul_comm, Nat.mod_mul_right_div_self]
      have hy : y / 2 % 2 ^ k = y % 2 ^ (k + 1) / 2 := by
        rw [Nat.pow_succ, Nat.mul_comm, Nat.mod_mul_right_div_self]
      rw [hx, hy, h]
    simp [natToBits, h2, ih _ _ hd]

theorem natToBits_mod (n x : Nat) : natToBits n (x % 2 ^ n) = natToBits n x :=
  natToBits_congr n _ _ (Nat.mod_mod_of_dvd x dvd_rfl)

theorem natToBits_split (m n x : Nat) :
    natToBits (m + n) x = natToBits m x ++ natToBits n (x / 2 ^ m) := by
  induction m generalizing x with
  | zero => simp [natToBits]
  | succ k ih =>
    rw [show k + 1 + n = (k + n) + 1 from by omega]
    rw [show natToBits ((k + n) + 1) x =
      (decide (x % 2 = 1)) :: natToBits (k + n) (x / 2) from rfl]
    rw [show natToBits (k + 1) x =
      (decide (x % 2 = 1)) :: natToBits k (x / 2) from rfl]
    rw [List.cons_append]
    congr 1
    rw [ih (x / 2)]
    congr 2
    rw [Nat.div_div_eq_div_mul]
    congr 1
    rw [Nat.pow_succ]
    ring

theorem natToBits_add_mul (m n a c : Nat) (ha : a < 2 ^ m) :
    natToBits (m + n) (a + c * 2 ^ m) = natToBits m a ++ natToBits n c := by
  rw [natToBits_split]
  congr 1
  · exact natToBits_congr m _ _ (by rw [Nat.add_mul_mod_self_right])
  · congr 1
    rw [Nat.add_mul_div_right _ _ (Nat.pos_pow_of_pos m (by norm_num)),
      Nat.div_eq_of_lt ha]
    omega

theorem natToBits_take (m n x : Nat) (h : m ≤ n) :
    (natToBits n x).take m = natToBits m x := by
  have he : n = m + (n - m) := by omega
  rw [he, natToBits_split]
  exact List.take_left' (natToBits_length _ _)

theorem natToBits_drop (m n x : Nat) :
    (natToBits n x).drop m = natToBits (n - m) (x / 2 ^ m) := by
  rcases le_or_lt m n with h | h
  · have he : n = m + (n - m) := by omega
    rw [he, natToBits_split]
    have h2 := @List.drop_left' Bool (natToBits m x)
      (natToBits (n - m) (x / 2 ^ m)) m (natToBits_length m x)
    rw [h2]
    congr 1
    omega
  · have h1 : (natToBits n x).length ≤ m := by rw [natToBits_length]; omega
    rw [List.drop_eq_nil_of_le h1]
    have h2 : n - m = 0 := by omega
    rw [h2]
    rfl

theorem bitsToNat_lt (l : List Bool) : bitsToNat l < 2 ^ l.length := by
  induction l with
  | nil => simp [bitsToNat]
  | cons b rest ih =>
    simp only [bitsToNat, List.length_cons, Nat.pow_succ]
    cases b <;> simp <;> omega

theorem bitsToNat_append (a b : List Bool) :
    bitsToNat (a ++ b) = bitsToNat a + 2 ^ a.length * bitsToNat b := by
  induction a with
  | nil => simp [bitsToNat]
  | cons x rest ih =>
    rw [List.cons_append,
      show bitsToNat (x :: (rest ++ b)) =
        (if x then 1 else 0) + 2 * bitsToNat (rest ++ b) from rfl,
      show bitsToNat (x :: rest) = (if x then 1 else 0) + 2 * bitsToNat rest from rfl,
      ih]
    simp only [List.length_cons, Nat.pow_succ]
    ring

theorem bitsToNat_natToBits (n x : Nat) : bitsToNat (natToBits n x) = x % 2 ^ n := by
  induction n generalizing x with
  | zero => simp [natToBits, bitsToNat, Nat.mod_one]
  | succ k ih =>
    simp only [natToBits, bitsToNat, ih]
    have h2 : (2 : Nat) ^ (k + 1) = 2 * 2 ^ k := by rw [Nat.pow_succ]; ring
    rw [h2, Nat.mod_mul]
    rcases Nat.mod_two_eq_zero_or_one x with hx | hx <;> simp [hx]

theorem bytesToBits_append (a b : List Nat) :
    bytesToBits (a ++ b) = bytesToBits a ++ bytesToBits b := by
  induction a with
  | nil => rfl
  | cons x rest ih => simp [bytesToBits, ih]

theorem bytesToBits_length (l : List Nat) : (bytesToBits l).length = 8 * l.length := by
  induction l with
  | nil => rfl
  | cons x rest ih =>
    simp only [bytesToBits, List.length_append, natToBits_length, ih, List.length_cons]
    ring

theorem bytesToBits_leBytes (n x : Nat) :
    bytesToBits (leBytes n x) = natToBits (8 * n) x := by
  induction n generalizing x with
  | zero => rfl
  | succ k ih =>
    show natToBits 8 (x % 256) ++ bytesToBits (leBytes k (x / 256)) = _
    rw [ih (x / 256)]
    rw [show 8 * (k + 1) = 8 + 8 * k from by ring, natToBits_split]
    congr 1
    rw [show (256 : Nat) = 2 ^ 8 from by norm_num, natToBits_mod]

/-- The `u8` expression `last | ((b << k) as u8)` as arithmetic, when
the low `k` bits of `last` are the only ones set. -/
theorem lor_shift_eq_add (last b k : Nat) (hk : k ≤ 8) (hlast : last < 2 ^ k) :
    last ||| ((b <<< k) % 256) = last + (b % 2 ^ (8 - k)) * 2 ^ k := by
  rw [Nat.shiftLeft_eq]
  rw [show (256 : Nat) = 2 ^ (8 - k) * 2 ^ k from by
    rw [← pow_add, show (8 - k) + k = 8 from by omega]; norm_num]
  rw [Nat.mul_mod_mul_right]
  rw [Nat.lor_comm, show (b % 2 ^ (8 - k)) * 2 ^ k = 2 ^ k * (b % 2 ^ (8 - k)) from by ring]
  rw [← Nat.mul_add_lt_is_or hlast]
  ring

/-- Writing `m ≤ 8 - k` bits into a byte with `k` bits already used. -/
theorem natToBits_or_shift_low (last b k m : Nat) (hlast : last < 2 ^ k)
    (hb : b < 2 ^ m) (hkm : k + m ≤ 8) :
    natToBits (k + m) (last ||| ((b <<< k) % 256)) = natToBits k last ++ natToBits m b := by
  rw [lor_shift_eq_add last b k (by omega) hlast]
  rw [Nat.mod_eq_of_lt (lt_of_lt_of_le hb (Nat.pow_le_pow_right (by norm_num) (by omega)))]
  exact natToBits_add_mul k m last b hlast

/-- Writing `m > 8 - k` bits: the filled byte plus the carry. -/
theorem natToBits_or_shift_high (last b k m : Nat) (hk : k < 8) (hlast : last < 2 ^ k)
    (hb : b < 2 ^ m) (hm : m ≤ 8) (hkm : 8 < k + m) :
    natToBits 8 (last ||| ((b <<< k) % 256)) ++ natToBits (k + m - 8) (b >>> (8 - k)) =
      natToBits k last ++ natToBits m b := by
  rw [lor_shift_eq_add last b k (by omega) hlast]
  have h1 : natToBits 8 (last + b % 2 ^ (8 - k) * 2 ^ k) =
      natToBits k last ++ natToBits (8 - k) (b % 2 ^ (8 - k)) := by
    have h := natToBits_add_mul k (8 - k) last (b % 2 ^ (8 - k)) hlast
    rwa [show k + (8 - k) = 8 from by omega] at h
  rw [h1, natToBits_mod, List.append_assoc]
  congr 1
  have h2 : natToBits m b = natToBits (8 - k) b ++ natToBits (k + m - 8) (b / 2 ^ (8 - k)) := by
    have h := natToBits_split (8 - k) (k + m - 8) b
    rwa [show (8 - k) + (k + m - 8) = m from by omega] at h
  rw [h2, Nat.shiftRight_eq_div_pow]

/-- Well-formedness of a writer state in bit mode: bytes are bytes, the
pending byte only has its low `bit_offset` bits set, and the offset is
in `1..8`. -/
def writerWF (s : BdWriterState) : Prop :=
  (∀ b ∈ s.out, b < 256) ∧ s.last_byte < 2 ^ s.bit_offset ∧
    1 ≤ s.bit_offset ∧ s.bit_offset ≤ 8

/-- The bit stream a writer state denotes: the flushed bytes followed by
the pending partial byte. -/
def writerBits (s : BdWriterState) : List Bool :=
  bytesToBits s.out ++
    (if s.bit_offset = 8 then [] else natToBits s.bit_offset s.last_byte)

theorem writeBitsLoopF_zero (fuel : Nat) (s : BdWriterState) (buf : List Nat)
    (srcOffset : Nat) : writeBitsLoopF fuel s buf srcOffset 0 = s := by
  cases fuel <;> rfl

theorem writeBitsIteration_spec (s : BdWriterState) (b m : Nat)
    (hwf : writerWF s) (hb : b < 2 ^ m) (hm1 : 1 ≤ m) (hm8 : m ≤ 8) :
    writerWF (writeBitsIteration s b m) ∧
    writerBits (writeBitsIteration s b m) = writerBits s ++ natToBits m b ∧
    (writeBitsIteration s b m).mode = s.mode ∧
    (writeBitsIteration s b m).type_checked = s.type_checked := by
  obtain ⟨hout, hlast, hbo1, hbo8⟩ := hwf
  have hb256 : b < 256 :=
    lt_of_lt_of_le hb (Nat.pow_le_pow_right (by norm_num) hm8)
  unfold writeBitsIteration
  by_cases hk : s.bit_offset < 8
  · rw [if_pos hk]
    have hwbits : writerBits s =
        bytesToBits s.out ++ natToBits s.bit_offset s.last_byte := by
      unfold writerBits
      rw [if_neg (by omega)]
    by_cases hover : 8 < s.bit_offset + m
    · rw [if_pos hover]
      have hlastb : s.last_byte ||| ((b <<< s.bit_offset) % 256) < 256 := by
        have h1 : s.last_byte < 2 ^ 8 :=
          lt_of_lt_of_le hlast (Nat.pow_le_pow_right (by norm_num) hbo8)
        have h2 : (b <<< s.bit_offset) % 256 < 2 ^ 8 := Nat.mod_lt _ (by norm_num)
        exact Nat.or_lt_two_pow h1 h2
      have hcarry : b >>> (8 - s.bit_offset) < 2 ^ (s.bit_offset + m - 8) := by
        rw [Nat.shiftRight_eq_div_pow, Nat.div_lt_iff_lt_mul
          (Nat.pos_pow_of_pos _ (by norm_num)), ← pow_add]
        exact lt_of_lt_of_le hb (Nat.pow_le_pow_right (by norm_num) (by omega))
      refine ⟨⟨?_, hcarry, by dsimp only; omega, by dsimp only; omega⟩, ?_, rfl, rfl⟩
      · intro x hx
        rcases List.mem_append.1 hx with hx | hx
        · exact hout x hx
        · simp only [List.mem_singleton] at hx
          omega
      · rw [hwbits]
        simp only [writerBits]
        rw [if_neg (show ¬s.bit_offset + m - 8 = 8 from by omega)]
        rw [bytesToBits_append]
        rw [show bytesToBits [s.last_byte ||| ((b <<< s.bit_offset) % 256)] =
          natToBits 8 (s.last_byte ||| ((b <<< s.bit_offset) % 256)) from by
            simp [bytesToBits]]
        rw [List.append_assoc, List.append_assoc]
        congr 1
        exact natToBits_or_shift_high s.last_byte b s.bit_offset m hk hlast hb hm8 hover
    · rw [if_neg hover]
      have hlow := natToBits_or_shift_low s.last_byte b s.bit_offset m hlast hb (by omega)
      have hlastlt : s.last_byte ||| ((b <<< s.bit_offset) % 256) <
          2 ^ (s.bit_offset + m) := by
        rw [lor_shift_eq_add _ _ _ (by omega) hlast]
        have hbb : b % 2 ^ (8 - s.bit_offset) = b := Nat.mod_eq_of_lt
          (lt_of_lt_of_le hb (Nat.pow_le_pow_right (by norm_num) (by omega)))
        rw [hbb, pow_add]
        calc s.last_byte + b * 2 ^ s.bit_offset
            < 2 ^ s.bit_offset + b * 2 ^ s.bit_offset := by omega
          _ = (b + 1) * 2 ^ s.bit_offset := by ring
          _ ≤ 2 ^ m * 2 ^ s.bit_offset := by
              exact Nat.mul_le_mul_right _ (by omega)
          _ = 2 ^ s.bit_offset * 2 ^ m := by ring
      by_cases heq : s.bit_offset + m = 8
      · rw [if_pos heq]
        refine ⟨⟨?_, by dsimp only; norm_num, by dsimp only; omega,
          by dsimp only; omega⟩, ?_, rfl, rfl⟩
        · intro x hx
          rcases List.mem_append.1 hx with hx | hx
          · exact hout x hx
          · simp only [List.mem_singleton] at hx
            subst hx
            calc s.last_byte ||| ((b <<< s.bit_offset) % 256)
                < 2 ^ (s.bit_offset + m) := hlastlt
              _ = 256 := by rw [heq]; rfl
        · rw [hwbits]
          simp only [writerBits]
          rw [bytesToBits_append]
          rw [show bytesToBits [s.last_byte ||| ((b <<< s.bit_offset) % 256)] =
            natToBits 8 (s.last_byte ||| ((b <<< s.bit_offset) % 256)) from by
              simp [bytesToBits]]
          rw [if_pos trivial, List.append_nil, ← heq, hlow, ← List.append_assoc]
      · rw [if_neg heq]
        refine ⟨⟨hout, hlastlt, by dsimp only; omega, by dsimp only; omega⟩,
          ?_, rfl, rfl⟩
        rw [hwbits]
        simp only [writerBits]
        rw [if_neg (show ¬s.bit_offset + m = 8 from heq)]
        rw [hlow, List.append_assoc]
  · rw [if_neg hk]
    have hk8 : s.bit_offset = 8 := by omega
    have hwbits : writerBits s = bytesToBits s.out := by
      unfold writerBits
      rw [if_pos hk8, List.append_nil]
    by_cases hm : m = 8
    · rw [if_pos hm]
      refine ⟨⟨?_, by dsimp only; simpa [hk8] using hlast, by dsimp only; omega,
        by dsimp only; omega⟩, ?_, rfl, rfl⟩
      · intro x hx
        rcases List.mem_append.1 hx with hx | hx
        · exact hout x hx
        · simp only [List.mem_singleton] at hx
          omega
      · rw [hwbits]
        simp only [writerBits]
        rw [if_pos hk8]
        rw [bytesToBits_append, List.append_nil, hm]
        simp [bytesToBits]
    · rw [if_neg hm]
      refine ⟨⟨hout, hb, by dsimp only; omega, by dsimp only; omega⟩, ?_, rfl, rfl⟩
      rw [hwbits]
      simp only [writerBits]
      rw [if_neg (show ¬m = 8 from hm)]

theorem writeBitsLoopF_spec (fuel : Nat) :
    ∀ (s : BdWriterState) (buf : List Nat) (so bl : Nat),
    bl ≤ fuel → writerWF s → (∀ x ∈ buf, x < 256) →
    bl ≤ (buf.length - so) * 8 →
    writerWF (writeBitsLoopF fuel s buf so bl) ∧
    writerBits (writeBitsLoopF fuel s buf so bl) =
      writerBits s ++ (bytesToBits (buf.drop so)).take bl ∧
    (writeBitsLoopF fuel s buf so bl).mode = s.mode ∧
    (writeBitsLoopF fuel s buf so bl).type_checked = s.type_checked := by
  induction fuel with
  | zero =>
    intro s buf so bl hfuel hwf hbuf hlen
    have hbl : bl = 0 := Nat.le_zero.1 hfuel
    subst hbl
    refine ⟨hwf, ?_, rfl, rfl⟩
    simp [writeBitsLoopF]
  | succ fuel ih =>
    intro s buf so bl hfuel hwf hbuf hlen
    by_cases hbl : bl = 0
    · subst hbl
      rw [writeBitsLoopF_zero]
      refine ⟨hwf, ?_, rfl, rfl⟩
      simp
    · have hso : so < buf.length := by
        rcases Nat.lt_or_ge so buf.length with h | h
        · exact h
        · exfalso
          have h0 : buf.length - so = 0 := by omega
          rw [h0] at hlen
          omega
      have hgetD : buf.getD so 0 = buf[so] := List.getD_eq_getElem buf 0 hso
      have hdrop : buf.drop so = buf[so] :: buf.drop (so + 1) :=
        List.drop_eq_getElem_cons hso
      by_cases hlt : bl < 8
      · have hiter := writeBitsIteration_spec s (buf.getD so 0 % 2 ^ bl) bl hwf
          (Nat.mod_lt _ (Nat.pos_pow_of_pos _ (by norm_num))) (by omega) (by omega)
        obtain ⟨hwf2, hbits2, hmode2, htc2⟩ := hiter
        have hstep : writeBitsLoopF (fuel + 1) s buf so bl = writeBitsLoopF fuel
            (writeBitsIteration s (buf.getD so 0 % 2 ^ bl) bl) buf (so + 1)
            (bl - bl) := by
          rw [writeBitsLoopF]
          rw [if_neg hbl]
          simp only [if_pos hlt]
        rw [hstep, Nat.sub_self, writeBitsLoopF_zero]
        refine ⟨hwf2, ?_, hmode2, htc2⟩
        rw [hbits2]
        congr 1
        rw [natToBits_mod, hgetD, hdrop]
        rw [show bytesToBits (buf[so] :: buf.drop (so + 1)) =
          natToBits 8 buf[so] ++ bytesToBits (buf.drop (so + 1)) from rfl]
        rw [List.take_append_eq_append_take, natToBits_length,
          show bl - 8 = 0 from by omega, List.take_zero, List.append_nil,
          natToBits_take bl 8 _ (by omega)]
      · have hraw : buf.getD so 0 < 256 := by
          rw [hgetD]
          exact hbuf _ (buf.getElem_mem hso)
        have hiter := writeBitsIteration_spec s (buf.getD so 0) 8 hwf hraw
          (by omega) (by omega)
        obtain ⟨hwf2, hbits2, hmode2, htc2⟩ := hiter
        have hstep : writeBitsLoopF (fuel + 1) s buf so bl = writeBitsLoopF fuel
            (writeBitsIteration s (buf.getD so 0) 8) buf (so + 1) (bl - 8) := by
          rw [writeBitsLoopF]
          rw [if_neg hbl]
          simp only [if_neg hlt]
        rw [hstep]
        have hrec := ih (writeBitsIteration s (buf.getD so 0) 8) buf (so + 1)
          (bl - 8) (by omega) hwf2 hbuf (by omega)
        obtain ⟨hwf3, hbits3, hmode3, htc3⟩ := hrec
        refine ⟨hwf3, ?_, by rw [hmode3, hmode2], by rw [htc3, htc2]⟩
        rw [hbits3, hbits2, List.append_assoc]
        congr 1
        rw [hgetD, hdrop]
        rw [show bytesToBits (buf[so] :: buf.drop (so + 1)) =
          natToBits 8 buf[so] ++ bytesToBits (buf.drop (so + 1)) from rfl]
        rw [List.take_append_eq_append_take, natToBits_length]
        rw [show List.take bl (natToBits 8 (buf[so])) = natToBits 8 (buf[so]) from
          List.take_of_length_le (by rw [natToBits_length]; omega)]

theorem natToBits_zero (n : Nat) : natToBits n 0 = List.replicate n false := by
  induction n with
  | zero => rfl
  | succ k ih => simp [natToBits, List.replicate, ih]

theorem flushWriter_bits (s : BdWriterState) (hwf : writerWF s) :
    bytesToBits (flushWriter s).out =
      writerBits s ++ List.replicate (8 - s.bit_offset) false := by
  obtain ⟨hout, hlast, h1, h8⟩ := hwf
  unfold flushWriter
  by_cases hk : 8 ≤ s.bit_offset
  · rw [if_pos hk]
    have hk8 : s.bit_offset = 8 := by omega
    unfold writerBits
    rw [if_pos hk8, hk8]
    simp
  · rw [if_neg hk]
    simp only [writerBits]
    rw [if_neg (show ¬s.bit_offset = 8 from by omega)]
    rw [bytesToBits_append]
    rw [show bytesToBits [s.last_byte] = natToBits 8 s.last_byte from by
      simp [bytesToBits]]
    have hsplit : natToBits 8 s.last_byte =
        natToBits s.bit_offset s.last_byte ++
          natToBits (8 - s.bit_offset) (s.last_byte / 2 ^ s.bit_offset) := by
      rw [← natToBits_split]
      congr 1
      omega
    rw [hsplit, Nat.div_eq_of_lt hlast, natToBits_zero, ← List.append_assoc]

theorem flushWriter_mode (s : BdWriterState) :
    (flushWriter s).mode = s.mode ∧ (flushWriter s).type_checked = s.type_checked := by
  unfold flushWriter
  by_cases hk : 8 ≤ s.bit_offset
  · rw [if_pos hk]
    exact ⟨rfl, rfl⟩
  · rw [if_neg hk]
    exact ⟨rfl, rfl⟩

theorem flushWriter_out_bytes (s : BdWriterState) (hwf : writerWF s) :
    ∀ x ∈ (flushWriter s).out, x < 256 := by
  obtain ⟨hout, hlast, h1, h8⟩ := hwf
  unfold flushWriter
  by_cases hk : 8 ≤ s.bit_offset
  · rw [if_pos hk]
    exact hout
  · rw [if_neg hk]
    intro x hx
    rcases List.mem_append.1 hx with hx | hx
    · exact hout x hx
    · simp only [List.mem_singleton] at hx
      subst hx
      exact lt_of_lt_of_le hlast (Nat.pow_le_pow_right (by norm_num) h8)

theorem bitsToBytesF_nil (n : Nat) : bitsToBytesF n [] = [] := by
  cases n <;> rfl

theorem bitsToBytesF_congr (f : Nat) :
    ∀ (g : Nat) (l : List Bool), l.length ≤ f → l.length ≤ g →
    bitsToBytesF f l = bitsToBytesF g l := by
  induction f with
  | zero =>
    intro g l hf hg
    have h0 : l = [] := List.eq_nil_of_length_eq_zero (by omega)
    subst h0
    rw [bitsToBytesF_nil, bitsToBytesF_nil]
  | succ f ih =>
    intro g l hf hg
    cases l with
    | nil => rw [bitsToBytesF_nil, bitsToBytesF_nil]
    | cons b rest =>
      cases g with
      | zero => simp at hg
      | succ g =>
        show bitsToNat ((b :: rest).take 8) :: bitsToBytesF f (rest.drop 7) =
          bitsToNat ((b :: rest).take 8) :: bitsToBytesF g (rest.drop 7)
        congr 1
        exact ih g (rest.drop 7)
          (by rw [List.length_drop]; simp at hf; omega)
          (by rw [List.length_drop]; simp at hg; omega)

theorem bitsToBytes_chunk8 (c rest : List Bool) (hc : c.length = 8) :
    bitsToBytes (c ++ rest) = bitsToNat c :: bitsToBytes rest := by
  cases c with
  | nil => simp at hc
  | cons b ct =>
    have hct : ct.length = 7 := by simp at hc; omega
    show bitsToBytesF ((b :: ct ++ rest).length) (b :: (ct ++ rest)) = _
    rw [show (b :: ct ++ rest).length = (ct ++ rest).length + 1 from rfl]
    show bitsToNat ((b :: (ct ++ rest)).take 8) ::
      bitsToBytesF ((ct ++ rest).length) ((ct ++ rest).drop 7) = _
    rw [show (b :: (ct ++ rest)).take 8 = b :: (ct ++ rest).take 7 from rfl,
      List.take_left' hct, List.drop_left' hct]
    congr 1
    exact bitsToBytesF_congr _ _ rest
      (by rw [List.length_append]; omega) (le_refl _)

theorem bitsToBytes_small (l : List Bool) (h0 : l ≠ []) (h8 : l.length ≤ 8) :
    bitsToBytes l = [bitsToNat l] := by
  cases l with
  | nil => exact absurd rfl h0
  | cons b rest =>
    show bitsToNat ((b :: rest).take 8) ::
      bitsToBytesF rest.length (rest.drop 7) = _
    rw [List.take_of_length_le h8,
      List.drop_eq_nil_of_le (by simp at h8 ⊢; omega), bitsToBytesF_nil]

theorem bitsToBytes_natToBits8 (w : Nat) : ∀ x : Nat,
    bitsToBytes (natToBits (8 * w) x) = leBytes w x := by
  induction w with
  | zero => intro x; rfl
  | succ k ih =>
    intro x
    rw [show 8 * (k + 1) = 8 + 8 * k from by ring, natToBits_split,
      bitsToBytes_chunk8 _ _ (natToBits_length _ _), bitsToNat_natToBits, ih]
    show _ = x % 256 :: leBytes k (x / 256)
    norm_num

/-- Merging a full byte: the low `8 - k` free bits take `b`'s low bits. -/
theorem natToBits_lor_shift8 (last b k : Nat) (hk : k ≤ 8) (hlast : last < 2 ^ k) :
    natToBits 8 (last ||| ((b <<< k) % 256)) =
      natToBits k last ++ natToBits (8 - k) b := by
  have hmb : (b <<< k) % 256 = ((b % 2 ^ (8 - k)) <<< k) % 256 := by
    rw [Nat.shiftLeft_eq, Nat.shiftLeft_eq]
    rw [show (256 : Nat) = 2 ^ (8 - k) * 2 ^ k from by
      rw [← pow_add, show (8 - k) + k = 8 from by omega]; norm_num]
    rw [Nat.mul_mod_mul_right, Nat.mul_mod_mul_right, Nat.mod_mod_of_dvd _ dvd_rfl]
  rw [hmb]
  have h := natToBits_or_shift_low last (b % 2 ^ (8 - k)) k (8 - k) hlast
    (Nat.mod_lt _ (Nat.pos_pow_of_pos _ (by norm_num))) (by omega)
  rw [show k + (8 - k) = 8 from by omega] at h
  rw [h, natToBits_mod]

/-- Well-formedness of a reader state in bit mode: the cached byte is a
byte, the offset of consumed bits is in `1..8`, and the data is bytes. -/
def readerWF (s : BdReaderState) : Prop :=
  s.last_byte < 256 ∧ 1 ≤ s.bit_offset ∧ s.bit_offset ≤ 8 ∧
    ∀ x ∈ s.data, x < 256

/-- The bit stream still to be read: the unconsumed bits of the cached
byte followed by the bits of the unread data bytes. -/
def readerRem (s : BdReaderState) : List Bool :=
  (natToBits 8 s.last_byte).drop s.bit_offset ++ bytesToBits (s.data.drop s.pos)

theorem readerRem_length (s : BdReaderState) :
    (readerRem s).length = (8 - s.bit_offset) + 8 * (s.data.length - s.pos) := by
  unfold readerRem
  rw [List.length_append, List.length_drop, natToBits_length, bytesToBits_length,
    List.length_drop]

theorem readBitsLoopF_zero (fuel : Nat) (s : BdReaderState) (acc : List Nat) :
    readBitsLoopF fuel s acc 0 = .ok (acc, s) := by
  cases fuel <;> rfl

theorem readBitsLoopF_spec (fuel : Nat) :
    ∀ (s : BdReaderState) (acc : List Nat) (bl : Nat),
    bl ≤ fuel → readerWF s → bl ≤ (readerRem s).length →
    ∃ s2, readBitsLoopF fuel s acc bl =
        .ok (acc ++ bitsToBytes ((readerRem s).take bl), s2) ∧
      readerWF s2 ∧ readerRem s2 = (readerRem s).drop bl ∧
      s2.data = s.data ∧ s2.mode = s.mode ∧ s2.type_checked = s.type_checked ∧
      s2.has_data_type_cached = s.has_data_type_cached ∧
      s2.cached_data_type = s.cached_data_type := by
  induction fuel with
  | zero =>
    intro s acc bl hfuel hwf hlen
    have hbl : bl = 0 := by omega
    subst hbl
    refine ⟨s, ?_, hwf, by simp, rfl, rfl, rfl, rfl, rfl⟩
    rw [readBitsLoopF_zero]
    simp [bitsToBytes, bitsToBytesF_nil]
  | succ fuel ih =>
    intro s acc bl hfuel hwf hlen
    by_cases hbl : bl = 0
    · subst hbl
      refine ⟨s, ?_, hwf, by simp, rfl, rfl, rfl, rfl, rfl⟩
      rw [readBitsLoopF_zero]
      simp [bitsToBytes, bitsToBytesF_nil]
    · obtain ⟨hlast, hbo1, hbo8, hdata⟩ := hwf
      have hL : s.last_byte >>> s.bit_offset < 2 ^ (8 - s.bit_offset) := by
        rw [Nat.shiftRight_eq_div_pow, Nat.div_lt_iff_lt_mul
          (Nat.pos_pow_of_pos _ (by norm_num)), ← pow_add,
          show (8 - s.bit_offset) + s.bit_offset = 8 from by omega]
        exact hlast
      have hheadrem : (natToBits 8 s.last_byte).drop s.bit_offset =
          natToBits (8 - s.bit_offset) (s.last_byte >>> s.bit_offset) := by
        rw [natToBits_drop, Nat.shiftRight_eq_div_pow]
      by_cases hA : 8 - s.bit_offset < bl
      · have hpos : s.pos < s.data.length := by
          by_contra hnp
          push_neg at hnp
          rw [readerRem_length] at hlen
          omega
        have hcur : readCursorU8 s =
            .ok (s.data[s.pos], { s with pos := s.pos + 1 }) := by
          unfold readCursorU8
          rw [dif_pos hpos]
          rfl
        have hb2 : s.data[s.pos] < 256 := hdata _ (s.data.getElem_mem hpos)
        have hshift : (if s.bit_offset < 8 then s.last_byte >>> s.bit_offset else 0) =
            s.last_byte >>> s.bit_offset := by
          by_cases h : s.bit_offset < 8
          · rw [if_pos h]
          · rw [if_neg h]
            have h8 : s.bit_offset = 8 := by omega
            rw [h8, Nat.shiftRight_eq_div_pow,
              Nat.div_eq_of_lt (show s.last_byte < 2 ^ 8 from by omega)]
        have hout8 : natToBits 8 ((s.last_byte >>> s.bit_offset) |||
              ((s.data[s.pos] <<< (8 - s.bit_offset)) % 256)) =
            natToBits (8 - s.bit_offset) (s.last_byte >>> s.bit_offset) ++
              natToBits s.bit_offset (s.data[s.pos]) := by
          have h := natToBits_lor_shift8 (s.last_byte >>> s.bit_offset)
            (s.data[s.pos]) (8 - s.bit_offset) (by omega) hL
          rwa [show 8 - (8 - s.bit_offset) = s.bit_offset from by omega] at h
        have houtlt : (s.last_byte >>> s.bit_offset) |||
            ((s.data[s.pos] <<< (8 - s.bit_offset)) % 256) < 256 := by
          have h1 : s.last_byte >>> s.bit_offset < 2 ^ 8 :=
            lt_of_lt_of_le hL (Nat.pow_le_pow_right (by norm_num) (by omega))
          have h2 : (s.data[s.pos] <<< (8 - s.bit_offset)) % 256 < 2 ^ 8 :=
            Nat.mod_lt _ (by norm_num)
          exact Nat.or_lt_two_pow h1 h2
        have hdropd : s.data.drop s.pos = s.data[s.pos] :: s.data.drop (s.pos + 1) :=
          List.drop_eq_getElem_cons hpos
        have hrem : readerRem s =
            natToBits (8 - s.bit_offset) (s.last_byte >>> s.bit_offset) ++
              (natToBits 8 (s.data[s.pos]) ++ bytesToBits (s.data.drop (s.pos + 1))) := by
          unfold readerRem
          rw [hheadrem, hdropd]
          rfl
        have htake8 : (readerRem s).take 8 =
            natToBits 8 ((s.last_byte >>> s.bit_offset) |||
              ((s.data[s.pos] <<< (8 - s.bit_offset)) % 256)) := by
          rw [hrem, hout8, List.take_append_eq_append_take]
          rw [show (natToBits (8 - s.bit_offset) (s.last_byte >>> s.bit_offset)).take 8 =
              natToBits (8 - s.bit_offset) (s.last_byte >>> s.bit_offset) from
            List.take_of_length_le (by rw [natToBits_length]; omega)]
          rw [natToBits_length, show 8 - (8 - s.bit_offset) = s.bit_offset from by omega]
          rw [List.take_append_eq_append_take, natToBits_take _ 8 _ hbo8,
            natToBits_length, show s.bit_offset - 8 = 0 from by omega,
            List.take_zero, List.append_nil]
        by_cases hbl8 : 8 ≤ bl
        · have hstep : readBitsLoopF (fuel + 1) s acc bl =
              readBitsLoopF fuel
                { s with pos := s.pos + 1, last_byte := s.data[s.pos] }
                (acc ++ [(s.last_byte >>> s.bit_offset) |||
                  ((s.data[s.pos] <<< (8 - s.bit_offset)) % 256)]) (bl - 8) := by
            rw [readBitsLoopF]
            rw [if_neg hbl]
            dsimp only
            rw [if_pos hA, hcur]
            dsimp only
            rw [hshift, if_pos hbl8]
          have hs2wf : readerWF { s with pos := s.pos + 1, last_byte := s.data[s.pos] } :=
            ⟨hb2, hbo1, hbo8, hdata⟩
          have hs2rem : readerRem { s with pos := s.pos + 1, last_byte := s.data[s.pos] } =
              (readerRem s).drop 8 := by
            rw [hrem, List.drop_append_eq_append_drop,
              List.drop_eq_nil_of_le (by rw [natToBits_length]; omega),
              natToBits_length, show 8 - (8 - s.bit_offset) = s.bit_offset from by omega,
              List.nil_append, List.drop_append_eq_append_drop,
              natToBits_length, show s.bit_offset - 8 = 0 from by omega, List.drop_zero]
            unfold readerRem
            rfl
          have hs2len : bl - 8 ≤
              (readerRem { s with pos := s.pos + 1, last_byte := s.data[s.pos] }).length := by
            rw [hs2rem, List.length_drop]
            omega
          obtain ⟨s3, hrun, hwf3, hrem3, hdata3, hmode3, htc3, hcache3, hcd3⟩ :=
            ih { s with pos := s.pos + 1, last_byte := s.data[s.pos] }
              (acc ++ [(s.last_byte >>> s.bit_offset) |||
                ((s.data[s.pos] <<< (8 - s.bit_offset)) % 256)]) (bl - 8)
              (by omega) hs2wf hs2len
          refine ⟨s3, ?_, hwf3, ?_, hdata3, hmode3, htc3, hcache3, hcd3⟩
          · rw [hstep, hrun]
            have hsplit : (readerRem s).take bl =
                (readerRem s).take 8 ++ ((readerRem s).drop 8).take (bl - 8) := by
              have h := List.take_add (readerRem s) 8 (bl - 8)
              rwa [show 8 + (bl - 8) = bl from by omega] at h
            rw [hsplit, htake8, bitsToBytes_chunk8 _ _ (natToBits_length _ _),
              bitsToNat_natToBits,
              Nat.mod_eq_of_lt (show _ < 2 ^ 8 from by omega), hs2rem]
            simp
          · rw [hrem3, hs2rem, List.drop_drop]
            congr 1
            omega
        · have hblm : min bl 8 = bl := Nat.min_eq_left (by omega)
          have hstep : readBitsLoopF (fuel + 1) s acc bl =
              readBitsLoopF fuel
                { s with
                  pos := s.pos + 1
                  last_byte := s.data[s.pos]
                  bit_offset := s.bit_offset + bl - 8 }
                (acc ++ [((s.last_byte >>> s.bit_offset) |||
                  ((s.data[s.pos] <<< (8 - s.bit_offset)) % 256)) % 2 ^ bl]) 0 := by
            rw [readBitsLoopF]
            rw [if_neg hbl]
            dsimp only
            rw [if_pos hA, hcur]
            dsimp only
            rw [hshift, if_neg hbl8, hblm,
              if_pos (show 8 < s.bit_offset + bl from by omega), Nat.sub_self]
          rw [hstep, readBitsLoopF_zero]
          refine ⟨{ s with
              pos := s.pos + 1
              last_byte := s.data[s.pos]
              bit_offset := s.bit_offset + bl - 8 }, ?_, ?_, ?_, rfl, rfl, rfl, rfl, rfl⟩
          · have htakebl : (readerRem s).take bl =
                natToBits bl ((s.last_byte >>> s.bit_offset) |||
                  ((s.data[s.pos] <<< (8 - s.bit_offset)) % 256)) := by
              rw [show (readerRem s).take bl = ((readerRem s).take 8).take bl from by
                rw [List.take_take, Nat.min_eq_left (by omega)]]
              rw [htake8, natToBits_take bl 8 _ (by omega)]
            rw [htakebl, bitsToBytes_small _ (by
                intro hnil
                have hh := natToBits_length bl ((s.last_byte >>> s.bit_offset) |||
                  ((s.data[s.pos] <<< (8 - s.bit_offset)) % 256))
                rw [hnil] at hh
                simp at hh
                omega)
              (by rw [natToBits_length]; omega), bitsToNat_natToBits]
          · exact ⟨hb2, by dsimp only; omega, by dsimp only; omega, hdata⟩
          · rw [hrem, List.drop_append_eq_append_drop,
              List.drop_eq_nil_of_le (by rw [natToBits_length]; omega),
              natToBits_length, List.nil_append,
              List.drop_append_eq_append_drop, natToBits_length,
              show bl - (8 - s.bit_offset) - 8 = 0 from by omega, List.drop_zero]
            unfold readerRem
            dsimp only
            rw [show bl - (8 - s.bit_offset) = s.bit_offset + bl - 8 from by omega]
      · have hbl8 : bl ≤ 8 - s.bit_offset := by omega
        have hblm : min bl (8 - s.bit_offset) = bl := Nat.min_eq_left hbl8
        have hstep : readBitsLoopF (fuel + 1) s acc bl =
            readBitsLoopF fuel { s with bit_offset := s.bit_offset + bl }
              (acc ++ [(s.last_byte >>> s.bit_offset) % 2 ^ bl]) 0 := by
          rw [readBitsLoopF]
          rw [if_neg hbl]
          dsimp only
          rw [if_neg hA]
          rw [if_neg (show ¬8 ≤ bl from by omega), hblm,
            if_neg (show ¬8 < s.bit_offset + bl from by omega), Nat.sub_self]
        have hremB : readerRem s =
            natToBits (8 - s.bit_offset) (s.last_byte >>> s.bit_offset) ++
              bytesToBits (s.data.drop s.pos) := by
          unfold readerRem
          rw [hheadrem]
        rw [hstep, readBitsLoopF_zero]
        refine ⟨{ s with bit_offset := s.bit_offset + bl }, ?_, ?_, ?_,
          rfl, rfl, rfl, rfl, rfl⟩
        · have htakebl : (readerRem s).take bl =
              natToBits bl (s.last_byte >>> s.bit_offset) := by
            rw [hremB, List.take_append_eq_append_take,
              natToBits_take bl _ _ hbl8, natToBits_length,
              show bl - (8 - s.bit_offset) = 0 from by omega,
              List.take_zero, List.append_nil]
          rw [htakebl, bitsToBytes_small _ (by
              intro hnil
              have hh := natToBits_length bl (s.last_byte >>> s.bit_offset)
              rw [hnil] at hh
              simp at hh
              omega)
            (by rw [natToBits_length]; omega), bitsToNat_natToBits]
        · exact ⟨hlast, by dsimp only; omega, by dsimp only; omega, hdata⟩
        · rw [hremB, List.drop_append_eq_append_drop, natToBits_length,
            show bl - (8 - s.bit_offset) = 0 from by omega, List.drop_zero,
            natToBits_drop]
          unfold readerRem
          dsimp only
          rw [natToBits_drop, Nat.shiftRight_eq_div_pow,
            Nat.div_div_eq_div_mul, ← pow_add,
            show 8 - s.bit_offset - bl = 8 - (s.bit_offset + bl) from by omega]

theorem readBits_spec (s : BdReaderState) (count : Nat)
    (hmode : s.mode = StreamMode.BitMode) (hwf : readerWF s)
    (hlen : count ≤ (readerRem s).length) :
    ∃ s2, readBits s count = .ok (bitsToBytes ((readerRem s).take count), s2) ∧
      readerWF s2 ∧ readerRem s2 = (readerRem s).drop count ∧
      s2.data = s.data ∧ s2.mode = s.mode ∧ s2.type_checked = s.type_checked ∧
      s2.has_data_type_cached = s.has_data_type_cached ∧
      s2.cached_data_type = s.cached_data_type := by
  unfold readBits
  rw [if_pos hmode]
  obtain ⟨s2, hrun, hrest⟩ := readBitsLoopF_spec count s [] count (le_refl _) hwf hlen
  refine ⟨s2, ?_, hrest⟩
  rw [hrun, List.nil_append]

theorem writeBits_spec (s : BdWriterState) (buf : List Nat) (count : Nat)
    (hmode : s.mode = StreamMode.BitMode) (hwf : writerWF s)
    (hbuf : ∀ x ∈ buf, x < 256) (hcount : count ≤ buf.length * 8) :
    ∃ s2, writeBits s buf count = .ok s2 ∧ writerWF s2 ∧
      writerBits s2 = writerBits s ++ (bytesToBits buf).take count ∧
      s2.mode = s.mode ∧ s2.type_checked = s.type_checked := by
  unfold writeBits
  rw [if_pos hmode]
  obtain ⟨hwf2, hbits2, hmode2, htc2⟩ := writeBitsLoopF_spec count s buf 0 count
    (le_refl _) hwf hbuf (by simpa using hcount)
  exact ⟨_, rfl, hwf2, by rwa [List.drop_zero] at hbits2, hmode2, htc2⟩

theorem leBytes_lt (n x : Nat) : ∀ b ∈ leBytes n x, b < 256 := by
  induction n generalizing x with
  | zero => intro b hb; simp [leBytes] at hb
  | succ k ih =>
    intro b hb
    simp only [leBytes, List.mem_cons] at hb
    rcases hb with hb | hb
    · subst hb
      exact Nat.mod_lt _ (by norm_num)
    · exact ih (x / 256) b hb

theorem writerWF_init (mode : StreamMode) (tc : Bool) :
    writerWF (initWriter mode tc) := by
  refine ⟨?_, ?_, ?_, ?_⟩ <;> simp [initWriter, writerWF]

theorem writerBits_init (mode : StreamMode) (tc : Bool) :
    writerBits (initWriter mode tc) = [] := rfl

theorem readerWF_init (data : List Nat) (mode : StreamMode) (tc : Bool)
    (hdata : ∀ x ∈ data, x < 256) : readerWF (initReader data mode tc) :=
  ⟨by norm_num [initReader], by norm_num [initReader], by norm_num [initReader], hdata⟩

theorem readerRem_init (data : List Nat) (mode : StreamMode) (tc : Bool) :
    readerRem (initReader data mode tc) = bytesToBits data := by
  unfold readerRem initReader
  rw [List.drop_eq_nil_of_le (by rw [natToBits_length])]
  rfl

theorem readCursorU8_spec (s : BdReaderState) (b : Nat) (tail : List Nat)
    (hdrop : s.data.drop s.pos = b :: tail) :
    readCursorU8 s = .ok (b, { s with pos := s.pos + 1 }) := by
  have hpos : s.pos < s.data.length := by
    have h := congrArg List.length hdrop
    rw [List.length_drop] at h
    simp at h
    omega
  have h2 := List.drop_eq_getElem_cons hpos
  rw [hdrop] at h2
  simp only [List.cons.injEq] at h2
  unfold readCursorU8
  rw [dif_pos hpos]
  rw [show s.data.get ⟨s.pos, hpos⟩ = s.data[s.pos] from rfl, ← h2.1]

theorem readCursorN_spec (s : BdReaderState) (n : Nat) (pre tail : List Nat)
    (hpos : s.pos ≤ s.data.length)
    (hdrop : s.data.drop s.pos = pre ++ tail) (hlen : pre.length = n) :
    readCursorN s n = .ok (pre, { s with pos := s.pos + n }) := by
  have hle : s.pos + n ≤ s.data.length := by
    have h := congrArg List.length hdrop
    rw [List.length_drop, List.length_append] at h
    omega
  unfold readCursorN
  rw [if_pos hle, hdrop, List.take_left' hlen]

theorem toValue_noArray (t : BdDataType) :
    (BufferDataType.noArray t).toValue = bdDataTypeVal t := rfl

theorem toValue_array (t : BdDataType) :
    (BufferDataType.array t).toValue = bdDataTypeVal t + arrayTypeOffset := rfl

theorem eqNonArray_noArray (t : BdDataType) :
    (BufferDataType.noArray t).eqNonArray t = true := by
  simp [BufferDataType.eqNonArray, BufferDataType.noArray]

theorem eqArray_array (t : BdDataType) :
    (BufferDataType.array t).eqArray t = true := by
  simp [BufferDataType.eqArray, BufferDataType.array]

theorem writeDataType_byte_spec (s : BdWriterState) (bdt : BufferDataType)
    (hmode : s.mode = StreamMode.ByteMode) :
    writeDataType s bdt = .ok { s with out := s.out ++ [bdt.toValue] } := by
  unfold writeDataType
  rw [if_pos hmode]

theorem writeDataType_bit_spec (s : BdWriterState) (bdt : BufferDataType)
    (hmode : s.mode = StreamMode.BitMode) (hwf : writerWF s)
    (htag : bdt.toValue < 32) :
    ∃ s2, writeDataType s bdt = .ok s2 ∧ writerWF s2 ∧
      writerBits s2 = writerBits s ++ natToBits 5 bdt.toValue ∧
      s2.mode = s.mode ∧ s2.type_checked = s.type_checked := by
  unfold writeDataType
  rw [if_neg (by rw [hmode]; intro h; cases h)]
  obtain ⟨s2, heq, hwf2, hbits2, hmode2, htc2⟩ := writeBits_spec s [bdt.toValue] 5
    hmode hwf (by intro b hb; simp at hb; omega) (by simp)
  refine ⟨s2, heq, hwf2, ?_, hmode2, htc2⟩
  rw [hbits2]
  congr 1

theorem readDataType_byte_spec (s : BdReaderState) (bdt : BufferDataType)
    (v : Nat) (tail : List Nat)
    (hmode : s.mode = StreamMode.ByteMode)
    (hcache : s.has_data_type_cached = false)
    (hdrop : s.data.drop s.pos = v :: tail)
    (hfrom : BufferDataType.fromValue v = some bdt) :
    readDataType s = .ok (bdt, { s with pos := s.pos + 1 }) := by
  unfold readDataType
  rw [if_neg (by simp [hcache]),
    if_pos (show s.mode ≠ StreamMode.BitMode from by rw [hmode]; intro h; cases h),
    readCursorU8_spec s v tail hdrop]
  dsimp only
  rw [hfrom]

theorem readDataType_bit_spec (s : BdReaderState) (bdt : BufferDataType)
    (tagv : Nat)
    (hmode : s.mode = StreamMode.BitMode)
    (hcache : s.has_data_type_cached = false)
    (hwf : readerWF s)
    (hlen : 5 ≤ (readerRem s).length)
    (htake : (readerRem s).take 5 = natToBits 5 tagv)
    (htag : tagv < 32)
    (hfrom : BufferDataType.fromValue tagv = some bdt) :
    ∃ s2, readDataType s = .ok (bdt, s2) ∧ readerWF s2 ∧
      readerRem s2 = (readerRem s).drop 5 ∧
      s2.data = s.data ∧ s2.mode = s.mode ∧ s2.type_checked = s.type_checked ∧
      s2.has_data_type_cached = s.has_data_type_cached ∧
      s2.cached_data_type = s.cached_data_type := by
  obtain ⟨s2, hrb, hwf2, hrem2, hrest⟩ := readBits_spec s 5 hmode hwf hlen
  refine ⟨s2, ?_, hwf2, hrem2, hrest⟩
  unfold readDataType
  rw [if_neg (by simp [hcache]),
    if_neg (show ¬s.mode ≠ StreamMode.BitMode from by rw [hmode]; simp),
    hrb, htake,
    bitsToBytes_small _ (by
      intro hnil
      have hh := natToBits_length 5 tagv
      rw [hnil] at hh
      simp at hh)
    (by rw [natToBits_length]; norm_num),
    bitsToNat_natToBits]
  dsimp only
  rw [show (([tagv % 2 ^ 5] : List Nat).getD 0 0) = tagv % 2 ^ 5 from rfl,
    Nat.mod_eq_of_lt (show tagv < 2 ^ 5 from by norm_num; omega), hfrom]

theorem bindOk {α β : Type} (a : α) (f : α → Except BdErr β) :
    ((Except.ok a : Except BdErr α) >>= f) = f a := rfl

theorem scalar_roundtrip_bit (t : BdDataType) (w x : Nat) (tc : Bool)
    (hx : x < 2 ^ (8 * w))
    (htag : bdDataTypeVal t < 32)
    (hfrom : BufferDataType.fromValue (bdDataTypeVal t) =
      some (BufferDataType.noArray t)) :
    ∃ w2 r2, writeScalar t w (initWriter .BitMode tc) x = .ok w2 ∧
      readScalar t w (initReader (flushWriter w2).out .BitMode tc) = .ok (x, r2) := by
  cases tc
  · obtain ⟨s2, h2, hwf2, hbits2, hmode2, htc2⟩ :=
      writeBits_spec (initWriter .BitMode false) (leBytes w x) (w * 8)
        rfl (writerWF_init _ _) (leBytes_lt w x) (by rw [leBytes_length])
    have hw2 : writeScalar t w (initWriter .BitMode false) x = .ok s2 := by
      unfold writeScalar
      rw [if_neg (show ¬(initWriter StreamMode.BitMode false).type_checked = true
        from by decide)]
      simp only [bindOk]
      rw [if_neg (show ¬(initWriter StreamMode.BitMode false).mode =
        StreamMode.ByteMode from by decide)]
      exact h2
    have hbitsw2 : writerBits s2 = natToBits (8 * w) x := by
      rw [hbits2, writerBits_init, List.nil_append, bytesToBits_leBytes,
        List.take_of_length_le (by rw [natToBits_length]; omega)]
    have hfdata : ∀ b ∈ (flushWriter s2).out, b < 256 := flushWriter_out_bytes s2 hwf2
    have hr0 : readerRem (initReader (flushWriter s2).out .BitMode false) =
        natToBits (8 * w) x ++ List.replicate (8 - s2.bit_offset) false := by
      rw [readerRem_init, flushWriter_bits s2 hwf2, hbitsw2]
    have hck : readCheckType (initReader (flushWriter s2).out .BitMode false) t =
        .ok (initReader (flushWriter s2).out .BitMode false) := by
      unfold readCheckType
      rw [if_neg (show ¬(initReader (flushWriter s2).out StreamMode.BitMode
        false).type_checked = true from by
          intro hh
          exact absurd hh (by rw [show (initReader (flushWriter s2).out
            StreamMode.BitMode false).type_checked = false from rfl]; decide))]
    have hlen2 : w * 8 ≤
        (readerRem (initReader (flushWriter s2).out .BitMode false)).length := by
      rw [hr0, List.length_append, natToBits_length]
      omega
    obtain ⟨r2, hrb2, hwfr2, hremr2, hrest2⟩ := readBits_spec
      (initReader (flushWriter s2).out .BitMode false) (w * 8) rfl
      (readerWF_init _ _ _ hfdata) hlen2
    have htakew : (readerRem (initReader (flushWriter s2).out .BitMode false)).take
        (w * 8) = natToBits (8 * w) x := by
      rw [hr0, show w * 8 = 8 * w from Nat.mul_comm w 8,
        List.take_left' (natToBits_length _ _)]
    refine ⟨s2, r2, hw2, ?_⟩
    unfold readScalar
    rw [hck]
    simp only [bindOk]
    rw [if_neg (show ¬(initReader (flushWriter s2).out StreamMode.BitMode
      false).mode = StreamMode.ByteMode from fun h => StreamMode.noConfusion h)]
    rw [hrb2, htakew, bitsToBytes_natToBits8 w x]
    dsimp only
    rw [fromLeBytes_leBytes w x hx]
  · obtain ⟨s1, h1, hwf1, hbits1, hmode1, htc1⟩ :=
      writeDataType_bit_spec (initWriter .BitMode true) (BufferDataType.noArray t)
        rfl (writerWF_init _ _) (by rw [toValue_noArray]; omega)
    obtain ⟨s2, h2, hwf2, hbits2, hmode2, htc2⟩ := writeBits_spec s1 (leBytes w x)
      (w * 8) (by rw [hmode1]; rfl) hwf1 (leBytes_lt w x) (by rw [leBytes_length])
    have hw2 : writeScalar t w (initWriter .BitMode true) x = .ok s2 := by
      unfold writeScalar
      rw [if_pos (show (initWriter StreamMode.BitMode true).type_checked = true
        from rfl), h1]
      simp only [bindOk]
      rw [if_neg (show ¬s1.mode = StreamMode.ByteMode from by
        rw [hmode1]; decide)]
      exact h2
    have hbitsw2 : writerBits s2 =
        natToBits 5 (bdDataTypeVal t) ++ natToBits (8 * w) x := by
      rw [hbits2, hbits1, writerBits_init, List.nil_append, toValue_noArray,
        bytesToBits_leBytes,
        List.take_of_length_le (by rw [natToBits_length]; omega)]
    have hfdata : ∀ b ∈ (flushWriter s2).out, b < 256 := flushWriter_out_bytes s2 hwf2
    have hr0 : readerRem (initReader (flushWriter s2).out .BitMode true) =
        (natToBits 5 (bdDataTypeVal t) ++ natToBits (8 * w) x) ++
          List.replicate (8 - s2.bit_offset) false := by
      rw [readerRem_init, flushWriter_bits s2 hwf2, hbitsw2]
    have hr0len : 5 ≤ (readerRem (initReader (flushWriter s2).out .BitMode true)).length := by
      rw [hr0, List.length_append, List.length_append, natToBits_length]
      omega
    have htake5 : (readerRem (initReader (flushWriter s2).out .BitMode true)).take 5 =
        natToBits 5 (bdDataTypeVal t) := by
      rw [hr0, List.append_assoc, List.take_left' (natToBits_length 5 _)]
    obtain ⟨r1, hrd, hwfr1, hremr1, hdr1, hmr1, htcr1, hcr1, hcdr1⟩ :=
      readDataType_bit_spec (initReader (flushWriter s2).out .BitMode true)
        (BufferDataType.noArray t) (bdDataTypeVal t) rfl rfl
        (readerWF_init _ _ _ hfdata) hr0len htake5 htag hfrom
    have hck : readCheckType (initReader (flushWriter s2).out .BitMode true) t =
        .ok r1 := by
      unfold readCheckType
      rw [if_pos (show (initReader (flushWriter s2).out StreamMode.BitMode
        true).type_checked = true from rfl), hrd]
      dsimp only
      rw [if_pos (show (BufferDataType.noArray t).eqNonArray t = true from
        eqNonArray_noArray t)]
    have hremr1' : readerRem r1 =
        natToBits (8 * w) x ++ List.replicate (8 - s2.bit_offset) false := by
      rw [hremr1, hr0, List.append_assoc, List.drop_left' (natToBits_length 5 _)]
    have hlen2 : w * 8 ≤ (readerRem r1).length := by
      rw [hremr1', List.length_append, natToBits_length]
      omega
    obtain ⟨r2, hrb2, hwfr2, hremr2, hrest2⟩ := readBits_spec r1 (w * 8)
      (by rw [hmr1]; rfl) hwfr1 hlen2
    have htakew : (readerRem r1).take (w * 8) = natToBits (8 * w) x := by
      rw [hremr1', show w * 8 = 8 * w from Nat.mul_comm w 8,
        List.take_left' (natToBits_length _ _)]
    refine ⟨s2, r2, hw2, ?_⟩
    unfold readScalar
    rw [hck]
    simp only [bindOk]
    rw [if_neg (show ¬r1.mode = StreamMode.ByteMode from by
      rw [hmr1]; exact fun h => StreamMode.noConfusion h)]
    rw [hrb2, htakew, bitsToBytes_natToBits8 w x]
    dsimp only
    rw [fromLeBytes_leBytes w x hx]

theorem scalar_roundtrip_byte (t : BdDataType) (w x : Nat) (tc : Bool)
    (hx : x < 2 ^ (8 * w))
    (hfrom : BufferDataType.fromValue (bdDataTypeVal t) =
      some (BufferDataType.noArray t)) :
    ∃ w2 r2, writeScalar t w (initWriter .ByteMode tc) x = .ok w2 ∧
      readScalar t w (initReader (flushWriter w2).out .ByteMode tc) = .ok (x, r2) := by
  cases tc
  · have hw2 : writeScalar t w (initWriter .ByteMode false) x =
        .ok { initWriter .ByteMode false with
          out := (initWriter .ByteMode false).out ++ leBytes w x } := by
      unfold writeScalar
      rw [if_neg (show ¬(initWriter StreamMode.ByteMode false).type_checked = true
        from by decide)]
      simp only [bindOk]
      rfl
    refine ⟨{ initWriter .ByteMode false with
        out := (initWriter .ByteMode false).out ++ leBytes w x },
      { initReader (leBytes w x) .ByteMode false with pos := 0 + w }, hw2, ?_⟩
    rw [show (flushWriter { initWriter .ByteMode false with
      out := (initWriter .ByteMode false).out ++ leBytes w x }).out =
        leBytes w x from rfl]
    have hck : readCheckType (initReader (leBytes w x) .ByteMode false) t =
        .ok (initReader (leBytes w x) .ByteMode false) := by
      unfold readCheckType
      rw [if_neg (show ¬(initReader (leBytes w x) StreamMode.ByteMode
        false).type_checked = true from fun h => Bool.noConfusion h)]
    have hcn : readCursorN (initReader (leBytes w x) .ByteMode false) w =
        .ok (leBytes w x, { initReader (leBytes w x) .ByteMode false with
          pos := 0 + w }) := by
      refine readCursorN_spec _ _ _ [] (Nat.zero_le _) ?_ (leBytes_length w x)
      rw [List.append_nil]
      rfl
    unfold readScalar
    rw [hck]
    simp only [bindOk]
    rw [if_pos (show (initReader (leBytes w x) StreamMode.ByteMode false).mode =
      StreamMode.ByteMode from rfl), hcn]
    dsimp only
    rw [fromLeBytes_leBytes w x hx]
  · have hw2 : writeScalar t w (initWriter .ByteMode true) x =
        .ok { initWriter .ByteMode true with
          out := ((initWriter .ByteMode true).out ++
            [(BufferDataType.noArray t).toValue]) ++ leBytes w x } := by
      unfold writeScalar
      rw [if_pos (show (initWriter StreamMode.ByteMode true).type_checked = true
        from rfl), writeDataType_byte_spec _ _ rfl]
      simp only [bindOk]
      rfl
    refine ⟨{ initWriter .ByteMode true with
        out := ((initWriter .ByteMode true).out ++
          [(BufferDataType.noArray t).toValue]) ++ leBytes w x },
      { initReader ((BufferDataType.noArray t).toValue :: leBytes w x)
        .ByteMode true with pos := 0 + 1 + w }, hw2, ?_⟩
    rw [show (flushWriter { initWriter .ByteMode true with
      out := ((initWriter .ByteMode true).out ++
        [(BufferDataType.noArray t).toValue]) ++ leBytes w x }).out =
        (BufferDataType.noArray t).toValue :: leBytes w x from rfl]
    have hrd : readDataType (initReader ((BufferDataType.noArray t).toValue ::
        leBytes w x) .ByteMode true) = .ok (BufferDataType.noArray t,
        { initReader ((BufferDataType.noArray t).toValue :: leBytes w x)
          .ByteMode true with pos := 0 + 1 }) := by
      refine readDataType_byte_spec _ _ _ (leBytes w x) rfl rfl rfl ?_
      rw [toValue_noArray]
      exact hfrom
    have hck : readCheckType (initReader ((BufferDataType.noArray t).toValue ::
        leBytes w x) .ByteMode true) t = .ok
        { initReader ((BufferDataType.noArray t).toValue :: leBytes w x)
          .ByteMode true with pos := 0 + 1 } := by
      unfold readCheckType
      rw [if_pos (show (initReader ((BufferDataType.noArray t).toValue ::
        leBytes w x) StreamMode.ByteMode true).type_checked = true from rfl), hrd]
      dsimp only
      rw [if_pos (show (BufferDataType.noArray t).eqNonArray t = true from
        eqNonArray_noArray t)]
    have hcn : readCursorN { initReader ((BufferDataType.noArray t).toValue ::
        leBytes w x) .ByteMode true with pos := 0 + 1 } w =
        .ok (leBytes w x, { initReader ((BufferDataType.noArray t).toValue ::
          leBytes w x) .ByteMode true with pos := 0 + 1 + w }) := by
      refine readCursorN_spec _ _ _ [] ?_ ?_ (leBytes_length w x)
      · show 0 + 1 ≤ ((BufferDataType.noArray t).toValue :: leBytes w x).length
        rw [List.length_cons, leBytes_length]
        omega
      · rw [List.append_nil]
        rfl
    unfold readScalar
    rw [hck]
    simp only [bindOk]
    rw [if_pos (show (initReader ((BufferDataType.noArray t).toValue ::
      leBytes w x) StreamMode.ByteMode true).mode =
      StreamMode.ByteMode from rfl), hcn]
    dsimp only
    rw [fromLeBytes_leBytes w x hx]

theorem boolList_eq (b : Bool) :
    (if b then [(0x01 : Nat)] else [0x00]) = [if b then 1 else 0] := by
  cases b <;> rfl

theorem natToBits_one_bool (b : Bool) :
    natToBits 1 (if b then 1 else 0) = [b] := by
  cases b <;> rfl

theorem bitsToNat_bool (b : Bool) :
    decide (0 < bitsToNat [b]) = b := by
  cases b <;> rfl

theorem bool_roundtrip_bit (b : Bool) (tc : Bool) :
    ∃ w2 r2, writeBool (initWriter .BitMode tc) b = .ok w2 ∧
      readBool (initReader (flushWriter w2).out .BitMode tc) = .ok (b, r2) := by
  have hvlt : (if b then (1 : Nat) else 0) < 256 := by cases b <;> norm_num
  cases tc
  · obtain ⟨s2, h2, hwf2, hbits2, hmode2, htc2⟩ :=
      writeBits_spec (initWriter .BitMode false) [if b then 1 else 0] 1
        rfl (writerWF_init _ _) (by intro y hy; simp at hy; omega) (by simp)
    have hw2 : writeBool (initWriter .BitMode false) b = .ok s2 := by
      unfold writeBool
      rw [if_neg (show ¬(initWriter StreamMode.BitMode false).type_checked = true
        from by decide)]
      simp only [bindOk]
      rw [if_neg (show ¬(initWriter StreamMode.BitMode false).mode =
        StreamMode.ByteMode from by decide), boolList_eq]
      exact h2
    have hbitsw2 : writerBits s2 = [b] := by
      rw [hbits2, writerBits_init, List.nil_append,
        show bytesToBits [if b then (1 : Nat) else 0] =
          natToBits 8 (if b then 1 else 0) ++ [] from rfl, List.append_nil,
        natToBits_take 1 8 _ (by omega), natToBits_one_bool]
    have hfdata : ∀ y ∈ (flushWriter s2).out, y < 256 := flushWriter_out_bytes s2 hwf2
    have hr0 : readerRem (initReader (flushWriter s2).out .BitMode false) =
        [b] ++ List.replicate (8 - s2.bit_offset) false := by
      rw [readerRem_init, flushWriter_bits s2 hwf2, hbitsw2]
    have hck : readCheckType (initReader (flushWriter s2).out .BitMode false)
        .BoolType = .ok (initReader (flushWriter s2).out .BitMode false) := by
      unfold readCheckType
      rw [if_neg (show ¬(initReader (flushWriter s2).out StreamMode.BitMode
        false).type_checked = true from fun h => Bool.noConfusion h)]
    obtain ⟨r2, hrb2, hwfr2, hremr2, hrest2⟩ := readBits_spec
      (initReader (flushWriter s2).out .BitMode false) 1 rfl
      (readerWF_init _ _ _ hfdata) (by rw [hr0]; simp)
    have htake1 : (readerRem (initReader (flushWriter s2).out .BitMode false)).take 1 =
        [b] := by
      rw [hr0, List.take_left' (by simp)]
    refine ⟨s2, r2, hw2, ?_⟩
    unfold readBool
    rw [hck]
    simp only [bindOk]
    rw [if_neg (show ¬(initReader (flushWriter s2).out StreamMode.BitMode
      false).mode = StreamMode.ByteMode from fun h => StreamMode.noConfusion h)]
    rw [hrb2, htake1, bitsToBytes_small _ (by simp) (by simp)]
    dsimp only
    rw [show ([bitsToNat [b]] : List Nat).getD 0 0 = bitsToNat [b] from rfl,
      bitsToNat_bool]
  · obtain ⟨s1, h1, hwf1, hbits1, hmode1, htc1⟩ :=
      writeDataType_bit_spec (initWriter .BitMode true)
        (BufferDataType.noArray .BoolType) rfl (writerWF_init _ _) (by decide)
    obtain ⟨s2, h2, hwf2, hbits2, hmode2, htc2⟩ := writeBits_spec s1
      [if b then 1 else 0] 1 (by rw [hmode1]; rfl) hwf1
      (by intro y hy; simp at hy; omega) (by simp)
    have hw2 : writeBool (initWriter .BitMode true) b = .ok s2 := by
      unfold writeBool
      rw [if_pos (show (initWriter StreamMode.BitMode true).type_checked = true
        from rfl), h1]
      simp only [bindOk]
      rw [if_neg (show ¬s1.mode = StreamMode.ByteMode from by
        rw [hmode1]; decide), boolList_eq]
      exact h2
    have hbitsw2 : writerBits s2 = natToBits 5 1 ++ [b] := by
      rw [hbits2, hbits1, writerBits_init, List.nil_append,
        show (BufferDataType.noArray BdDataType.BoolType).toValue = 1 from rfl,
        show bytesToBits [if b then (1 : Nat) else 0] =
          natToBits 8 (if b then 1 else 0) ++ [] from rfl, List.append_nil,
        natToBits_take 1 8 _ (by omega), natToBits_one_bool]
    have hfdata : ∀ y ∈ (flushWriter s2).out, y < 256 := flushWriter_out_bytes s2 hwf2
    have hr0 : readerRem (initReader (flushWriter s2).out .BitMode true) =
        (natToBits 5 1 ++ [b]) ++ List.replicate (8 - s2.bit_offset) false := by
      rw [readerRem_init, flushWriter_bits s2 hwf2, hbitsw2]
    have hr0len : 5 ≤ (readerRem (initReader (flushWriter s2).out .BitMode true)).length := by
      rw [hr0]
      simp [natToBits_length]
    have htake5 : (readerRem (initReader (flushWriter s2).out .BitMode true)).take 5 =
        natToBits 5 1 := by
      rw [hr0, List.append_assoc, List.take_left' (natToBits_length 5 _)]
    obtain ⟨r1, hrd, hwfr1, hremr1, hdr1, hmr1, htcr1, hcr1, hcdr1⟩ :=
      readDataType_bit_spec (initReader (flushWriter s2).out .BitMode true)
        (BufferDataType.noArray .BoolType) 1 rfl rfl
        (readerWF_init _ _ _ hfdata) hr0len htake5 (by norm_num) (by rfl)
    have hck : readCheckType (initReader (flushWriter s2).out .BitMode true)
        .BoolType = .ok r1 := by
      unfold readCheckType
      rw [if_pos (show (initReader (flushWriter s2).out StreamMode.BitMode
        true).type_checked = true from rfl), hrd]
      dsimp only
      rw [if_pos (show (BufferDataType.noArray BdDataType.BoolType).eqNonArray
        BdDataType.BoolType = true from eqNonArray_noArray _)]
    have hremr1' : readerRem r1 = [b] ++ List.replicate (8 - s2.bit_offset) false := by
      rw [hremr1, hr0, List.append_assoc, List.drop_left' (natToBits_length 5 _)]
    obtain ⟨r2, hrb2, hwfr2, hremr2, hrest2⟩ := readBits_spec r1 1
      (by rw [hmr1]; rfl) hwfr1 (by rw [hremr1']; simp)
    have htake1 : (readerRem r1).take 1 = [b] := by
      rw [hremr1', List.take_left' (by simp)]
    refine ⟨s2, r2, hw2, ?_⟩
    unfold readBool
    rw [hck]
    simp only [bindOk]
    rw [if_neg (show ¬r1.mode = StreamMode.ByteMode from by
      rw [hmr1]; exact fun h => StreamMode.noConfusion h)]
    rw [hrb2, htake1, bitsToBytes_small _ (by simp) (by simp)]
    dsimp only
    rw [show ([bitsToNat [b]] : List Nat).getD 0 0 = bitsToNat [b] from rfl,
      bitsToNat_bool]

theorem decide_pos_bool (b : Bool) :
    decide (0 < if b then (1 : Nat) else 0) = b := by
  cases b <;> rfl

theorem bool_roundtrip_byte (b : Bool) (tc : Bool) :
    ∃ w2 r2, writeBool (initWriter .ByteMode tc) b = .ok w2 ∧
      readBool (initReader (flushWriter w2).out .ByteMode tc) = .ok (b, r2) := by
  cases tc
  · have hw2 : writeBool (initWriter .ByteMode false) b =
        .ok { initWriter .ByteMode false with
          out := (initWriter .ByteMode false).out ++ [if b then 1 else 0] } := by
      unfold writeBool
      rw [if_neg (show ¬(initWriter StreamMode.ByteMode false).type_checked = true
        from by decide)]
      simp only [bindOk]
      rw [if_pos (show (initWriter StreamMode.ByteMode false).mode =
        StreamMode.ByteMode from rfl)]
    refine ⟨{ initWriter .ByteMode false with
        out := (initWriter .ByteMode false).out ++ [if b then 1 else 0] },
      { initReader [if b then 1 else 0] .ByteMode false with pos := 0 + 1 },
      hw2, ?_⟩
    rw [show (flushWriter { initWriter .ByteMode false with
      out := (initWriter .ByteMode false).out ++ [if b then 1 else 0] }).out =
        [if b then 1 else 0] from rfl]
    have hck : readCheckType (initReader [if b then 1 else 0] .ByteMode false)
        .BoolType = .ok (initReader [if b then 1 else 0] .ByteMode false) := by
      unfold readCheckType
      rw [if_neg (show ¬(initReader [if b then 1 else 0] StreamMode.ByteMode
        false).type_checked = true from fun h => Bool.noConfusion h)]
    have hcu : readCursorU8 (initReader [if b then 1 else 0] .ByteMode false) =
        .ok (if b then 1 else 0,
          { initReader [if b then 1 else 0] .ByteMode false with pos := 0 + 1 }) :=
      readCursorU8_spec _ _ [] rfl
    unfold readBool
    rw [hck]
    simp only [bindOk]
    rw [if_pos (show (initReader [if b then 1 else 0] StreamMode.ByteMode
      false).mode = StreamMode.ByteMode from rfl), hcu]
    dsimp only
    rw [decide_pos_bool]
  · have hw2 : writeBool (initWriter .ByteMode true) b =
        .ok { initWriter .ByteMode true with
          out := ((initWriter .ByteMode true).out ++
            [(BufferDataType.noArray .BoolType).toValue]) ++
              [if b then 1 else 0] } := by
      unfold writeBool
      rw [if_pos (show (initWriter StreamMode.ByteMode true).type_checked = true
        from rfl), writeDataType_byte_spec _ _ rfl]
      simp only [bindOk]
      rfl
    refine ⟨{ initWriter .ByteMode true with
        out := ((initWriter .ByteMode true).out ++
          [(BufferDataType.noArray .BoolType).toValue]) ++ [if b then 1 else 0] },
      { initReader ((BufferDataType.noArray .BoolType).toValue ::
        [if b then 1 else 0]) .ByteMode true with pos := 0 + 1 + 1 }, hw2, ?_⟩
    rw [show (flushWriter { initWriter .ByteMode true with
      out := ((initWriter .ByteMode true).out ++
        [(BufferDataType.noArray .BoolType).toValue]) ++
          [if b then 1 else 0] }).out =
        (BufferDataType.noArray .BoolType).toValue :: [if b then 1 else 0]
      from rfl]
    have hrd : readDataType (initReader ((BufferDataType.noArray .BoolType).toValue ::
        [if b then 1 else 0]) .ByteMode true) =
        .ok (BufferDataType.noArray .BoolType,
          { initReader ((BufferDataType.noArray .BoolType).toValue ::
            [if b then 1 else 0]) .ByteMode true with pos := 0 + 1 }) :=
      readDataType_byte_spec _ _ _ [if b then 1 else 0] rfl rfl rfl (by rfl)
    have hck : readCheckType (initReader ((BufferDataType.noArray .BoolType).toValue ::
        [if b then 1 else 0]) .ByteMode true) .BoolType =
        .ok { initReader ((BufferDataType.noArray .BoolType).toValue ::
          [if b then 1 else 0]) .ByteMode true with pos := 0 + 1 } := by
      unfold readCheckType
      rw [if_pos (show (initReader ((BufferDataType.noArray .BoolType).toValue ::
        [if b then 1 else 0]) StreamMode.ByteMode true).type_checked = true
        from rfl), hrd]
      dsimp only
      rw [if_pos (show (BufferDataType.noArray BdDataType.BoolType).eqNonArray
        BdDataType.BoolType = true from eqNonArray_noArray _)]
    have hcu : readCursorU8 { initReader ((BufferDataType.noArray .BoolType).toValue ::
        [if b then 1 else 0]) .ByteMode true with pos := 0 + 1 } =
        .ok (if b then 1 else 0,
          { initReader ((BufferDataType.noArray .BoolType).toValue ::
            [if b then 1 else 0]) .ByteMode true with pos := 0 + 1 + 1 }) :=
      readCursorU8_spec _ _ [] rfl
    unfold readBool
    rw [hck]
    simp only [bindOk]
    rw [if_pos (show (initReader ((BufferDataType.noArray .BoolType).toValue ::
      [if b then 1 else 0]) StreamMode.ByteMode true).mode = StreamMode.ByteMode
      from rfl), hcu]
    dsimp only
    rw [decide_pos_bool]

theorem readUntilZero_no_zero (bs : List Nat) (tail : List Nat)
    (hnz : ∀ y ∈ bs, y ≠ 0) :
    readUntilZero (bs ++ 0 :: tail) = bs ++ [0] := by
  induction bs with
  | nil => simp [readUntilZero]
  | cons x rest ih =>
    have hx : x ≠ 0 := hnz x (by simp)
    simp only [List.cons_append, readUntilZero]
    rw [if_neg hx]
    show x :: readUntilZero (rest ++ 0 :: tail) = x :: (rest ++ [0])
    rw [ih (fun y hy => hnz y (by simp [hy]))]

theorem readStrCore_spec (s : BdReaderState) (bs tail : List Nat)
    (hdrop : s.data.drop s.pos = bs ++ 0 :: tail)
    (hnz : ∀ y ∈ bs, y ≠ 0) (hutf : validUtf8 bs = true) :
    readStrCore s = .ok (bs, { s with pos := s.pos + (bs.length + 1) }) := by
  unfold readStrCore
  rw [hdrop, readUntilZero_no_zero bs tail hnz]
  dsimp only
  have hnotempty : ¬((bs ++ [0]).isEmpty = true) := by simp
  rw [if_neg hnotempty, List.dropLast_concat, if_pos hutf]
  simp [List.length_append]

theorem str_roundtrip_byte (bs : List Nat) (tc : Bool)
    (hnz : ∀ y ∈ bs, y ≠ 0) (hutf : validUtf8 bs = true) :
    ∃ w2 r2, writeStr (initWriter .ByteMode tc) bs = .ok w2 ∧
      readStr (initReader (flushWriter w2).out .ByteMode tc) = .ok (bs, r2) := by
  cases tc
  · have hw2 : writeStr (initWriter .ByteMode false) bs =
        .ok { initWriter .ByteMode false with
          out := (initWriter .ByteMode false).out ++ bs ++ [0] } := by
      unfold writeStr
      rw [if_neg (show ¬(initWriter StreamMode.ByteMode false).mode ≠
        StreamMode.ByteMode from fun h => h rfl)]
      rw [if_neg (show ¬(initWriter StreamMode.ByteMode false).type_checked = true
        from by decide)]
      simp only [bindOk]
    refine ⟨{ initWriter .ByteMode false with
        out := (initWriter .ByteMode false).out ++ bs ++ [0] },
      { initReader (bs ++ [0]) .ByteMode false with pos := 0 + (bs.length + 1) },
      hw2, ?_⟩
    rw [show (flushWriter { initWriter .ByteMode false with
      out := (initWriter .ByteMode false).out ++ bs ++ [0] }).out =
        bs ++ [0] from rfl]
    have hck : readCheckType (initReader (bs ++ [0]) .ByteMode false)
        .SignedChar8StringType = .ok (initReader (bs ++ [0]) .ByteMode false) := by
      unfold readCheckType
      rw [if_neg (show ¬(initReader (bs ++ [0]) StreamMode.ByteMode
        false).type_checked = true from fun h => Bool.noConfusion h)]
    have hcore : readStrCore (initReader (bs ++ [0]) .ByteMode false) =
        .ok (bs, { initReader (bs ++ [0]) .ByteMode false with
          pos := 0 + (bs.length + 1) }) :=
      readStrCore_spec _ bs [] rfl hnz hutf
    unfold readStr
    rw [if_neg (show ¬(initReader (bs ++ [0]) StreamMode.ByteMode false).mode ≠
      StreamMode.ByteMode from fun h => h rfl)]
    rw [hck]
    simp only [bindOk]
    rw [hcore]
  · have hw2 : writeStr (initWriter .ByteMode true) bs =
        .ok { initWriter .ByteMode true with
          out := ((initWriter .ByteMode true).out ++
            [(BufferDataType.noArray .SignedChar8StringType).toValue]) ++
              bs ++ [0] } := by
      unfold writeStr
      rw [if_neg (show ¬(initWriter StreamMode.ByteMode true).mode ≠
        StreamMode.ByteMode from fun h => h rfl)]
      rw [if_pos (show (initWriter StreamMode.ByteMode true).type_checked = true
        from rfl), writeDataType_byte_spec _ _ rfl]
      simp only [bindOk]
    refine ⟨{ initWriter .ByteMode true with
        out := ((initWriter .ByteMode true).out ++
          [(BufferDataType.noArray .SignedChar8StringType).toValue]) ++
            bs ++ [0] },
      { initReader ((BufferDataType.noArray .SignedChar8StringType).toValue ::
        (bs ++ [0])) .ByteMode true with pos := 0 + 1 + (bs.length + 1) },
      hw2, ?_⟩
    rw [show (flushWriter { initWriter .ByteMode true with
      out := ((initWriter .ByteMode true).out ++
        [(BufferDataType.noArray .SignedChar8StringType).toValue]) ++
          bs ++ [0] }).out =
        (BufferDataType.noArray .SignedChar8StringType).toValue ::
          (bs ++ [0]) from rfl]
    have hrd : readDataType (initReader
        ((BufferDataType.noArray .SignedChar8StringType).toValue ::
          (bs ++ [0])) .ByteMode true) =
        .ok (BufferDataType.noArray .SignedChar8StringType,
          { initReader ((BufferDataType.noArray .SignedChar8StringType).toValue ::
            (bs ++ [0])) .ByteMode true with pos := 0 + 1 }) :=
      readDataType_byte_spec _ _ _ (bs ++ [0]) rfl rfl rfl (by rfl)
    have hck : readCheckType (initReader
        ((BufferDataType.noArray .SignedChar8StringType).toValue ::
          (bs ++ [0])) .ByteMode true) .SignedChar8StringType =
        .ok { initReader ((BufferDataType.noArray .SignedChar8StringType).toValue ::
          (bs ++ [0])) .ByteMode true with pos := 0 + 1 } := by
      unfold readCheckType
      rw [if_pos (show (initReader
        ((BufferDataType.noArray .SignedChar8StringType).toValue ::
          (bs ++ [0])) StreamMode.ByteMode true).type_checked = true from rfl), hrd]
      dsimp only
      rw [if_pos (show (BufferDataType.noArray
        BdDataType.SignedChar8StringType).eqNonArray
        BdDataType.SignedChar8StringType = true from eqNonArray_noArray _)]
    have hcore : readStrCore { initReader
        ((BufferDataType.noArray .SignedChar8StringType).toValue ::
          (bs ++ [0])) .ByteMode true with pos := 0 + 1 } =
        .ok (bs, { initReader
          ((BufferDataType.noArray .SignedChar8StringType).toValue ::
            (bs ++ [0])) .ByteMode true with pos := 0 + 1 + (bs.length + 1) }) := by
      exact readStrCore_spec _ bs [] rfl hnz hutf
    unfold readStr
    rw [if_neg (show ¬(initReader
      ((BufferDataType.noArray .SignedChar8StringType).toValue ::
        (bs ++ [0])) StreamMode.ByteMode true).mode ≠
      StreamMode.ByteMode from fun h => h rfl)]
    rw [hck]
    simp only [bindOk]
    rw [hcore]

theorem readScalar_byte_ntc (t : BdDataType) (w x : Nat) (s : BdReaderState)
    (tail : List Nat) (hmode : s.mode = StreamMode.ByteMode)
    (htc : s.type_checked = false) (hx : x < 2 ^ (8 * w))
    (hpos : s.pos ≤ s.data.length)
    (hdrop : s.data.drop s.pos = leBytes w x ++ tail) :
    readScalar t w s = .ok (x, { s with pos := s.pos + w }) := by
  unfold readScalar
  have hck : readCheckType s t = .ok s := by
    unfold readCheckType
    rw [if_neg (show ¬s.type_checked = true from by
      rw [htc]; exact fun h => Bool.noConfusion h)]
  rw [hck]
  simp only [bindOk]
  rw [if_pos hmode, readCursorN_spec s w (leBytes w x) tail hpos hdrop
    (leBytes_length w x)]
  dsimp only
  rw [fromLeBytes_leBytes w x hx]

theorem readScalar_byte_tc (t : BdDataType) (w x : Nat) (s : BdReaderState)
    (tail : List Nat) (hmode : s.mode = StreamMode.ByteMode)
    (htc : s.type_checked = true) (hcache : s.has_data_type_cached = false)
    (hx : x < 2 ^ (8 * w))
    (hdrop : s.data.drop s.pos =
      (BufferDataType.noArray t).toValue :: (leBytes w x ++ tail))
    (hfrom : BufferDataType.fromValue (bdDataTypeVal t) =
      some (BufferDataType.noArray t)) :
    readScalar t w s = .ok (x, { s with pos := s.pos + 1 + w }) := by
  have hrd := readDataType_byte_spec s (BufferDataType.noArray t) _
    (leBytes w x ++ tail) hmode hcache hdrop
    (by rw [toValue_noArray]; exact hfrom)
  have hck : readCheckType s t = .ok { s with pos := s.pos + 1 } := by
    unfold readCheckType
    rw [if_pos htc, hrd]
    dsimp only
    rw [if_pos (show (BufferDataType.noArray t).eqNonArray t = true from
      eqNonArray_noArray t)]
  have hposlt : s.pos < s.data.length := by
    have h := congrArg List.length hdrop
    rw [List.length_drop] at h
    simp [List.length_append] at h
    omega
  have hdrop1 : s.data.drop (s.pos + 1) = leBytes w x ++ tail := by
    have h := congrArg (List.drop 1) hdrop
    rw [List.drop_drop] at h
    simpa using h
  have hcn : readCursorN { s with pos := s.pos + 1 } w =
      .ok (leBytes w x, { s with pos := s.pos + 1 + w }) :=
    readCursorN_spec _ w (leBytes w x) tail (by dsimp only; omega)
      hdrop1 (leBytes_length w x)
  unfold readScalar
  rw [hck]
  simp only [bindOk]
  rw [if_pos hmode, hcn]
  dsimp only
  rw [fromLeBytes_leBytes w x hx]

theorem blob_roundtrip_byte (bs : List Nat) (tc : Bool)
    (hblen : bs.length < 2 ^ 32) :
    ∃ w2 r2, writeBlob (initWriter .ByteMode tc) bs = .ok w2 ∧
      readBlob (initReader (flushWriter w2).out .ByteMode tc) = .ok (bs, r2) := by
  have hmod : bs.length % 2 ^ 32 = bs.length := Nat.mod_eq_of_lt hblen
  have hxlt : bs.length % 2 ^ 32 < 2 ^ (8 * 4) :=
    Nat.mod_lt _ (Nat.pos_pow_of_pos _ (by norm_num))
  cases tc
  · have hw2 : writeBlob (initWriter .ByteMode false) bs =
        .ok { initWriter .ByteMode false with
          out := ((initWriter .ByteMode false).out ++
            leBytes 4 (bs.length % 2 ^ 32)) ++ bs } := rfl
    refine ⟨_, { initReader (leBytes 4 (bs.length % 2 ^ 32) ++ bs)
      .ByteMode false with pos := 0 + 4 + (bs.length % 2 ^ 32) }, hw2, ?_⟩
    rw [show (flushWriter { initWriter .ByteMode false with
      out := ((initWriter .ByteMode false).out ++
        leBytes 4 (bs.length % 2 ^ 32)) ++ bs }).out =
        leBytes 4 (bs.length % 2 ^ 32) ++ bs from rfl]
    have hru32 : readU32 (initReader (leBytes 4 (bs.length % 2 ^ 32) ++ bs)
        .ByteMode false) = .ok (bs.length % 2 ^ 32,
        { initReader (leBytes 4 (bs.length % 2 ^ 32) ++ bs) .ByteMode false with
          pos := 0 + 4 }) :=
      readScalar_byte_ntc _ 4 _ _ bs rfl rfl hxlt (Nat.zero_le _) rfl
    have hcn : readCursorN { initReader (leBytes 4 (bs.length % 2 ^ 32) ++ bs)
        .ByteMode false with pos := 0 + 4 } (bs.length % 2 ^ 32) =
        .ok (bs, { initReader (leBytes 4 (bs.length % 2 ^ 32) ++ bs)
          .ByteMode false with pos := 0 + 4 + (bs.length % 2 ^ 32) }) := by
      rw [hmod]
      refine readCursorN_spec _ _ bs [] ?_ ?_ rfl
      · show 0 + 4 ≤ (leBytes 4 (bs.length % 2 ^ 32) ++ bs).length
        rw [List.length_append, leBytes_length]
        omega
      · rw [List.append_nil]
        show (leBytes 4 (bs.length % 2 ^ 32) ++ bs).drop (0 + 4) = bs
        exact List.drop_left' (leBytes_length _ _)
    have hck : readCheckType (initReader (leBytes 4 (bs.length % 2 ^ 32) ++ bs)
        .ByteMode false) .BlobType =
        .ok (initReader (leBytes 4 (bs.length % 2 ^ 32) ++ bs) .ByteMode false) := by
      unfold readCheckType
      rw [if_neg (show ¬(initReader (leBytes 4 (bs.length % 2 ^ 32) ++ bs)
        StreamMode.ByteMode false).type_checked = true from
        fun h => Bool.noConfusion h)]
    unfold readBlob
    rw [if_neg (show ¬(initReader (leBytes 4 (bs.length % 2 ^ 32) ++ bs)
      StreamMode.ByteMode false).mode ≠ StreamMode.ByteMode from fun h => h rfl)]
    rw [hck]
    simp only [bindOk]
    rw [hru32]
    simp only [bindOk]
    rw [hcn]
  · have hw2 : writeBlob (initWriter .ByteMode true) bs =
        .ok { initWriter .ByteMode true with
          out := ((((initWriter .ByteMode true).out ++
            [(BufferDataType.noArray .BlobType).toValue]) ++
            [(BufferDataType.noArray .UnsignedInteger32Type).toValue]) ++
            leBytes 4 (bs.length % 2 ^ 32)) ++ bs } := rfl
    refine ⟨_, { initReader ((BufferDataType.noArray .BlobType).toValue ::
      ((BufferDataType.noArray .UnsignedInteger32Type).toValue ::
        (leBytes 4 (bs.length % 2 ^ 32) ++ bs))) .ByteMode true with
      pos := 0 + 1 + 1 + 4 + (bs.length % 2 ^ 32) }, hw2, ?_⟩
    rw [show (flushWriter { initWriter .ByteMode true with
      out := ((((initWriter .ByteMode true).out ++
        [(BufferDataType.noArray .BlobType).toValue]) ++
        [(BufferDataType.noArray .UnsignedInteger32Type).toValue]) ++
        leBytes 4 (bs.length % 2 ^ 32)) ++ bs }).out =
        (BufferDataType.noArray .BlobType).toValue ::
          ((BufferDataType.noArray .UnsignedInteger32Type).toValue ::
            (leBytes 4 (bs.length % 2 ^ 32) ++ bs)) from rfl]
    have hrd : readDataType (initReader ((BufferDataType.noArray .BlobType).toValue ::
        ((BufferDataType.noArray .UnsignedInteger32Type).toValue ::
          (leBytes 4 (bs.length % 2 ^ 32) ++ bs))) .ByteMode true) =
        .ok (BufferDataType.noArray .BlobType,
          { initReader ((BufferDataType.noArray .BlobType).toValue ::
            ((BufferDataType.noArray .UnsignedInteger32Type).toValue ::
              (leBytes 4 (bs.length % 2 ^ 32) ++ bs))) .ByteMode true with
            pos := 0 + 1 }) :=
      readDataType_byte_spec _ _ _ _ rfl rfl rfl (by rfl)
    have hck : readCheckType (initReader ((BufferDataType.noArray .BlobType).toValue ::
        ((BufferDataType.noArray .UnsignedInteger32Type).toValue ::
          (leBytes 4 (bs.length % 2 ^ 32) ++ bs))) .ByteMode true) .BlobType =
        .ok { initReader ((BufferDataType.noArray .BlobType).toValue ::
          ((BufferDataType.noArray .UnsignedInteger32Type).toValue ::
            (leBytes 4 (bs.length % 2 ^ 32) ++ bs))) .ByteMode true with
          pos := 0 + 1 } := by
      unfold readCheckType
      rw [if_pos (show (initReader ((BufferDataType.noArray .BlobType).toValue ::
        ((BufferDataType.noArray .UnsignedInteger32Type).toValue ::
          (leBytes 4 (bs.length % 2 ^ 32) ++ bs))) StreamMode.ByteMode
        true).type_checked = true from rfl), hrd]
      dsimp only
      rw [if_pos (show (BufferDataType.noArray BdDataType.BlobType).eqNonArray
        BdDataType.BlobType = true from eqNonArray_noArray _)]
    have hru32 : readU32 { initReader ((BufferDataType.noArray .BlobType).toValue ::
        ((BufferDataType.noArray .UnsignedInteger32Type).toValue ::
          (leBytes 4 (bs.length % 2 ^ 32) ++ bs))) .ByteMode true with
        pos := 0 + 1 } = .ok (bs.length % 2 ^ 32,
        { initReader ((BufferDataType.noArray .BlobType).toValue ::
          ((BufferDataType.noArray .UnsignedInteger32Type).toValue ::
            (leBytes 4 (bs.length % 2 ^ 32) ++ bs))) .ByteMode true with
          pos := 0 + 1 + 1 + 4 }) :=
      readScalar_byte_tc _ 4 _ _ bs rfl rfl rfl hxlt rfl (by rfl)
    have hcn : readCursorN { initReader ((BufferDataType.noArray .BlobType).toValue ::
        ((BufferDataType.noArray .UnsignedInteger32Type).toValue ::
          (leBytes 4 (bs.length % 2 ^ 32) ++ bs))) .ByteMode true with
        pos := 0 + 1 + 1 + 4 } (bs.length % 2 ^ 32) =
        .ok (bs, { initReader ((BufferDataType.noArray .BlobType).toValue ::
          ((BufferDataType.noArray .UnsignedInteger32Type).toValue ::
            (leBytes 4 (bs.length % 2 ^ 32) ++ bs))) .ByteMode true with
          pos := 0 + 1 + 1 + 4 + (bs.length % 2 ^ 32) }) := by
      rw [hmod]
      refine readCursorN_spec _ _ bs [] ?_ ?_ rfl
      · show 0 + 1 + 1 + 4 ≤ ((BufferDataType.noArray .BlobType).toValue ::
          ((BufferDataType.noArray .UnsignedInteger32Type).toValue ::
            (leBytes 4 (bs.length % 2 ^ 32) ++ bs))).length
        simp [leBytes_length]
      · rw [List.append_nil]
        show (((BufferDataType.noArray .BlobType).toValue ::
          ((BufferDataType.noArray .UnsignedInteger32Type).toValue ::
            (leBytes 4 (bs.length % 2 ^ 32) ++ bs)))).drop (0 + 1 + 1 + 4) = bs
        rw [show (0 + 1 + 1 + 4 : Nat) = 2 + 4 from rfl,
          show ((BufferDataType.noArray .BlobType).toValue ::
            ((BufferDataType.noArray .UnsignedInteger32Type).toValue ::
              (leBytes 4 (bs.length % 2 ^ 32) ++ bs))).drop (2 + 4) =
            (leBytes 4 (bs.length % 2 ^ 32) ++ bs).drop 4 from rfl]
        exact List.drop_left' (leBytes_length _ _)
    unfold readBlob
    rw [if_neg (show ¬(initReader ((BufferDataType.noArray .BlobType).toValue ::
      ((BufferDataType.noArray .UnsignedInteger32Type).toValue ::
        (leBytes 4 (bs.length % 2 ^ 32) ++ bs))) StreamMode.ByteMode true).mode ≠
      StreamMode.ByteMode from fun h => h rfl)]
    rw [hck]
    simp only [bindOk]
    rw [hru32]
    simp only [bindOk]
    rw [hcn]

theorem readArrayNumElements_spec (s : BdReaderState) (n : Nat) (tail : List Nat)
    (hmode : s.mode = StreamMode.ByteMode)
    (hcache : s.has_data_type_cached = false)
    (hn : n < 2 ^ 32)
    (hdrop : s.data.drop s.pos =
      (BufferDataType.noArray .UnsignedInteger32Type).toValue ::
        (leBytes 4 0 ++ (leBytes 4 n ++ tail))) :
    readArrayNumElements s = .ok (n, { s with pos := s.pos + 1 + 4 + 4 }) := by
  have hrd := readDataType_byte_spec s
    (BufferDataType.noArray .UnsignedInteger32Type) _
    (leBytes 4 0 ++ (leBytes 4 n ++ tail)) hmode hcache hdrop (by rfl)
  have hdrop1 : s.data.drop (s.pos + 1) = leBytes 4 0 ++ (leBytes 4 n ++ tail) := by
    have h := congrArg (List.drop 1) hdrop
    rw [List.drop_drop] at h
    simpa using h
  have hposlt : s.pos < s.data.length := by
    have h := congrArg List.length hdrop
    rw [List.length_drop] at h
    simp [List.length_append] at h
    omega
  have hcn1 : readCursorN { s with pos := s.pos + 1 } 4 =
      .ok (leBytes 4 0, { s with pos := s.pos + 1 + 4 }) :=
    readCursorN_spec _ 4 (leBytes 4 0) (leBytes 4 n ++ tail)
      (by dsimp only; omega) hdrop1 (leBytes_length 4 0)
  have hdrop2 : s.data.drop (s.pos + 1 + 4) = leBytes 4 n ++ tail := by
    have h := congrArg (List.drop 4) hdrop1
    rw [List.drop_drop] at h
    rw [h, List.drop_left' (leBytes_length 4 0)]
  have hlen1 : s.pos + 1 ≤ s.data.length := by omega
  have hcn2 : readCursorN { s with pos := s.pos + 1 + 4 } 4 =
      .ok (leBytes 4 n, { s with pos := s.pos + 1 + 4 + 4 }) := by
    refine readCursorN_spec _ 4 (leBytes 4 n) tail ?_ hdrop2 (leBytes_length 4 n)
    have h := congrArg List.length hdrop2
    rw [List.length_drop] at h
    dsimp only
    simp [List.length_append, leBytes_length] at h
    omega
  unfold readArrayNumElements
  rw [hrd]
  simp only [bindOk]
  rw [if_neg (show ¬(!(BufferDataType.noArray
    BdDataType.UnsignedInteger32Type).eqNonArray
    BdDataType.UnsignedInteger32Type) = true from by
      rw [eqNonArray_noArray]; decide)]
  rw [hcn1]
  simp only [bindOk]
  rw [hcn2]
  simp only [bindOk]
  rw [fromLeBytes_leBytes 4 n (by norm_num; omega)]

theorem readScalarElems_spec (w : Nat) (xs : List Nat) :
    ∀ (s : BdReaderState) (acc : List Nat) (tail : List Nat),
    s.pos ≤ s.data.length →
    (∀ x ∈ xs, x < 2 ^ (8 * w)) →
    s.data.drop s.pos = (xs.map (leBytes w)).flatten ++ tail →
    readScalarElems w xs.length s acc =
      .ok (acc.reverse ++ xs, { s with pos := s.pos + w * xs.length }) := by
  induction xs with
  | nil =>
    intro s acc tail hpos hx hdrop
    show Except.ok (acc.reverse, s) = _
    simp
  | cons x rest ih =>
    intro s acc tail hpos hx hdrop
    simp only [List.map_cons, List.flatten_cons] at hdrop
    rw [List.append_assoc] at hdrop
    have hcn : readCursorN s w = .ok (leBytes w x, { s with pos := s.pos + w }) :=
      readCursorN_spec s w (leBytes w x) _ hpos hdrop (leBytes_length w x)
    have hdrop1 : s.data.drop (s.pos + w) =
        (rest.map (leBytes w)).flatten ++ tail := by
      have h := congrArg (List.drop w) hdrop
      rw [List.drop_drop] at h
      rw [h, List.drop_left' (leBytes_length w x)]
    have hpos1 : s.pos + w ≤ s.data.length := by
      have h := congrArg List.length hdrop
      rw [List.length_drop] at h
      simp [List.length_append, leBytes_length] at h
      omega
    rw [show (x :: rest).length = rest.length + 1 from rfl, readScalarElems,
      hcn]
    dsimp only
    rw [fromLeBytes_leBytes w x (hx x (by simp))]
    rw [ih { s with pos := s.pos + w } (x :: acc) tail hpos1
      (fun y hy => hx y (by simp [hy])) hdrop1]
    simp [List.reverse_cons, List.append_assoc, Nat.mul_succ]
    omega

theorem scalarArray_roundtrip_byte (t : BdDataType) (w : Nat) (xs : List Nat)
    (tc : Bool) (hx : ∀ x ∈ xs, x < 2 ^ (8 * w)) (hlen : xs.length < 2 ^ 32)
    (hfromA : BufferDataType.fromValue (bdDataTypeVal t + arrayTypeOffset) =
      some (BufferDataType.array t)) :
    ∃ w2 r2, writeScalarArray t w (initWriter .ByteMode tc) xs = .ok w2 ∧
      readScalarArray t w (initReader (flushWriter w2).out .ByteMode tc) =
        .ok (xs, r2) := by
  have hmod : xs.length % 2 ^ 32 = xs.length := Nat.mod_eq_of_lt hlen
  have hw2 : writeScalarArray t w (initWriter .ByteMode tc) xs =
      .ok { initWriter .ByteMode tc with
        out := (((((initWriter .ByteMode tc).out ++
          [(BufferDataType.array t).toValue]) ++
          [(BufferDataType.noArray .UnsignedInteger32Type).toValue]) ++
          leBytes 4 0) ++ leBytes 4 (xs.length % 2 ^ 32)) ++
          (xs.map (leBytes w)).flatten } := rfl
  refine ⟨_, { initReader ((BufferDataType.array t).toValue ::
      ((BufferDataType.noArray .UnsignedInteger32Type).toValue ::
        (leBytes 4 0 ++ (leBytes 4 (xs.length % 2 ^ 32) ++
          (xs.map (leBytes w)).flatten)))) .ByteMode tc with
      pos := 0 + 1 + 1 + 4 + 4 + w * xs.length }, hw2, ?_⟩
  rw [show (flushWriter { initWriter .ByteMode tc with
    out := (((((initWriter .ByteMode tc).out ++
      [(BufferDataType.array t).toValue]) ++
      [(BufferDataType.noArray .UnsignedInteger32Type).toValue]) ++
      leBytes 4 0) ++ leBytes 4 (xs.length % 2 ^ 32)) ++
      (xs.map (leBytes w)).flatten }).out =
    (BufferDataType.array t).toValue ::
      ((BufferDataType.noArray .UnsignedInteger32Type).toValue ::
        (leBytes 4 0 ++ (leBytes 4 (xs.length % 2 ^ 32) ++
          (xs.map (leBytes w)).flatten))) from rfl]
  have hrd : readDataType (initReader ((BufferDataType.array t).toValue ::
      ((BufferDataType.noArray .UnsignedInteger32Type).toValue ::
        (leBytes 4 0 ++ (leBytes 4 (xs.length % 2 ^ 32) ++
          (xs.map (leBytes w)).flatten)))) .ByteMode tc) =
      .ok (BufferDataType.array t,
        { initReader ((BufferDataType.array t).toValue ::
          ((BufferDataType.noArray .UnsignedInteger32Type).toValue ::
            (leBytes 4 0 ++ (leBytes 4 (xs.length % 2 ^ 32) ++
              (xs.map (leBytes w)).flatten)))) .ByteMode tc with
          pos := 0 + 1 }) := by
    refine readDataType_byte_spec _ _ _ _ rfl rfl rfl ?_
    rw [toValue_array]
    exact hfromA
  have hnum : readArrayNumElements { initReader ((BufferDataType.array t).toValue ::
      ((BufferDataType.noArray .UnsignedInteger32Type).toValue ::
        (leBytes 4 0 ++ (leBytes 4 (xs.length % 2 ^ 32) ++
          (xs.map (leBytes w)).flatten)))) .ByteMode tc with pos := 0 + 1 } =
      .ok (xs.length % 2 ^ 32,
        { initReader ((BufferDataType.array t).toValue ::
          ((BufferDataType.noArray .UnsignedInteger32Type).toValue ::
            (leBytes 4 0 ++ (leBytes 4 (xs.length % 2 ^ 32) ++
              (xs.map (leBytes w)).flatten)))) .ByteMode tc with
          pos := 0 + 1 + 1 + 4 + 4 }) :=
    readArrayNumElements_spec _ _ _ rfl rfl
      (Nat.mod_lt _ (Nat.pos_pow_of_pos _ (by norm_num))) rfl
  have helems := readScalarElems_spec w xs
    { initReader ((BufferDataType.array t).toValue ::
      ((BufferDataType.noArray .UnsignedInteger32Type).toValue ::
        (leBytes 4 0 ++ (leBytes 4 (xs.length % 2 ^ 32) ++
          (xs.map (leBytes w)).flatten)))) .ByteMode tc with
      pos := 0 + 1 + 1 + 4 + 4 } [] []
    (by
      show 0 + 1 + 1 + 4 + 4 ≤ ((BufferDataType.array t).toValue ::
        ((BufferDataType.noArray .UnsignedInteger32Type).toValue ::
          (leBytes 4 0 ++ (leBytes 4 (xs.length % 2 ^ 32) ++
            (xs.map (leBytes w)).flatten)))).length
      simp [List.length_append, leBytes_length]
      omega)
    hx
    (by rw [List.append_nil]; rfl)
  rw [List.reverse_nil, List.nil_append] at helems
  unfold readScalarArray
  rw [if_neg (show ¬(initReader ((BufferDataType.array t).toValue ::
    ((BufferDataType.noArray .UnsignedInteger32Type).toValue ::
      (leBytes 4 0 ++ (leBytes 4 (xs.length % 2 ^ 32) ++
        (xs.map (leBytes w)).flatten)))) StreamMode.ByteMode tc).mode ≠
    StreamMode.ByteMode from fun h => h rfl)]
  rw [hrd]
  simp only [bindOk]
  rw [if_neg (show ¬(!(BufferDataType.array t).eqArray t) = true from by
    rw [eqArray_array]; decide)]
  rw [hnum]
  simp only [bindOk]
  rw [hmod] at helems ⊢
  rw [helems]

theorem readStrElems_spec (xs : List (List Nat)) :
    ∀ (s : BdReaderState) (acc : List (List Nat)) (tail : List Nat),
    (∀ bs ∈ xs, (∀ y ∈ bs, y ≠ 0) ∧ validUtf8 bs = true) →
    s.data.drop s.pos = (xs.map (fun b => b ++ [0])).flatten ++ tail →
    readStrElems xs.length s acc =
      .ok (acc.reverse ++ xs, { s with
        pos := s.pos + ((xs.map (fun b => b ++ [0])).flatten).length }) := by
  induction xs with
  | nil =>
    intro s acc tail hv hdrop
    show Except.ok (acc.reverse, s) = _
    simp
  | cons x rest ih =>
    intro s acc tail hv hdrop
    simp only [List.map_cons, List.flatten_cons] at hdrop
    rw [List.append_assoc] at hdrop
    have hdropCore : s.data.drop s.pos =
        x ++ 0 :: ((rest.map (fun b => b ++ [0])).flatten ++ tail) := by
      rw [hdrop, List.append_assoc]
      rfl
    have hcore := readStrCore_spec s x _ hdropCore (hv x (by simp)).1
      (hv x (by simp)).2
    have hdrop1 : s.data.drop (s.pos + (x.length + 1)) =
        (rest.map (fun b => b ++ [0])).flatten ++ tail := by
      have h := congrArg (List.drop (x.length + 1)) hdrop
      rw [List.drop_drop] at h
      rw [h, List.drop_left' (by simp)]
    rw [show (x :: rest).length = rest.length + 1 from rfl, readStrElems, hcore]
    dsimp only
    rw [ih { s with pos := s.pos + (x.length + 1) } (x :: acc) tail
      (fun y hy => hv y (by simp [hy])) hdrop1]
    simp [List.reverse_cons, List.append_assoc, List.length_append]
    omega

theorem strArray_roundtrip_byte (xs : List (List Nat)) (tc : Bool)
    (hv : ∀ bs ∈ xs, (∀ y ∈ bs, y ≠ 0) ∧ validUtf8 bs = true)
    (hlen : xs.length < 2 ^ 32) :
    ∃ w2 r2, writeStrArray (initWriter .ByteMode tc) xs = .ok w2 ∧
      readStrArray (initReader (flushWriter w2).out .ByteMode tc) =
        .ok (xs, r2) := by
  have hmod : xs.length % 2 ^ 32 = xs.length := Nat.mod_eq_of_lt hlen
  have hw2 : writeStrArray (initWriter .ByteMode tc) xs =
      .ok { initWriter .ByteMode tc with
        out := (((((initWriter .ByteMode tc).out ++
          [(BufferDataType.array .SignedChar8StringType).toValue]) ++
          [(BufferDataType.noArray .UnsignedInteger32Type).toValue]) ++
          leBytes 4 0) ++ leBytes 4 (xs.length % 2 ^ 32)) ++
          (xs.map (fun b => b ++ [0])).flatten } := rfl
  refine ⟨_, { initReader ((BufferDataType.array .SignedChar8StringType).toValue ::
      ((BufferDataType.noArray .UnsignedInteger32Type).toValue ::
        (leBytes 4 0 ++ (leBytes 4 (xs.length % 2 ^ 32) ++
          (xs.map (fun b => b ++ [0])).flatten)))) .ByteMode tc with
      pos := 0 + 1 + 1 + 4 + 4 +
        ((xs.map (fun b => b ++ [0])).flatten).length }, hw2, ?_⟩
  rw [show (flushWriter { initWriter .ByteMode tc with
    out := (((((initWriter .ByteMode tc).out ++
      [(BufferDataType.array .SignedChar8StringType).toValue]) ++
      [(BufferDataType.noArray .UnsignedInteger32Type).toValue]) ++
      leBytes 4 0) ++ leBytes 4 (xs.length % 2 ^ 32)) ++
      (xs.map (fun b => b ++ [0])).flatten }).out =
    (BufferDataType.array .SignedChar8StringType).toValue ::
      ((BufferDataType.noArray .UnsignedInteger32Type).toValue ::
        (leBytes 4 0 ++ (leBytes 4 (xs.length % 2 ^ 32) ++
          (xs.map (fun b => b ++ [0])).flatten))) from rfl]
  have hrd : readDataType (initReader
      ((BufferDataType.array .SignedChar8StringType).toValue ::
      ((BufferDataType.noArray .UnsignedInteger32Type).toValue ::
        (leBytes 4 0 ++ (leBytes 4 (xs.length % 2 ^ 32) ++
          (xs.map (fun b => b ++ [0])).flatten)))) .ByteMode tc) =
      .ok (BufferDataType.array .SignedChar8StringType,
        { initReader ((BufferDataType.array .SignedChar8StringType).toValue ::
          ((BufferDataType.noArray .UnsignedInteger32Type).toValue ::
            (leBytes 4 0 ++ (leBytes 4 (xs.length % 2 ^ 32) ++
              (xs.map (fun b => b ++ [0])).flatten)))) .ByteMode tc with
          pos := 0 + 1 }) :=
    readDataType_byte_spec _ _ _ _ rfl rfl rfl (by rfl)
  have hnum : readArrayNumElements { initReader
      ((BufferDataType.array .SignedChar8StringType).toValue ::
      ((BufferDataType.noArray .UnsignedInteger32Type).toValue ::
        (leBytes 4 0 ++ (leBytes 4 (xs.length % 2 ^ 32) ++
          (xs.map (fun b => b ++ [0])).flatten)))) .ByteMode tc with
      pos := 0 + 1 } =
      .ok (xs.length % 2 ^ 32,
        { initReader ((BufferDataType.array .SignedChar8StringType).toValue ::
          ((BufferDataType.noArray .UnsignedInteger32Type).toValue ::
            (leBytes 4 0 ++ (leBytes 4 (xs.length % 2 ^ 32) ++
              (xs.map (fun b => b ++ [0])).flatten)))) .ByteMode tc with
          pos := 0 + 1 + 1 + 4 + 4 }) :=
    readArrayNumElements_spec _ _ _ rfl rfl
      (Nat.mod_lt _ (Nat.pos_pow_of_pos _ (by norm_num))) rfl
  have helems := readStrElems_spec xs
    { initReader ((BufferDataType.array .SignedChar8StringType).toValue ::
      ((BufferDataType.noArray .UnsignedInteger32Type).toValue ::
        (leBytes 4 0 ++ (leBytes 4 (xs.length % 2 ^ 32) ++
          (xs.map (fun b => b ++ [0])).flatten)))) .ByteMode tc with
      pos := 0 + 1 + 1 + 4 + 4 } [] [] hv
    (by rw [List.append_nil]; rfl)
  rw [List.reverse_nil, List.nil_append] at helems
  unfold readStrArray
  rw [if_neg (show ¬(initReader
    ((BufferDataType.array .SignedChar8StringType).toValue ::
    ((BufferDataType.noArray .UnsignedInteger32Type).toValue ::
      (leBytes 4 0 ++ (leBytes 4 (xs.length % 2 ^ 32) ++
        (xs.map (fun b => b ++ [0])).flatten)))) StreamMode.ByteMode tc).mode ≠
    StreamMode.ByteMode from fun h => h rfl)]
  rw [hrd]
  simp only [bindOk]
  rw [if_neg (show ¬(!(BufferDataType.array
    BdDataType.SignedChar8StringType).eqArray
    BdDataType.SignedChar8StringType) = true from by
      rw [eqArray_array]; decide)]
  rw [hnum]
  simp only [bindOk]
  rw [hmod] at helems ⊢
  rw [helems]

/-- The integer element kinds: exactly those `T` for which the codec
offers `write_T`/`read_T` and `write_T_array`/`read_T_array`. -/
inductive BdIntKind where
  | i8
  | u8
  | i16
  | u16
  | i32
  | u32
  | i64
  | u64
deriving DecidableEq

def BdIntKind.width : BdIntKind → Nat
  | .i8 => 1
  | .u8 => 1
  | .i16 => 2
  | .u16 => 2
  | .i32 => 4
  | .u32 => 4
  | .i64 => 8
  | .u64 => 8

def BdIntKind.dtype : BdIntKind → BdDataType
  | .i8 => .SignedChar8Type
  | .u8 => .UnsignedChar8Type
  | .i16 => .SignedInteger16Type
  | .u16 => .UnsignedInteger16Type
  | .i32 => .SignedInteger32Type
  | .u32 => .UnsignedInteger32Type
  | .i64 => .SignedInteger64Type
  | .u64 => .UnsignedInteger64Type

/-- The scalar kinds: the integers plus the two floats (floats are
carried as their `to_le_bytes`/`from_le_bytes` bit patterns). -/
inductive BdNumKind where
  | int (k : BdIntKind)
  | f32
  | f64
deriving DecidableEq

def BdNumKind.width : BdNumKind → Nat
  | .int k => k.width
  | .f32 => 4
  | .f64 => 8

def BdNumKind.dtype : BdNumKind → BdDataType
  | .int k => k.dtype
  | .f32 => .Float32Type
  | .f64 => .Float64Type

/-- A supported primitive value of the codec: bool, the ten scalars,
strings, blobs, the eight integer arrays, and string arrays. -/
inductive BdVal where
  | vBool (b : Bool)
  | vNum (k : BdNumKind) (x : Nat)
  | vStr (bytes : List Nat)
  | vBlob (bytes : List Nat)
  | vNumArray (k : BdIntKind) (xs : List Nat)
  | vStrArray (xs : List (List Nat))
deriving DecidableEq

/-- Dispatch to the writer of the value's type; each arm is by
definition the corresponding `BdWriter::write_*` of the source
(`writeBool`, `writeI8` … `writeF64`, `writeStr`, `writeBlob`,
`writeI8Array` … `writeU64Array`, `writeStrArray`). -/
def writeVal (s : BdWriterState) : BdVal → Except BdErr BdWriterState
  | .vBool b => writeBool s b
  | .vNum k x => writeScalar k.dtype k.width s x
  | .vStr bs => writeStr s bs
  | .vBlob bs => writeBlob s bs
  | .vNumArray k xs => writeScalarArray k.dtype k.width s xs
  | .vStrArray xs => writeStrArray s xs

/-- Dispatch to the reader of the value's type (the value argument only
selects which `BdReader::read_*` runs, exactly as a caller who wrote a
`T` calls `read_T`). -/
def readValLike (v : BdVal) (s : BdReaderState) :
    Except BdErr (BdVal × BdReaderState) :=
  match v with
  | .vBool _ => (readBool s).map (fun p => (.vBool p.1, p.2))
  | .vNum k _ => (readScalar k.dtype k.width s).map (fun p => (.vNum k p.1, p.2))
  | .vStr _ => (readStr s).map (fun p => (.vStr p.1, p.2))
  | .vBlob _ => (readBlob s).map (fun p => (.vBlob p.1, p.2))
  | .vNumArray k _ =>
    (readScalarArray k.dtype k.width s).map (fun p => (.vNumArray k p.1, p.2))
  | .vStrArray _ => (readStrArray s).map (fun p => (.vStrArray p.1, p.2))

/-- The mode/value combinations the API permits: bools and scalars work
in both modes, strings, blobs and arrays only in byte mode (their
writers and readers reject bit mode with `modeErr`). -/
def permittedMode (v : BdVal) (mode : StreamMode) : Bool :=
  match v with
  | .vBool _ => true
  | .vNum _ _ => true
  | _ => decide (mode = StreamMode.ByteMode)

/-- The Rust-type-level side conditions of a value in the embedding:
numeric patterns fit their width, usize lengths fit in `u32` (the
writers truncate with `as u32`), and strings are valid UTF-8 without
any NUL byte (NUL is the wire terminator). -/
def valWF : BdVal → Prop
  | .vBool _ => True
  | .vNum k x => x < 2 ^ (8 * k.width)
  | .vStr bs => (∀ y ∈ bs, y ≠ 0) ∧ validUtf8 bs = true
  | .vBlob bs => bs.length < 2 ^ 32
  | .vNumArray k xs => (∀ x ∈ xs, x < 2 ^ (8 * k.width)) ∧ xs.length < 2 ^ 32
  | .vStrArray xs =>
    (∀ bs ∈ xs, (∀ y ∈ bs, y ≠ 0) ∧ validUtf8 bs = true) ∧ xs.length < 2 ^ 32

theorem numKind_tag_lt (k : BdNumKind) : bdDataTypeVal k.dtype < 32 := by
  cases k with
  | int k' => cases k' <;> decide
  | f32 => decide
  | f64 => decide

theorem numKind_from (k : BdNumKind) :
    BufferDataType.fromValue (bdDataTypeVal k.dtype) =
      some (BufferDataType.noArray k.dtype) := by
  cases k with
  | int k' => cases k' <;> rfl
  | f32 => rfl
  | f64 => rfl

theorem intKind_fromArray (k : BdIntKind) :
    BufferDataType.fromValue (bdDataTypeVal k.dtype + arrayTypeOffset) =
      some (BufferDataType.array k.dtype) := by
  cases k <;> rfl

/-- C4 (amended): for every supported primitive value within its Rust
type's range — numeric patterns bounded by their width, array and blob
lengths representable as `u32`, strings (and string-array elements)
valid UTF-8 with no NUL byte — and for every stream-mode / type-checked
combination the API permits (bools and scalars in both modes, strings,
blobs and arrays in byte mode only), writing the value with a fresh
writer, flushing, and reading with an identically configured reader
yields the value back: `read(write(x)) = x`. -/
theorem c4_amended (v : BdVal) (mode : StreamMode) (tc : Bool)
    (hperm : permittedMode v mode = true) (hwf : valWF v) :
    ∃ w2 r2, writeVal (initWriter mode tc) v = .ok w2 ∧
      readValLike v (initReader (flushWriter w2).out mode tc) = .ok (v, r2) := by
  cases v with
  | vBool b =>
    cases mode with
    | BitMode =>
      obtain ⟨w2, r2, hw, hr⟩ := bool_roundtrip_bit b tc
      refine ⟨w2, r2, hw, ?_⟩
      rw [show readValLike (BdVal.vBool b)
        (initReader (flushWriter w2).out .BitMode tc) =
        (readBool (initReader (flushWriter w2).out .BitMode tc)).map
          (fun p => (BdVal.vBool p.1, p.2)) from rfl, hr]
      rfl
    | ByteMode =>
      obtain ⟨w2, r2, hw, hr⟩ := bool_roundtrip_byte b tc
      refine ⟨w2, r2, hw, ?_⟩
      rw [show readValLike (BdVal.vBool b)
        (initReader (flushWriter w2).out .ByteMode tc) =
        (readBool (initReader (flushWriter w2).out .ByteMode tc)).map
          (fun p => (BdVal.vBool p.1, p.2)) from rfl, hr]
      rfl
  | vNum k x =>
    cases mode with
    | BitMode =>
      obtain ⟨w2, r2, hw, hr⟩ := scalar_roundtrip_bit k.dtype k.width x tc hwf
        (numKind_tag_lt k) (numKind_from k)
      refine ⟨w2, r2, hw, ?_⟩
      rw [show readValLike (BdVal.vNum k x)
        (initReader (flushWriter w2).out .BitMode tc) =
        (readScalar k.dtype k.width
          (initReader (flushWriter w2).out .BitMode tc)).map
          (fun p => (BdVal.vNum k p.1, p.2)) from rfl, hr]
      rfl
    | ByteMode =>
      obtain ⟨w2, r2, hw, hr⟩ := scalar_roundtrip_byte k.dtype k.width x tc hwf
        (numKind_from k)
      refine ⟨w2, r2, hw, ?_⟩
      rw [show readValLike (BdVal.vNum k x)
        (initReader (flushWriter w2).out .ByteMode tc) =
        (readScalar k.dtype k.width
          (initReader (flushWriter w2).out .ByteMode tc)).map
          (fun p => (BdVal.vNum k p.1, p.2)) from rfl, hr]
      rfl
  | vStr bs =>
    cases mode with
    | BitMode => exact Bool.noConfusion hperm
    | ByteMode =>
      obtain ⟨w2, r2, hw, hr⟩ := str_roundtrip_byte bs tc hwf.1 hwf.2
      refine ⟨w2, r2, hw, ?_⟩
      rw [show readValLike (BdVal.vStr bs)
        (initReader (flushWriter w2).out .ByteMode tc) =
        (readStr (initReader (flushWriter w2).out .ByteMode tc)).map
          (fun p => (BdVal.vStr p.1, p.2)) from rfl, hr]
      rfl
  | vBlob bs =>
    cases mode with
    | BitMode => exact Bool.noConfusion hperm
    | ByteMode =>
      obtain ⟨w2, r2, hw, hr⟩ := blob_roundtrip_byte bs tc hwf
      refine ⟨w2, r2, hw, ?_⟩
      rw [show readValLike (BdVal.vBlob bs)
        (initReader (flushWriter w2).out .ByteMode tc) =
        (readBlob (initReader (flushWriter w2).out .ByteMode tc)).map
          (fun p => (BdVal.vBlob p.1, p.2)) from rfl, hr]
      rfl
  | vNumArray k xs =>
    cases mode with
    | BitMode => exact Bool.noConfusion hperm
    | ByteMode =>
      obtain ⟨w2, r2, hw, hr⟩ := scalarArray_roundtrip_byte k.dtype k.width xs tc
        hwf.1 hwf.2 (intKind_fromArray k)
      refine ⟨w2, r2, hw, ?_⟩
      rw [show readValLike (BdVal.vNumArray k xs)
        (initReader (flushWriter w2).out .ByteMode tc) =
        (readScalarArray k.dtype k.width
          (initReader (flushWriter w2).out .ByteMode tc)).map
          (fun p => (BdVal.vNumArray k p.1, p.2)) from rfl, hr]
      rfl
  | vStrArray xs =>
    cases mode with
    | BitMode => exact Bool.noConfusion hperm
    | ByteMode =>
      obtain ⟨w2, r2, hw, hr⟩ := strArray_roundtrip_byte xs tc hwf.1 hwf.2
      refine ⟨w2, r2, hw, ?_⟩
      rw [show readValLike (BdVal.vStrArray xs)
        (initReader (flushWriter w2).out .ByteMode tc) =
        (readStrArray (initReader (flushWriter w2).out .ByteMode tc)).map
          (fun p => (BdVal.vStrArray p.1, p.2)) from rfl, hr]
      rfl

/-- C4 counterexample to the unamended claim: the string `[97, 0, 98]`
(`"a\x00b"` — a supported `&str` value containing an interior NUL) is
written in byte mode, a permitted combination, yet reading yields
`[97]` (`"a"`): the NUL acts as the wire terminator and the data after
it is lost, so `read(write(x)) ≠ x`. -/
theorem c4_counterexample :
    (writeVal (initWriter .ByteMode false) (.vStr [97, 0, 98])).map
        (fun w => (readValLike (.vStr [97, 0, 98])
          (initReader (flushWriter w).out .ByteMode false)).map
          (fun p => p.1)) = .ok (.ok (.vStr [97])) ∧
      permittedMode (.vStr [97, 0, 98]) .ByteMode = true ∧
      BdVal.vStr [97] ≠ BdVal.vStr [97, 0, 98] :=
  ⟨rfl, rfl, by decide⟩

/-- Witness: the amended roundtrip at the concrete value `u32 0x32` in
type-checked bit mode and at the string `"ab"` in byte mode. -/
theorem c4_amended_witness :
    (permittedMode (.vNum (.int .u32) 0x32) .BitMode = true ∧
      valWF (.vNum (.int .u32) 0x32) ∧
      ∃ w2 r2, writeVal (initWriter .BitMode true) (.vNum (.int .u32) 0x32) =
          .ok w2 ∧
        readValLike (.vNum (.int .u32) 0x32)
          (initReader (flushWriter w2).out .BitMode true) =
          .ok (.vNum (.int .u32) 0x32, r2)) ∧
    (permittedMode (.vStr [97, 98]) .ByteMode = true ∧
      valWF (.vStr [97, 98]) ∧
      ∃ w2 r2, writeVal (initWriter .ByteMode true) (.vStr [97, 98]) = .ok w2 ∧
        readValLike (.vStr [97, 98])
          (initReader (flushWriter w2).out .ByteMode true) =
          .ok (.vStr [97, 98], r2)) :=
  ⟨⟨rfl, by unfold valWF; decide,
    c4_amended (.vNum (.int .u32) 0x32) .BitMode true rfl
      (by unfold valWF; decide)⟩,
   ⟨rfl, by unfold valWF; decide,
    c4_amended (.vStr [97, 98]) .ByteMode true rfl
      (by unfold valWF; decide)⟩⟩
